import Mathlib

/-!
# Verification of the card-collector reconciliation pipeline

Shallow embedding of the merge/dedupe/normalize scripts of the
`card-collector` repository, together with proofs and refutations of the
frozen specification claims.

Strings are modelled as Lean `String`s; the character-level operations of
the JavaScript source (trimming, parseInt, regex scans, Unicode folding)
are implemented over `List Char` and wrapped at the `String` boundary.
JavaScript numbers are modelled exactly (unbounded integers / rationals),
so float-rounding pathologies at magnitudes beyond 2^53 are outside the
model.
-/

namespace CardPipe

/-- Whitespace recognised by the model of `String.prototype.trim` /
`parseInt` skipping (ASCII whitespace subset of the JS definition). -/
def isWsChar (c : Char) : Bool :=
  c.toNat = 32 || c.toNat = 9 || c.toNat = 10 || c.toNat = 13 ||
  c.toNat = 11 || c.toNat = 12

/-- ASCII decimal digit test. -/
def isDigitCh (c : Char) : Bool :=
  48 ≤ c.toNat && c.toNat ≤ 57

theorem isDigitCh_not_ws {c : Char} (h : isDigitCh c = true) :
    isWsChar c = false := by
  simp only [isDigitCh, Bool.and_eq_true, decide_eq_true_eq] at h
  simp only [isWsChar, Bool.or_eq_false_iff, decide_eq_false_iff_not]
  omega

/-- JS `String.prototype.trim` on a character list. -/
def jsTrimChars (l : List Char) : List Char :=
  (l.dropWhile isWsChar).rdropWhile isWsChar

/-- JS `String.prototype.trim`. -/
def jsTrim (s : String) : String := ⟨jsTrimChars s.data⟩

theorem dropWhile_head_false (p : Char → Bool) :
    ∀ (l : List Char) (c : Char), (l.dropWhile p).head? = some c → p c = false := by
  intro l
  induction l with
  | nil => intro c h; simp [List.dropWhile] at h
  | cons a as ih =>
    intro c h
    by_cases hp : p a
    · rw [List.dropWhile_cons, if_pos hp] at h
      exact ih c h
    · rw [List.dropWhile_cons, if_neg hp] at h
      simp only [List.head?_cons, Option.some.injEq] at h
      subst h
      exact Bool.eq_false_iff.2 hp

theorem jsTrimChars_idem (l : List Char) :
    jsTrimChars (jsTrimChars l) = jsTrimChars l := by
  show ((jsTrimChars l).dropWhile isWsChar).rdropWhile isWsChar = jsTrimChars l
  have ht : (jsTrimChars l).dropWhile isWsChar = jsTrimChars l := by
    cases hh : jsTrimChars l with
    | nil => rfl
    | cons a as =>
      have hpref : jsTrimChars l <+: l.dropWhile isWsChar :=
        List.rdropWhile_prefix isWsChar (l.dropWhile isWsChar)
      obtain ⟨u, hu⟩ := hpref
      have hhead : (l.dropWhile isWsChar).head? = some a := by
        rw [← hu, hh]
        rfl
      have hws := dropWhile_head_false isWsChar l a hhead
      rw [List.dropWhile_cons, if_neg (by simp [hws])]
  rw [ht]
  exact List.rdropWhile_idempotent isWsChar (l.dropWhile isWsChar)

/-- A list all of whose characters fail `p` is untouched by `dropWhile`. -/
theorem dropWhile_of_all_neg {p : Char → Bool} {l : List Char}
    (h : ∀ c ∈ l, p c = false) : l.dropWhile p = l := by
  cases l with
  | nil => rfl
  | cons a as => simp [List.dropWhile_cons, h a (List.mem_cons_self a as)]

theorem rdropWhile_of_all_neg {p : Char → Bool} {l : List Char}
    (h : ∀ c ∈ l, p c = false) : l.rdropWhile p = l := by
  unfold List.rdropWhile
  rw [dropWhile_of_all_neg, List.reverse_reverse]
  intro c hc
  exact h c (List.mem_reverse.1 hc)

/-- Trimming a list with no whitespace anywhere is the identity. -/
theorem jsTrimChars_of_no_ws {l : List Char}
    (h : ∀ c ∈ l, isWsChar c = false) : jsTrimChars l = l := by
  unfold jsTrimChars
  rw [dropWhile_of_all_neg h, rdropWhile_of_all_neg h]

/-- Value of an ASCII digit character. -/
def digitVal (c : Char) : Nat := c.toNat - 48

/-- Numeric value of a digit-character list (most significant first). -/
def digitsVal (l : List Char) : Nat :=
  l.foldl (fun a c => 10 * a + digitVal c) 0

theorem foldl_digits_init (l : List Char) :
    ∀ a : Nat, l.foldl (fun a c => 10 * a + digitVal c) a =
      a * 10 ^ l.length + digitsVal l := by
  induction l with
  | nil => intro a; simp [digitsVal]
  | cons b bs ih =>
    intro a
    show bs.foldl _ (10 * a + digitVal b) = _
    rw [ih (10 * a + digitVal b)]
    have h2 : digitsVal (b :: bs) = (10 * 0 + digitVal b) * 10 ^ bs.length +
        digitsVal bs := by
      show bs.foldl _ (10 * 0 + digitVal b) = _
      rw [ih (10 * 0 + digitVal b)]
    rw [h2, List.length_cons]
    ring

/-- Digit character for `n % 10`-style rendering. -/
def digitCh (n : Nat) : Char :=
  match n with
  | 0 => '0' | 1 => '1' | 2 => '2' | 3 => '3' | 4 => '4'
  | 5 => '5' | 6 => '6' | 7 => '7' | 8 => '8' | _ => '9'

theorem digitCh_toNat {n : Nat} (h : n ≤ 9) : (digitCh n).toNat = 48 + n := by
  interval_cases n <;> rfl

theorem isDigitCh_digitCh {n : Nat} (h : n ≤ 9) : isDigitCh (digitCh n) = true := by
  interval_cases n <;> rfl

theorem digitVal_digitCh {n : Nat} (h : n ≤ 9) : digitVal (digitCh n) = n := by
  interval_cases n <;> rfl

/-- Fuel-driven digit rendering (structural, so the kernel can evaluate
it; the fuel is irrelevant whenever it exceeds the number). -/
def natToDigitsAux : Nat → Nat → List Char
  | 0, _ => []
  | fuel + 1, n =>
    if n < 10 then [digitCh n]
    else natToDigitsAux fuel (n / 10) ++ [digitCh (n % 10)]

theorem natToDigitsAux_fuel :
    ∀ (f1 f2 n : Nat), n < f1 → n < f2 →
      natToDigitsAux f1 n = natToDigitsAux f2 n := by
  intro f1
  induction f1 with
  | zero => intro f2 n h1 _; omega
  | succ g1 ih =>
    intro f2 n h1 h2
    cases f2 with
    | zero => omega
    | succ g2 =>
      show (if n < 10 then [digitCh n]
          else natToDigitsAux g1 (n / 10) ++ [digitCh (n % 10)]) =
        (if n < 10 then [digitCh n]
          else natToDigitsAux g2 (n / 10) ++ [digitCh (n % 10)])
      by_cases hn : n < 10
      · rw [if_pos hn, if_pos hn]
      · rw [if_neg hn, if_neg hn,
          ih g2 (n / 10) (by omega) (by omega)]

/-- Decimal rendering of a natural number, modelling JS `String(n)` for
non-negative integers (exact, within the float-exact range). -/
def natToDigits (n : Nat) : List Char := natToDigitsAux (n + 1) n

/-- The recursive unfolding of `natToDigits`. -/
theorem natToDigits_eq (n : Nat) :
    natToDigits n =
      if n < 10 then [digitCh n]
      else natToDigits (n / 10) ++ [digitCh (n % 10)] := by
  show (if n < 10 then [digitCh n]
      else natToDigitsAux n (n / 10) ++ [digitCh (n % 10)]) =
    (if n < 10 then [digitCh n]
      else natToDigitsAux (n / 10 + 1) (n / 10) ++ [digitCh (n % 10)])
  by_cases hn : n < 10
  · rw [if_pos hn, if_pos hn]
  · rw [if_neg hn, if_neg hn,
      natToDigitsAux_fuel n (n / 10 + 1) (n / 10) (by omega) (by omega)]

theorem natToDigits_ne_nil (n : Nat) : natToDigits n ≠ [] := by
  rw [natToDigits_eq]
  split
  · simp
  · simp

theorem natToDigits_all_digit (n : Nat) :
    ∀ c ∈ natToDigits n, isDigitCh c = true := by
  induction n using Nat.strong_induction_on with
  | _ n ih =>
    rw [natToDigits_eq]
    split
    · intro c hc
      rw [List.mem_singleton] at hc
      subst hc
      exact isDigitCh_digitCh (by omega)
    · intro c hc
      rcases List.mem_append.1 hc with h1 | h1
      · exact ih (n / 10) (Nat.div_lt_self (by omega) (by omega)) c h1
      · rw [List.mem_singleton] at h1
        subst h1
        exact isDigitCh_digitCh (Nat.le_of_lt_succ (Nat.mod_lt _ (by omega)))

theorem digitsVal_natToDigits (n : Nat) : digitsVal (natToDigits n) = n := by
  induction n using Nat.strong_induction_on with
  | _ n ih =>
    rw [natToDigits_eq]
    split
    · next h =>
      show digitsVal [digitCh n] = n
      show 10 * 0 + digitVal (digitCh n) = n
      rw [digitVal_digitCh (show n ≤ 9 by omega)]
      omega
    · next h =>
      unfold digitsVal
      rw [List.foldl_append]
      show 10 * digitsVal (natToDigits (n / 10)) + digitVal (digitCh (n % 10)) = n
      have h9 : n % 10 ≤ 9 := by omega
      rw [ih (n / 10) (Nat.div_lt_self (by omega) (by omega)),
        digitVal_digitCh h9]
      omega

theorem natToDigits_head_ne_zero (n : Nat) (hn : n ≠ 0) :
    ∃ c rest, natToDigits n = c :: rest ∧ c ≠ '0' := by
  induction n using Nat.strong_induction_on with
  | _ n ih =>
    rw [natToDigits_eq]
    split
    · next h =>
      refine ⟨digitCh n, [], rfl, ?_⟩
      intro hc
      have hv := digitCh_toNat (show n ≤ 9 by omega)
      rw [hc, show ('0' : Char).toNat = 48 from rfl] at hv
      omega
    · next h =>
      obtain ⟨c, rest, heq, hne⟩ := ih (n / 10)
        (Nat.div_lt_self (by omega) (by omega)) (by omega)
      exact ⟨c, rest ++ [digitCh (n % 10)], by rw [heq]; rfl, hne⟩

theorem takeWhile_of_all {p : Char → Bool} {l : List Char}
    (h : ∀ c ∈ l, p c = true) : l.takeWhile p = l := by
  induction l with
  | nil => rfl
  | cons a as ih =>
    rw [List.takeWhile_cons, if_pos (h a (List.mem_cons_self a as))]
    rw [ih (fun c hc => h c (List.mem_cons_of_mem a hc))]

/-- Leading decimal-digit run; `none` models the empty run (`parseInt` NaN). -/
def leadDigits (l : List Char) : Option (List Char) :=
  let ds := l.takeWhile isDigitCh
  if ds.isEmpty then none else some ds

/-- Model of `parseInt(s, 10)` on a character list: optional sign, then the
leading digit run; `none` models `NaN`.  Exact-integer model of the JS
float result (faithful within the float-exact range). -/
def parseIntChars : List Char → Option Int
  | [] => none
  | c :: rest =>
    if c.toNat = 45 then (leadDigits rest).map (fun ds => -(digitsVal ds : Int))
    else if c.toNat = 43 then (leadDigits rest).map (fun ds => (digitsVal ds : Int))
    else (leadDigits (c :: rest)).map (fun ds => (digitsVal ds : Int))

/-- `parseInt(String(x).trim(), 10)` as used throughout the scripts. -/
def jsParseInt (s : String) : Option Int := parseIntChars (jsTrimChars s.data)

/-- JS `String(z)` for an exact integer value. -/
def intToChars (z : Int) : List Char :=
  if z < 0 then '-' :: natToDigits z.natAbs else natToDigits z.natAbs

def intToString (z : Int) : String := ⟨intToChars z⟩

/-- JS `String(n)` for a non-negative value. -/
def natToString (n : Nat) : String := ⟨natToDigits n⟩

theorem parseIntChars_natToDigits (n : Nat) :
    parseIntChars (natToDigits n) = some (n : Int) := by
  cases heq : natToDigits n with
  | nil => exact absurd heq (natToDigits_ne_nil n)
  | cons c cs =>
    have hcdig : isDigitCh c = true := by
      have := natToDigits_all_digit n c
      rw [heq] at this
      exact this (List.mem_cons_self c cs)
    have hc48 : 48 ≤ c.toNat ∧ c.toNat ≤ 57 := by
      simp only [isDigitCh, Bool.and_eq_true, decide_eq_true_eq] at hcdig
      exact hcdig
    have halldig : ∀ d ∈ c :: cs, isDigitCh d = true := by
      intro d hd
      have := natToDigits_all_digit n d
      rw [heq] at this
      exact this hd
    rw [parseIntChars]
    rw [if_neg (by omega), if_neg (by omega)]
    have hval : digitsVal (c :: cs) = n := by rw [← heq, digitsVal_natToDigits]
    simp [leadDigits, takeWhile_of_all halldig, hval]

theorem natToDigits_no_ws (n : Nat) :
    ∀ c ∈ natToDigits n, isWsChar c = false :=
  fun c hc => isDigitCh_not_ws (natToDigits_all_digit n c hc)

theorem jsParseInt_natToString (n : Nat) :
    jsParseInt (natToString n) = some (n : Int) := by
  unfold jsParseInt natToString
  rw [show (String.mk (natToDigits n)).data = natToDigits n from rfl,
    jsTrimChars_of_no_ws (natToDigits_no_ws n), parseIntChars_natToDigits]

/-- A rendered natural is never blank after trimming (its head is a digit). -/
theorem jsTrimChars_natToDigits (n : Nat) :
    jsTrimChars (natToDigits n) = natToDigits n :=
  jsTrimChars_of_no_ws (natToDigits_no_ws n)

/-! ## JavaScript objects as association lists

A parsed row is a JavaScript object; we model it as an ordered association
list from column name to cell string.  `getv` is property read defaulted to
the empty string (`row[k] ?? ""`), `hasK` is the `in` operator, and `setv`
is property assignment (updates an existing key in place, else appends —
matching JS property-insertion order). -/

abbrev Obj := List (String × String)

/-- First entry for a key (JS objects have at most one entry per key). -/
def getEnt {α : Type} : List (String × α) → String → Option α
  | [], _ => none
  | e :: rest, k => if e.1 = k then some e.2 else getEnt rest k

def getv (o : Obj) (k : String) : String := (getEnt o k).getD ""

def hasK (o : Obj) (k : String) : Bool := (getEnt o k).isSome

/-- JS property / map assignment `o[k] = v`: update in place, else append. -/
def setv {α : Type} : List (String × α) → String → α → List (String × α)
  | [], k, v => [(k, v)]
  | e :: rest, k, v =>
    if e.1 = k then (e.1, v) :: rest else e :: setv rest k v

theorem getEnt_setv_poly {α : Type} (o : List (String × α)) (k : String)
    (v : α) (k' : String) :
    getEnt (setv o k v) k' = if k' = k then some v else getEnt o k' := by
  induction o with
  | nil =>
    show getEnt [(k, v)] k' = _
    by_cases h : k' = k
    · rw [if_pos h]
      show (if k = k' then some v else getEnt [] k') = some v
      rw [if_pos h.symm]
    · rw [if_neg h]
      show (if k = k' then some v else getEnt [] k') = getEnt [] k'
      rw [if_neg (fun hh => h hh.symm)]
  | cons e rest ih =>
    show getEnt (if e.1 = k then (e.1, v) :: rest else e :: setv rest k v) k' = _
    by_cases he : e.1 = k
    · rw [if_pos he]
      by_cases h : k' = k
      · rw [if_pos h]
        show (if e.1 = k' then some v else getEnt rest k') = some v
        rw [if_pos (he.trans h.symm)]
      · rw [if_neg h]
        show (if e.1 = k' then some v else getEnt rest k') = getEnt (e :: rest) k'
        have hne : e.1 ≠ k' := fun hh => h (hh.symm.trans he)
        rw [if_neg hne]
        show getEnt rest k' = if e.1 = k' then some e.2 else getEnt rest k'
        rw [if_neg hne]
    · rw [if_neg he]
      show (if e.1 = k' then some e.2 else getEnt (setv rest k v) k') = _
      by_cases h : k' = k
      · rw [if_pos h]
        rw [if_neg (fun hh : e.1 = k' => he (hh.trans h)), ih, if_pos h]
      · rw [if_neg h]
        show _ = if e.1 = k' then some e.2 else getEnt rest k'
        by_cases h2 : e.1 = k'
        · rw [if_pos h2, if_pos h2]
        · rw [if_neg h2, if_neg h2, ih, if_neg h]

theorem getEnt_append_single {α : Type} (m : List (String × α))
    (k k2 : String) (v : α) :
    getEnt (m ++ [(k2, v)]) k =
      match getEnt m k with
      | some e => some e
      | none => if k2 = k then some v else none := by
  induction m with
  | nil =>
    show (if k2 = k then some v else (getEnt [] k : Option α)) = _
    have hnil : getEnt ([] : List (String × α)) k = none := rfl
    rw [hnil]
  | cons e rest ih =>
    show (if e.1 = k then some e.2 else getEnt (rest ++ [(k2, v)]) k) = _
    by_cases he : e.1 = k
    · rw [if_pos he]
      have hc : getEnt (e :: rest) k = some e.2 := by
        show (if e.1 = k then some e.2 else getEnt rest k) = _
        rw [if_pos he]
      rw [hc]
    · rw [if_neg he, ih]
      have hc : getEnt (e :: rest) k = getEnt rest k := by
        show (if e.1 = k then some e.2 else getEnt rest k) = _
        rw [if_neg he]
      rw [hc]

theorem getEnt_setv (o : Obj) (k v k' : String) :
    getEnt (setv o k v) k' = if k' = k then some v else getEnt o k' :=
  getEnt_setv_poly o k v k'

theorem getv_setv_same (o : Obj) (k v : String) : getv (setv o k v) k = v := by
  unfold getv
  rw [getEnt_setv, if_pos rfl]
  rfl

theorem getv_setv_other (o : Obj) (k v k' : String) (h : k' ≠ k) :
    getv (setv o k v) k' = getv o k' := by
  unfold getv
  rw [getEnt_setv, if_neg h]

theorem hasK_setv (o : Obj) (k v k' : String) :
    hasK (setv o k v) k' = (k' == k || hasK o k') := by
  unfold hasK
  rw [getEnt_setv]
  by_cases h : k' = k
  · rw [if_pos h]
    simp [h]
  · rw [if_neg h]
    simp [h]

theorem hasK_of_getv_ne (o : Obj) (k : String) (h : getv o k ≠ "") :
    hasK o k = true := by
  unfold getv at h
  unfold hasK
  cases hl : getEnt o k with
  | none => rw [hl] at h; simp at h
  | some w => simp

/-- Blank test `!String(v).trim()` used throughout the scripts. -/
def isBlank (s : String) : Bool := (jsTrimChars s.data).isEmpty

theorem toNat_ofNat_lt {n : Nat} (h1 : n < 0xd800) : (Char.ofNat n).toNat = n := by
  have hv : Nat.isValidChar n := Or.inl h1
  rw [Char.ofNat, dif_pos hv]
  simp [Char.ofNatAux, Char.toNat, UInt32.toNat, UInt32.ofNatTruncate, UInt32.ofNat']

/-! ## Case folding and whitespace collapsing

`toLowerCase` is modelled on ASCII letters plus the precomposed Latin
vowels occurring in this repository's data (Á É Í Ó Ú Ñ Ü); all other
characters map to themselves. -/

/-- Lower-casing of the precomposed accented Latin capitals in the model's
alphabet (Á→á É→é Í→í Ó→ó Ú→ú Ñ→ñ Ü→ü), identity elsewhere. -/
def accentLower (c : Char) : Char :=
  if c.toNat = 193 then 'á' else if c.toNat = 201 then 'é'
  else if c.toNat = 205 then 'í' else if c.toNat = 211 then 'ó'
  else if c.toNat = 218 then 'ú' else if c.toNat = 209 then 'ñ'
  else if c.toNat = 220 then 'ü' else c

/-- Model of JS `toLowerCase` on one character. -/
def jsLowerCh (c : Char) : Char :=
  if 65 ≤ c.toNat ∧ c.toNat ≤ 90 then Char.ofNat (c.toNat + 32)
  else accentLower c

theorem accentLower_of_lt {c : Char} (h : c.toNat < 193) : accentLower c = c := by
  unfold accentLower
  rw [if_neg (by intro hh; omega), if_neg (by omega),
    if_neg (by intro hh; omega), if_neg (by omega),
    if_neg (by intro hh; omega), if_neg (by omega),
    if_neg (by intro hh; omega)]

theorem jsLowerCh_of_lt_65 {c : Char} (h : c.toNat < 65) : jsLowerCh c = c := by
  unfold jsLowerCh
  rw [if_neg (by omega), accentLower_of_lt (by omega)]

/-- Replace each maximal run of `sep`-characters by the single character
`emit`; the boolean tracks whether a run is in progress (models
`replace(/run+/g, emit)`). -/
def collapseRuns (sep : Char → Bool) (emit : Char) : List Char → Bool → List Char
  | [], _ => []
  | c :: cs, inSep =>
    if sep c then
      if inSep then collapseRuns sep emit cs true
      else emit :: collapseRuns sep emit cs true
    else c :: collapseRuns sep emit cs false

/-! ## Decimal literals: model of `Number()` and `String()` on floats

`Number(s)` is modelled for plain decimal literals (optional sign, digits,
optional fraction); `String(x)` for such values is the canonical decimal
rendering (no leading/trailing zero digits, `-0` rendered `0`).  Exponent
and hexadecimal literal forms, and float rounding beyond the exact range,
are outside the model. -/

/-- Split an unsigned decimal literal into integer and fraction digit runs;
`none` models `NaN`. -/
def jsNumBody (l : List Char) : Option (List Char × List Char) :=
  let ip := l.takeWhile isDigitCh
  match l.drop ip.length with
  | [] => if ip.isEmpty then none else some (ip, [])
  | c :: fr =>
    if c.toNat = 46 then
      let fp := fr.takeWhile isDigitCh
      if fp.length ≠ fr.length then none
      else if ip.isEmpty && fp.isEmpty then none
      else some (ip, fp)
    else none

/-- Sign plus digit runs of a decimal literal; `none` models `NaN`. -/
def jsNumParse (l : List Char) : Option (Bool × List Char × List Char) :=
  match l with
  | c :: rest =>
    if c.toNat = 45 then (jsNumBody rest).map (fun p => (true, p.1, p.2))
    else if c.toNat = 43 then (jsNumBody rest).map (fun p => (false, p.1, p.2))
    else (jsNumBody (c :: rest)).map (fun p => (false, p.1, p.2))
  | [] => none

/-- Exact value of a parsed decimal literal. -/
def decVal (neg : Bool) (ip fp : List Char) : ℚ :=
  (if neg then -1 else 1) *
    ((digitsVal ip : ℚ) + (digitsVal fp : ℚ) / (10 ^ fp.length : ℚ))

/-- Canonical rendering of a decimal literal: JS `String()` of its value. -/
def renderDec (neg : Bool) (ip fp : List Char) : List Char :=
  let i0 := ip.dropWhile (fun c => c.toNat = 48)
  let i := if i0.isEmpty then ['0'] else i0
  let f := (fp.reverse.dropWhile (fun c => c.toNat = 48)).reverse
  if i = ['0'] ∧ f = [] then ['0']
  else
    let mag := if f.isEmpty then i else i ++ '.' :: f
    if neg then '-' :: mag else mag

/-- `Number(l)` (value model); the empty string is `0`. -/
def jsNumber (l : List Char) : Option ℚ :=
  if l.isEmpty then some 0
  else (jsNumParse l).map (fun t => decVal t.1 t.2.1 t.2.2)

/-- `Number(l)` together with `String()` of the result. -/
def jsNumberR (l : List Char) : Option (ℚ × String) :=
  if l.isEmpty then some (0, "0")
  else (jsNumParse l).map
    (fun t => (decVal t.1 t.2.1 t.2.2, ⟨renderDec t.1 t.2.1 t.2.2⟩))

/-- Hexadecimal digit character. -/
def hexDigitCh (n : Nat) : Char :=
  if n < 10 then digitCh n
  else if n = 10 then 'a' else if n = 11 then 'b' else if n = 12 then 'c'
  else if n = 13 then 'd' else if n = 14 then 'e' else 'f'

/-- `n.toString(16)` (fuel-driven, structural). -/
def natToHexAux : Nat → Nat → List Char
  | 0, _ => []
  | fuel + 1, n =>
    if n < 16 then [hexDigitCh n]
    else natToHexAux fuel (n / 16) ++ [hexDigitCh (n % 16)]

def natToHexDigits (n : Nat) : List Char := natToHexAux (n + 1) n

/-- Simplified monotone model of `Date.parse(ts) || 0`: the digit string of
an ISO timestamp read as a number (preserves chronological order on ISO
strings, `0` on digit-free input). -/
def jsDateParse (s : String) : Nat := digitsVal (s.data.filter isDigitCh)

namespace Dedupe

/-! Embedding of the parallel-aware inventory deduper
(`src/unnamed/part_001`): `norm`, `normKey`, `toInt`, `toFloat`,
`newestByTimestamp`, `buildDedupeKey`, `mergeRows` and the key-indexed
dedupe pass of `main`. -/

/-- JS `Math.max` on exact integers. -/
def mathMax (a b : Int) : Int := if a < b then b else a

/-- `norm`: trim and collapse internal whitespace runs to single spaces. -/
def norm (s : String) : String :=
  ⟨collapseRuns isWsChar ' ' (jsTrimChars s.data) false⟩

/-- `normKey`: `norm` lower-cased.  No deburring happens here. -/
def normKey (s : String) : String := ⟨(norm s).data.map jsLowerCh⟩

/-- `toInt`: `parseInt` with fallback. -/
def toInt (x : String) (fallback : Int) : Int := (jsParseInt x).getD fallback

/-- `toFloat` (with rendering): trim; blank is `null`; strip all characters
but digits, `.`, `-`; then `Number()`. -/
def toFloatR (x : String) : Option (ℚ × String) :=
  let t := jsTrimChars x.data
  if t.isEmpty then none
  else jsNumberR (t.filter (fun c => isDigitCh c || c.toNat = 46 || c.toNat = 45))

/-- `newestByTimestamp`: prefer the row with the newer timestamp. -/
def newestByTimestamp (a b : Obj) : Obj :=
  let ta := jsDateParse (getv a "timestamp")
  let tb := jsDateParse (getv b "timestamp")
  if tb ≥ ta then b else a

/-- Deterministic stand-in for the truncated SHA-1 hex digest used in
synthesized ids (the digest itself is opaque to the claims). -/
def sha1 (s : String) : String :=
  ⟨natToHexDigits (s.data.foldl (fun h c => (h * 31 + c.toNat) % 4294967296) 7)⟩

/-- `buildDedupeKey`: the parallel-aware Strict Duplicate Key. -/
def buildDedupeKey (o : Obj) : String :=
  String.intercalate "|"
    ([ "sport", "year", "set", "subset", "card_number", "player", "team",
       "league", "parallel", "insert", "rookie", "autograph",
       "serial_number", "grade", "condition" ].map
      (fun f => normKey (getv o f)))

/-- Blank-filling loop of `mergeRows` (`--fill-blanks`). -/
def fillBlanksFold (headers : List String) (newRow : Obj) (m1 : Obj) : Obj :=
  headers.foldl (fun m h =>
    if isBlank (getv m h) && !(isBlank (getv newRow h)) then
      setv m h (getv newRow h)
    else m) m1

/-- The numeric-ish fields of `mergeRows`, restricted to present headers. -/
def numericFields (headers : List String) : List String :=
  ["value", "purchase_price", "market_avg_ebay_90d_usd",
   "last_sold_raw_usd"].filter (fun f => headers.contains f)

/-- One field of the value-merge strategy loop of `mergeRows`
(`--merge-values`): `String(Math.max(a ?? -Infinity, b ?? -Infinity))`
and friends, written by picking the canonical rendering of the winning
operand. -/
def mvStep (oldRow newRow : Obj) (mv : String) (m : Obj) (f : String) : Obj :=
  let a := toFloatR (getv oldRow f)
  let b := toFloatR (getv newRow f)
  match a, b with
  | none, none => m
  | _, _ =>
    if mv = "max" then
      match a, b with
      | some pa, some pb => setv m f (if pa.1 < pb.1 then pb.2 else pa.2)
      | some pa, none => setv m f pa.2
      | none, some pb => setv m f pb.2
      | none, none => m
    else if mv = "min" then
      match a, b with
      | some pa, some pb => setv m f (if pb.1 < pa.1 then pb.2 else pa.2)
      | some pa, none => setv m f pa.2
      | none, some pb => setv m f pb.2
      | none, none => m
    else if mv = "newest" then
      match toFloatR (getv (newestByTimestamp oldRow newRow) f) with
      | some pv => setv m f pv.2
      | none => m
    else m

/-- Value-merge strategy loop of `mergeRows` (`--merge-values`). -/
def numericMergeFold (oldRow newRow : Obj) (mv : String)
    (fields : List String) (m2 : Obj) : Obj :=
  fields.foldl (mvStep oldRow newRow mv) m2

/-- Timestamp retention of `mergeRows`: keep the newest. -/
def timestampStage (oldRow newRow : Obj) (headers : List String)
    (m3 : Obj) : Obj :=
  if headers.contains "timestamp" then
    setv m3 "timestamp"
      (let t := getv (newestByTimestamp oldRow newRow) "timestamp"
       if t ≠ "" then t else getv m3 "timestamp")
  else m3

/-- Notes concatenation of `mergeRows`. -/
def notesStage (oldRow newRow : Obj) (headers : List String)
    (m4 : Obj) : Obj :=
  if headers.contains "notes" then
    let a := norm (getv oldRow "notes")
    let b := norm (getv newRow "notes")
    if a ≠ "" ∧ b ≠ "" ∧ a ≠ b then setv m4 "notes" (a ++ " | " ++ b)
    else setv m4 "notes" (if a ≠ "" then a else b)
  else m4

/-- Id retention / synthesis of `mergeRows`. -/
def idStage (oldRow newRow : Obj) (headers : List String) (m5 : Obj) : Obj :=
  if headers.contains "id" then
    let m6 := if norm (getv oldRow "id") = "" ∧ norm (getv newRow "id") ≠ "" then
        setv m5 "id" (getv newRow "id")
      else m5
    if norm (getv m6 "id") = "" then
      setv m6 "id" ("c_" ++ sha1 (buildDedupeKey m6))
    else m6
  else m5

/-- `mergeRows` of the deduper: quantity summed, optional blank-filling,
optional numeric merge strategy, newest timestamp, notes concatenation,
id retention/synthesis. -/
def mergeRows (oldRow newRow : Obj) (headers : List String)
    (fill : Bool) (mv : String) : Obj :=
  let qOld := toInt (getv oldRow "quantity") 1
  let qNew := toInt (getv newRow "quantity") 1
  let m1 := setv oldRow "quantity" (intToString (mathMax 0 qOld + mathMax 0 qNew))
  let m2 := if fill then fillBlanksFold headers newRow m1 else m1
  let m3 := if mv ≠ "keep_old" then
      numericMergeFold oldRow newRow mv (numericFields headers) m2
    else m2
  let m4 := timestampStage oldRow newRow headers m3
  let m5 := notesStage oldRow newRow headers m4
  idStage oldRow newRow headers m5

/-- Key-indexed accumulator of the dedupe pass (`Map` of `main`). -/
abbrev RowMap := List (String × Obj)

/-- One step of the dedupe loop of `main`: first occurrence of a key is
stored; later occurrences are merged into the stored row. -/
def dedupeStep (headers : List String) (fill : Bool) (mv : String)
    (m : RowMap) (o : Obj) : RowMap :=
  let key := buildDedupeKey o
  match getEnt m key with
  | none => m ++ [(key, o)]
  | some existing => setv m key (mergeRows existing o headers fill mv)

/-- The dedupe pass of `main`: fold all rows into the key-indexed map. -/
def dedupePass (objects : List Obj) (headers : List String)
    (fill : Bool) (mv : String) : RowMap :=
  objects.foldl (dedupeStep headers fill mv) []

/-- Merging a whole duplicate group left-to-right, as the pass does. -/
def groupMerge (headers : List String) (fill : Bool) (mv : String)
    (o : Obj) (rest : List Obj) : Obj :=
  rest.foldl (fun acc r => mergeRows acc r headers fill mv) o

/-- The quantity of a record as the dedupe merge reads it: integer parse
with fallback 1, clamped to be non-negative. -/
def readQty (o : Obj) : Nat := (toInt (getv o "quantity") 1).toNat

theorem intToChars_no_ws (z : Int) : ∀ c ∈ intToChars z, isWsChar c = false := by
  intro c hc
  unfold intToChars at hc
  by_cases hz : z < 0
  · rw [if_pos hz] at hc
    rcases List.mem_cons.1 hc with h1 | h1
    · subst h1
      rfl
    · exact natToDigits_no_ws _ c h1
  · rw [if_neg hz] at hc
    exact natToDigits_no_ws _ c hc

theorem isBlank_intToString (z : Int) : isBlank (intToString z) = false := by
  unfold isBlank intToString
  rw [show (String.mk (intToChars z)).data = intToChars z from rfl,
    jsTrimChars_of_no_ws (intToChars_no_ws z)]
  unfold intToChars
  split
  · rfl
  · cases hh : natToDigits z.natAbs with
    | nil => exact absurd hh (natToDigits_ne_nil _)
    | cons c cs => rfl

theorem leadDigits_natToDigits (n : Nat) :
    leadDigits (natToDigits n) = some (natToDigits n) := by
  unfold leadDigits
  rw [takeWhile_of_all (natToDigits_all_digit n)]
  cases hh : natToDigits n with
  | nil => exact absurd hh (natToDigits_ne_nil n)
  | cons c cs => rfl

theorem toInt_intToString (z f : Int) : toInt (intToString z) f = z := by
  unfold toInt jsParseInt intToString
  rw [show (String.mk (intToChars z)).data = intToChars z from rfl,
    jsTrimChars_of_no_ws (intToChars_no_ws z)]
  unfold intToChars
  split
  · next hneg =>
    rw [show parseIntChars ('-' :: natToDigits z.natAbs) =
        (leadDigits (natToDigits z.natAbs)).map
          (fun ds => -(digitsVal ds : Int)) from by rw [parseIntChars]; rfl]
    rw [leadDigits_natToDigits]
    show -(digitsVal (natToDigits z.natAbs) : Int) = z
    rw [digitsVal_natToDigits]
    omega
  · next hpos =>
    rw [parseIntChars_natToDigits]
    show (z.natAbs : Int) = z
    omega

/-- The blank-filling loop never touches a non-blank field value. -/
theorem fillBlanksFold_quantity (newRow : Obj) :
    ∀ (headers : List String) (m : Obj),
      isBlank (getv m "quantity") = false →
      getv (fillBlanksFold headers newRow m) "quantity" = getv m "quantity" := by
  intro headers
  induction headers with
  | nil => intro m _; rfl
  | cons hd tl ih =>
    intro m hm
    unfold fillBlanksFold
    rw [List.foldl_cons]
    have hstep : getv (if isBlank (getv m hd) && !(isBlank (getv newRow hd)) then
        setv m hd (getv newRow hd) else m) "quantity" = getv m "quantity" := by
      by_cases hq : hd = "quantity"
      · subst hq
        rw [hm]
        simp
      · split
        · exact getv_setv_other _ _ _ _ (fun he => hq he.symm)
        · rfl
    exact (ih _ (by rw [hstep]; exact hm)).trans hstep

/-- One numeric-strategy step only writes its own field. -/
theorem mvStep_getv_other (oldRow newRow : Obj) (mv : String) (m : Obj)
    (f k : String) (hk : k ≠ f) :
    getv (mvStep oldRow newRow mv m f) k = getv m k := by
  unfold mvStep
  cases ha : toFloatR (getv oldRow f) <;> cases hb : toFloatR (getv newRow f) <;>
    first
      | rfl
      | ((repeat' split) <;>
          first
            | rfl
            | exact getv_setv_other _ _ _ _ hk)

theorem numericMergeFold_getv (oldRow newRow : Obj) (mv : String) :
    ∀ (fields : List String) (m : Obj), (∀ f ∈ fields, f ≠ "quantity") →
      getv (numericMergeFold oldRow newRow mv fields m) "quantity" =
        getv m "quantity" := by
  intro fields
  induction fields with
  | nil => intro m _; rfl
  | cons f fs ih =>
    intro m hf
    unfold numericMergeFold
    rw [List.foldl_cons]
    have hstep := mvStep_getv_other oldRow newRow mv m f "quantity"
      (hf f (List.mem_cons_self f fs)).symm
    exact (ih _ (fun g hg => hf g (List.mem_cons_of_mem f hg))).trans hstep

theorem timestampStage_quantity (o n : Obj) (hs : List String) (m : Obj) :
    getv (timestampStage o n hs m) "quantity" = getv m "quantity" := by
  unfold timestampStage
  split
  · exact getv_setv_other _ _ _ _ (by decide)
  · rfl

theorem notesStage_quantity (o n : Obj) (hs : List String) (m : Obj) :
    getv (notesStage o n hs m) "quantity" = getv m "quantity" := by
  unfold notesStage
  split
  · show getv (if norm (getv o "notes") ≠ "" ∧ norm (getv n "notes") ≠ "" ∧
        norm (getv o "notes") ≠ norm (getv n "notes") then
          setv m "notes" (norm (getv o "notes") ++ " | " ++ norm (getv n "notes"))
        else setv m "notes" (if norm (getv o "notes") ≠ "" then
          norm (getv o "notes") else norm (getv n "notes"))) "quantity" =
      getv m "quantity"
    split
    · exact getv_setv_other _ _ _ _ (by decide)
    · exact getv_setv_other _ _ _ _ (by decide)
  · rfl

theorem idStage_quantity (o n : Obj) (hs : List String) (m : Obj) :
    getv (idStage o n hs m) "quantity" = getv m "quantity" := by
  unfold idStage
  split
  · have h6 : ∀ m6 : Obj, getv m6 "quantity" = getv m "quantity" →
        getv (if norm (getv m6 "id") = "" then
          setv m6 "id" ("c_" ++ sha1 (buildDedupeKey m6)) else m6) "quantity" =
        getv m "quantity" := by
      intro m6 h6
      split
      · exact (getv_setv_other _ _ _ _ (by decide)).trans h6
      · exact h6
    split
    · exact h6 _ (getv_setv_other _ _ _ _ (by decide))
    · exact h6 _ rfl
  · rfl

/-- The merged quantity is always the rendered clamped sum. -/
theorem mergeRows_quantity (o n : Obj) (hs : List String) (fill : Bool)
    (mv : String) :
    getv (mergeRows o n hs fill mv) "quantity" =
      intToString (mathMax 0 (toInt (getv o "quantity") 1) +
        mathMax 0 (toInt (getv n "quantity") 1)) := by
  unfold mergeRows
  rw [idStage_quantity, notesStage_quantity, timestampStage_quantity]
  have hq : ∀ f ∈ numericFields hs, f ≠ "quantity" := by
    intro f hf
    have hmem := (List.mem_filter.1 hf).1
    simp only [List.mem_cons, List.not_mem_nil, or_false] at hmem
    rcases hmem with rfl | rfl | rfl | rfl <;> decide
  have hm1 : getv (setv o "quantity" (intToString (mathMax 0 (toInt (getv o "quantity") 1) +
      mathMax 0 (toInt (getv n "quantity") 1)))) "quantity" =
      intToString (mathMax 0 (toInt (getv o "quantity") 1) +
        mathMax 0 (toInt (getv n "quantity") 1)) := getv_setv_same _ _ _
  have hm2 : getv (if fill then fillBlanksFold hs n
      (setv o "quantity" (intToString (mathMax 0 (toInt (getv o "quantity") 1) +
        mathMax 0 (toInt (getv n "quantity") 1))))
      else (setv o "quantity" (intToString (mathMax 0 (toInt (getv o "quantity") 1) +
        mathMax 0 (toInt (getv n "quantity") 1))))) "quantity" =
      intToString (mathMax 0 (toInt (getv o "quantity") 1) +
        mathMax 0 (toInt (getv n "quantity") 1)) := by
    split
    · rw [fillBlanksFold_quantity _ _ _ (by rw [hm1]; exact isBlank_intToString _)]
      exact hm1
    · exact hm1
  split
  · rw [numericMergeFold_getv _ _ _ _ _ hq]
    exact hm2
  · exact hm2

/-- Reading back the merged quantity gives the exact clamped sum. -/
theorem readQty_mergeRows (o n : Obj) (hs : List String) (fill : Bool)
    (mv : String) :
    readQty (mergeRows o n hs fill mv) = readQty o + readQty n := by
  unfold readQty
  rw [mergeRows_quantity, toInt_intToString]
  unfold mathMax
  split <;> split <;> omega

theorem readQty_groupMerge (hs : List String) (fill : Bool) (mv : String) :
    ∀ (rest : List Obj) (o : Obj),
      readQty (groupMerge hs fill mv o rest) =
        readQty o + (rest.map readQty).sum := by
  intro rest
  induction rest with
  | nil => intro o; simp [groupMerge]
  | cons r rs ih =>
    intro o
    unfold groupMerge
    rw [List.foldl_cons]
    have := ih (mergeRows o r hs fill mv)
    unfold groupMerge at this
    rw [this, readQty_mergeRows]
    simp [Nat.add_assoc]

/-- What the key-indexed map holds after folding a row list: exactly the
left fold of `mergeRows` over each key's group, in input order. -/
theorem dedupePass_lookup (hs : List String) (fill : Bool) (mv : String) :
    ∀ (objs : List Obj) (m : RowMap) (k : String),
      getEnt (objs.foldl (dedupeStep hs fill mv) m) k =
        match getEnt m k, objs.filter (fun o => buildDedupeKey o = k) with
        | none, [] => none
        | none, o :: rest => some (groupMerge hs fill mv o rest)
        | some e, g => some (groupMerge hs fill mv e g) := by
  intro objs
  induction objs with
  | nil =>
    intro m k
    rw [List.foldl_nil, List.filter_nil]
    cases hm : getEnt m k with
    | none => rfl
    | some e => rfl
  | cons o os ih =>
    intro m k
    rw [List.foldl_cons, ih (dedupeStep hs fill mv m o) k]
    by_cases hk : buildDedupeKey o = k
    · rw [List.filter_cons_of_pos (by simp [hk])]
      cases hm : getEnt m (buildDedupeKey o) with
      | none =>
        have hstep : dedupeStep hs fill mv m o = m ++ [(buildDedupeKey o, o)] := by
          simp only [dedupeStep, hm]
        have hmk : getEnt m k = none := by rw [← hk]; exact hm
        have h1 : getEnt (m ++ [(buildDedupeKey o, o)]) k = some o := by
          rw [getEnt_append_single, hmk, if_pos hk]
        rw [hstep, h1, hmk]
      | some e =>
        have hstep : dedupeStep hs fill mv m o =
            setv m (buildDedupeKey o) (mergeRows e o hs fill mv) := by
          simp only [dedupeStep, hm]
        have hmk : getEnt m k = some e := by rw [← hk]; exact hm
        have h1 : getEnt (setv m (buildDedupeKey o)
            (mergeRows e o hs fill mv)) k = some (mergeRows e o hs fill mv) := by
          rw [getEnt_setv_poly, if_pos hk.symm]
        rw [hstep, h1, hmk]
        rfl
    · rw [List.filter_cons_of_neg (by simp [hk])]
      have h1 : getEnt (dedupeStep hs fill mv m o) k = getEnt m k := by
        cases hm : getEnt m (buildDedupeKey o) with
        | none =>
          have hstep : dedupeStep hs fill mv m o = m ++ [(buildDedupeKey o, o)] := by
            simp only [dedupeStep, hm]
          rw [hstep, getEnt_append_single]
          cases hmk : getEnt m k with
          | none => rw [if_neg hk]
          | some e => rfl
        | some e =>
          have hstep : dedupeStep hs fill mv m o =
              setv m (buildDedupeKey o) (mergeRows e o hs fill mv) := by
            simp only [dedupeStep, hm]
          rw [hstep, getEnt_setv_poly, if_neg (fun h2 => hk h2.symm)]
      rw [h1]

end Dedupe

/-! ## Unicode folding for the hybrid merge's `norm`

`deburr` models `normalize("NFKD").replace(/[̀-ͯ]/g, "")`
restricted to the precomposed Latin vowels of the model's alphabet
(Á É Í Ó Ú Ñ Ü and their lower-case forms); combining marks are stripped,
every other character is left alone. -/

def deburrOne (c : Char) : List Char :=
  if c.toNat < 0xC0 then [c]
  else if 0x300 ≤ c.toNat ∧ c.toNat ≤ 0x36F then []
  else if c.toNat = 0xC1 then ['A'] else if c.toNat = 0xC9 then ['E']
  else if c.toNat = 0xCD then ['I'] else if c.toNat = 0xD3 then ['O']
  else if c.toNat = 0xDA then ['U'] else if c.toNat = 0xD1 then ['N']
  else if c.toNat = 0xDC then ['U']
  else if c.toNat = 0xE1 then ['a'] else if c.toNat = 0xE9 then ['e']
  else if c.toNat = 0xED then ['i'] else if c.toNat = 0xF3 then ['o']
  else if c.toNat = 0xFA then ['u'] else if c.toNat = 0xF1 then ['n']
  else if c.toNat = 0xFC then ['u']
  else [c]

def deburrChars : List Char → List Char
  | [] => []
  | c :: cs => deburrOne c ++ deburrChars cs

def deburr (s : String) : String := ⟨deburrChars s.data⟩

/-- `replace(/&/g, "and")` on characters. -/
def ampChars : List Char → List Char
  | [] => []
  | c :: cs => (if c.toNat = 38 then ['a', 'n', 'd'] else [c]) ++ ampChars cs

/-- `[a-z0-9]`, the characters `norm` keeps. -/
def isLowAlnum (c : Char) : Bool :=
  (97 ≤ c.toNat && c.toNat ≤ 122) || (48 ≤ c.toNat && c.toNat ≤ 57)

/-- Word characters `\w` for regex word boundaries. -/
def isWordCh (c : Char) : Bool :=
  (65 ≤ c.toNat && c.toNat ≤ 90) || (97 ≤ c.toNat && c.toNat ≤ 122) ||
  isDigitCh c || c.toNat = 95

/-- `[A-Z0-9]` under the `/i` flag. -/
def isAlnumCI (c : Char) : Bool :=
  isDigitCh c || (65 ≤ c.toNat && c.toNat ≤ 90) ||
  (97 ≤ c.toNat && c.toNat ≤ 122)

/-- ASCII lower-casing for case-insensitive literal matching. -/
def lowerAscii (c : Char) : Char :=
  if 65 ≤ c.toNat ∧ c.toNat ≤ 90 then Char.ofNat (c.toNat + 32) else c

/-- Case-insensitive literal prefix strip: the rest on success. -/
def stripCI : List Char → List Char → Option (List Char)
  | [], l => some l
  | _ :: _, [] => none
  | p :: ps, c :: cs => if lowerAscii c = p then stripCI ps cs else none

/-- A `(19|20)\d\d` match at the head: the four digits and the rest. -/
def yearAt (l : List Char) : Option (List Char × List Char) :=
  match l with
  | c1 :: c2 :: c3 :: c4 :: rest =>
    if ((c1 = '1' && c2 = '9') || (c1 = '2' && c2 = '0')) &&
        isDigitCh c3 && isDigitCh c4
    then some ([c1, c2, c3, c4], rest) else none
  | _ => none

/-- First `(19|20)\d\d` match anywhere (no word boundaries): `pickYear`. -/
def findYearPlain : List Char → Option (List Char)
  | [] => none
  | c :: cs =>
    match yearAt (c :: cs) with
    | some (y, _) => some y
    | none => findYearPlain cs

/-- No word character on the left: `\b` before a word character. -/
def boundaryOk : Option Char → Bool
  | none => true
  | some p => !(isWordCh p)

/-- A word character on the left: `\b` before a non-word character. -/
def hashBoundary : Option Char → Bool
  | none => false
  | some p => isWordCh p

/-- End of input or a non-word character: `\b` after a word character. -/
def afterOk : List Char → Bool
  | [] => true
  | c :: _ => !(isWordCh c)

namespace Hybrid

/-! Embedding of `src/scripts/merge_hybrid_inventory.js`: `norm`,
`pickYear`, the title-mining fallbacks, `keyFromOld` / `keyFromNew`,
`scoreMatch`, `mergeRows` and the per-row matching step of `main`. -/

/-- `norm`: deburr, lower-case, `&`→`and`, collapse non-alphanumerics to
single spaces, trim. -/
def norm (s : String) : String :=
  ⟨jsTrimChars (collapseRuns (fun c => !(isLowAlnum c)) ' '
    (ampChars ((deburrChars s.data).map jsLowerCh)) false)⟩

/-- `pickYear`: trim, then the first `(19|20)\d\d` match, else empty. -/
def pickYear (v : String) : String :=
  match findYearPlain (jsTrimChars v.data) with
  | some y => ⟨y⟩
  | none => ""

/-- `\b(19|20)\d{2}\b` scan with word boundaries. -/
def findYearWordB (prev : Option Char) : List Char → Option (List Char)
  | [] => none
  | c :: cs =>
    match yearAt (c :: cs) with
    | some (y, rest) =>
      if boundaryOk prev && afterOk rest then some y
      else findYearWordB (some c) cs
    | none => findYearWordB (some c) cs

/-- `extract4DigitYear`. -/
def extract4DigitYear (text : String) : String :=
  match findYearWordB none text.data with
  | some y => ⟨y⟩
  | none => ""

/-- A season-range match at the head — a year, optional whitespace, a dash
or slash, optional whitespace, two digits, a word boundary — giving the
captured start year. -/
def seasonAt (l : List Char) : Option (List Char) :=
  match yearAt l with
  | some (y, rest) =>
    match rest.dropWhile isWsChar with
    | d :: r2 =>
      if d.toNat = 45 || d.toNat = 47 then
        match r2.dropWhile isWsChar with
        | e1 :: e2 :: r4 =>
          if isDigitCh e1 && isDigitCh e2 && afterOk r4 then some y else none
        | _ => none
      else none
    | [] => none
  | none => none

def findSeason (prev : Option Char) : List Char → Option (List Char)
  | [] => none
  | c :: cs =>
    match (if boundaryOk prev then seasonAt (c :: cs) else none) with
    | some y => some y
    | none => findSeason (some c) cs

/-- `extractSeasonStartYear`: `"2023-24"` yields `"2023"`. -/
def extractSeasonStartYear (text : String) : String :=
  match findSeason none text.data with
  | some y => ⟨y⟩
  | none => ""

/-- The league-word alternation of `extractCardNoFromTitle` (`/i`). -/
def leagueAt (l : List Char) : Option (List Char) :=
  stripCI ['f', 'i', 'f', 'a'] l <|> stripCI ['u', 'e', 'f', 'a'] l <|>
  stripCI ['m', 'l', 's'] l <|> stripCI ['n', 'b', 'a'] l <|>
  stripCI ['n', 'f', 'l'] l <|> stripCI ['m', 'l', 'b'] l <|>
  stripCI ['n', 'h', 'l'] l

/-- `\s*#?\s*([A-Z0-9]{1,6})\b` after a league word: the capture. -/
def captureTail (l : List Char) : Option (List Char) :=
  let r1 := l.dropWhile isWsChar
  let r2 := match r1 with
    | c :: cs => if c.toNat = 35 then cs else r1
    | [] => r1
  let run := (r2.dropWhile isWsChar).takeWhile isAlnumCI
  if 1 ≤ run.length ∧ run.length ≤ 6 then some run else none

/-- `\s*([A-Z0-9]{1,6})\b` after `#`: the capture. -/
def captureAfterHash (l : List Char) : Option (List Char) :=
  let run := (l.dropWhile isWsChar).takeWhile isAlnumCI
  if 1 ≤ run.length ∧ run.length ≤ 6 then some run else none

def findCardNo (prev : Option Char) : List Char → Option (List Char)
  | [] => none
  | c :: cs =>
    match (if boundaryOk prev then
        match leagueAt (c :: cs) with
        | some rest => captureTail rest
        | none => none
      else none) with
    | some run => some run
    | none => findCardNo (some c) cs

def findHashNo (prev : Option Char) : List Char → Option (List Char)
  | [] => none
  | c :: cs =>
    match (if hashBoundary prev && c.toNat = 35 then captureAfterHash cs
      else none) with
    | some run => some run
    | none => findHashNo (some c) cs

/-- `extractCardNoFromTitle`: league-word pattern first, then `#`. -/
def extractCardNoFromTitle (title : String) : String :=
  match findCardNo none title.data with
  | some m1 => ⟨m1⟩
  | none =>
    match findHashNo none title.data with
    | some m2 => ⟨m2⟩
    | none => ""

/-- `guessSetFromTitle`: strip one leading year / season range. -/
def guessSetFromTitle (title : String) : String :=
  let t := jsTrimChars title.data
  let t2 := match yearAt t with
    | some (_, rest) =>
      let afterSeason := match rest.dropWhile isWsChar with
        | d :: r2 =>
          if d.toNat = 45 || d.toNat = 47 then
            match r2.dropWhile isWsChar with
            | e1 :: e2 :: r4 =>
              if isDigitCh e1 && isDigitCh e2 then some r4 else none
            | _ => none
          else none
        | [] => none
      match afterSeason with
      | some r4 => r4.dropWhile isWsChar
      | none => rest.dropWhile isWsChar
    | none => t
  ⟨jsTrimChars t2⟩

/-- `firstNonEmpty(...vals)`: the first value non-blank after trimming,
returned trimmed. -/
def firstNonEmpty : List String → String
  | [] => ""
  | v :: rest => if jsTrim v ≠ "" then jsTrim v else firstNonEmpty rest

/-- `OLD_FIELD_GUESSES` and `getField`. -/
def titleG : List String := ["Title", "title"]

def playerG : List String := ["Player", "player"]

def setG : List String := ["Set", "set"]

def cardG : List String :=
  ["Card Number", "CardNumber", "card_number", "Card #", "Card No"]

def yearG : List String := ["Season", "Year", "year"]

def teamG : List String := ["Team", "team"]

def leagueG : List String := ["League", "league"]

def getField (row : Obj) : List String → String
  | [] => ""
  | g :: rest => if hasK row g then getv row g else getField row rest

/-- `keyFromOld`: structured fields first, title-derived fallbacks. -/
def keyFromOld (row : Obj) : String :=
  let title := getField row titleG
  let player := norm (getField row playerG)
  let setRaw := firstNonEmpty [getField row setG, guessSetFromTitle title]
  let cardRaw := firstNonEmpty [getField row cardG, extractCardNoFromTitle title]
  let yearRaw := firstNonEmpty [getField row yearG, extract4DigitYear setRaw,
    extract4DigitYear title, extractSeasonStartYear (getField row yearG)]
  player ++ "|" ++ norm setRaw ++ "|" ++ norm cardRaw ++ "|" ++ pickYear yearRaw

/-- `keyFromNew`. -/
def keyFromNew (row : Obj) : String :=
  norm (getv row "player") ++ "|" ++ norm (getv row "set") ++ "|" ++
    norm (getv row "card_number") ++ "|" ++ pickYear (getv row "year")

/-- JS `String.prototype.includes` (substring test). -/
def startsWithL : List Char → List Char → Bool
  | [], _ => true
  | _ :: _, [] => false
  | p :: ps, c :: cs => p = c && startsWithL ps cs

def containsL : List Char → List Char → Bool
  | l, pat =>
    if startsWithL pat l then true
    else match l with
      | [] => false
      | _ :: cs => containsL cs pat

def jsIncludes (a b : String) : Bool := containsL a.data b.data

/-- `scoreMatch`: additive weighted similarity (scores are rationals;
`0.5` is the team partial-match bonus). -/
def scoreMatch (oldRow newRow : Obj) : ℚ :=
  let oldPlayer := norm (getField oldRow playerG)
  let oldSet := norm (getField oldRow setG)
  let oldCard := norm (getField oldRow cardG)
  let oldYear := pickYear (getField oldRow yearG)
  let oldTeam := norm (getField oldRow teamG)
  let oldLeague := norm (getField oldRow leagueG)
  let newPlayer := norm (getv newRow "player")
  let newSet := norm (getv newRow "set")
  let newCard := norm (getv newRow "card_number")
  let newYear := pickYear (getv newRow "year")
  let newTeam := norm (getv newRow "team")
  let newLeague := norm (getv newRow "league")
  (if oldPlayer ≠ "" ∧ newPlayer ≠ "" ∧ oldPlayer = newPlayer then 5 else 0) +
  (if oldSet ≠ "" ∧ newSet ≠ "" ∧ oldSet = newSet then 4 else 0) +
  (if oldCard ≠ "" ∧ newCard ≠ "" ∧ oldCard = newCard then 3 else 0) +
  (if oldYear ≠ "" ∧ newYear ≠ "" ∧ oldYear = newYear then 2 else 0) +
  (if oldTeam ≠ "" ∧ newTeam ≠ "" ∧ oldTeam = newTeam then 1 else 0) +
  (if oldLeague ≠ "" ∧ newLeague ≠ "" ∧ oldLeague = newLeague then 1 else 0) +
  (if oldSet ≠ "" ∧ newSet ≠ "" ∧
      (jsIncludes oldSet newSet || jsIncludes newSet oldSet) = true
    then 1 else 0) +
  (if oldTeam ≠ "" ∧ newTeam ≠ "" ∧
      (jsIncludes oldTeam newTeam || jsIncludes newTeam oldTeam) = true
    then 1 / 2 else 0)

/-- One entry of the hybrid `mergeRows` loop: a colliding new column goes
to the `norm_`-prefixed shadow key, a fresh column is copied. -/
def mergeStep (fillBlanks : Bool) (out : Obj) (e : String × String) : Obj :=
  if hasK out e.1 then
    if fillBlanks then
      if isBlank (getv out ("norm_" ++ e.1)) && !(isBlank e.2) then
        setv out ("norm_" ++ e.1) e.2
      else out
    else
      if hasK out ("norm_" ++ e.1) then out
      else setv out ("norm_" ++ e.1) e.2
  else
    if fillBlanks then
      if isBlank (getv out e.1) && !(isBlank e.2) then setv out e.1 e.2
      else if hasK out e.1 then out
      else setv out e.1 e.2
    else setv out e.1 e.2

/-- `mergeRows` of the hybrid merge: keep all old columns; every new
column is folded in by `mergeStep`. -/
def mergeRows (oldRow newRow : Obj) (fillBlanks : Bool) : Obj :=
  newRow.foldl (mergeStep fillBlanks) oldRow

/-- Score `s` beats the running best `b` (`-Infinity` as `none`). -/
def gtB (s : ℚ) : Option ℚ → Bool
  | none => true
  | some x => decide (x < s)

/-- One candidate of the best / second-best selection loop of `main`. -/
def bestStep (o : Obj) (st : Option Obj × Option ℚ × Option ℚ) (c : Obj) :
    Option Obj × Option ℚ × Option ℚ :=
  if gtB (scoreMatch o c) st.2.1 then (some c, some (scoreMatch o c), st.2.1)
  else if gtB (scoreMatch o c) st.2.2 then (st.1, st.2.1, some (scoreMatch o c))
  else st

/-- The best / second-best selection loop of `main` over the candidates. -/
def bestFold (o : Obj) (candidates : List Obj) :
    Option Obj × Option ℚ × Option ℚ :=
  candidates.foldl (bestStep o) (none, none, none)

/-- `best && bestScore >= 8 && gap >= 1` (`gap` against `-Infinity` is
`+Infinity`, which passes). -/
def acceptCond : Option ℚ → Option ℚ → Bool
  | some b, some s2 => decide (8 ≤ b) && decide (1 ≤ b - s2)
  | some b, none => decide (8 ≤ b)
  | none, _ => false

/-- Terminal classification of an authoritative row. -/
inductive HClass where
  | matched
  | unmatched
  | ambiguous
deriving DecidableEq

/-- The per-row step of `main`: the emitted output row and the row's
classification.  A single candidate is merged without any score check. -/
def processOld (idx : String → List Obj) (fill : Bool) (o : Obj) :
    Obj × HClass :=
  match idx (keyFromOld o) with
  | [] => (o, HClass.unmatched)
  | [best] => (mergeRows o best fill, HClass.matched)
  | c1 :: c2 :: rest =>
    match (bestFold o (c1 :: c2 :: rest)).1 with
    | some best =>
      if acceptCond (bestFold o (c1 :: c2 :: rest)).2.1
          (bestFold o (c1 :: c2 :: rest)).2.2 then
        (mergeRows o best fill, HClass.matched)
      else (o, HClass.ambiguous)
    | none => (o, HClass.ambiguous)

theorem isBlank_true_iff (s : String) : isBlank s = true ↔ jsTrim s = "" := by
  unfold isBlank jsTrim
  constructor
  · intro h
    have hl : jsTrimChars s.data = [] := by
      cases hc : jsTrimChars s.data with
      | nil => rfl
      | cons a as => rw [hc] at h; simp at h
    rw [hl]
  · intro h
    have hl : jsTrimChars s.data = [] := congrArg String.data h
    rw [hl]
    rfl

theorem getEnt_none_no_key {α : Type} :
    ∀ (l : List (String × α)) (k : String), getEnt l k = none →
      ∀ e ∈ l, e.1 ≠ k := by
  intro l
  induction l with
  | nil => intro k _ e he; simp at he
  | cons a rest ih =>
    intro k h e he
    by_cases ha : a.1 = k
    · exfalso
      have : getEnt (a :: rest) k = some a.2 := by
        show (if a.1 = k then some a.2 else getEnt rest k) = _
        rw [if_pos ha]
      rw [this] at h
      exact Option.noConfusion h
    · have hrest : getEnt rest k = none := by
        have : getEnt (a :: rest) k = getEnt rest k := by
          show (if a.1 = k then some a.2 else getEnt rest k) = _
          rw [if_neg ha]
        rw [← this]
        exact h
      rcases List.mem_cons.1 he with rfl | hmem
      · exact ha
      · exact ih k hrest e hmem

theorem norm_shadow_inj {a b : String} (h : "norm_" ++ a = "norm_" ++ b) :
    a = b := by
  have hd : ("norm_" ++ a).data = ("norm_" ++ b).data := congrArg String.data h
  rw [String.data_append, String.data_append] at hd
  have hdd := List.append_cancel_left hd
  cases a with
  | mk da =>
    cases b with
    | mk db => exact congrArg String.mk hdd

/-- The merge loop never changes an old column's value unless blank-filling
is on and the old value was blank. -/
theorem mergeStep_preserves_old (oldRow : Obj) (fill : Bool) (k : String)
    (out : Obj) (e : String × String)
    (h1 : hasK out k = true)
    (h2 : getv out k = getv oldRow k ∨
      (fill = true ∧ jsTrim (getv oldRow k) = "")) :
    hasK (mergeStep fill out e) k = true ∧
      (getv (mergeStep fill out e) k = getv oldRow k ∨
        (fill = true ∧ jsTrim (getv oldRow k) = "")) := by
  unfold mergeStep
  by_cases hek : hasK out e.1 = true
  · rw [if_pos hek]
    by_cases hf : fill = true
    · rw [if_pos hf]
      split
      · next hcond =>
        constructor
        · rw [hasK_setv]
          simp [h1]
        · by_cases hnk : k = "norm_" ++ e.1
          · right
            refine ⟨hf, ?_⟩
            simp only [Bool.and_eq_true] at hcond
            have hbl : isBlank (getv out ("norm_" ++ e.1)) = true := hcond.1
            rw [← hnk] at hbl
            rcases h2 with h2 | h2
            · rw [h2] at hbl
              exact (isBlank_true_iff _).1 hbl
            · exact h2.2
          · rw [getv_setv_other _ _ _ _ hnk]
            exact h2
      · exact ⟨h1, h2⟩
    · rw [if_neg hf]
      split
      · exact ⟨h1, h2⟩
      · next hnk2 =>
        have hkne : k ≠ "norm_" ++ e.1 := fun he => hnk2 (he ▸ h1)
        constructor
        · rw [hasK_setv]
          simp [h1]
        · rw [getv_setv_other _ _ _ _ hkne]
          exact h2
  · have hkne : k ≠ e.1 := fun he => hek (he ▸ h1)
    rw [if_neg hek]
    by_cases hf : fill = true
    · rw [if_pos hf]
      have hstep : (if (isBlank (getv out e.1) && !(isBlank e.2)) = true then
            setv out e.1 e.2
          else if hasK out e.1 = true then out
          else setv out e.1 e.2) = setv out e.1 e.2 := by
        split
        · rfl
        · rfl
      rw [hstep]
      constructor
      · rw [hasK_setv]
        simp [h1]
      · rw [getv_setv_other _ _ _ _ hkne]
        exact h2
    · rw [if_neg hf]
      constructor
      · rw [hasK_setv]
        simp [h1]
      · rw [getv_setv_other _ _ _ _ hkne]
        exact h2

theorem mergeFold_preserves_old (oldRow : Obj) (fill : Bool) (k : String) :
    ∀ (entries : List (String × String)) (out : Obj),
      hasK out k = true →
      (getv out k = getv oldRow k ∨
        (fill = true ∧ jsTrim (getv oldRow k) = "")) →
      hasK (entries.foldl (mergeStep fill) out) k = true ∧
        (getv (entries.foldl (mergeStep fill) out) k = getv oldRow k ∨
          (fill = true ∧ jsTrim (getv oldRow k) = "")) := by
  intro entries
  induction entries with
  | nil => intro out h1 h2; exact ⟨h1, h2⟩
  | cons e rest ih =>
    intro out h1 h2
    rw [List.foldl_cons]
    have hstep := mergeStep_preserves_old oldRow fill k out e h1 h2
    exact ih (mergeStep fill out e) hstep.1 hstep.2

/-- Once the shadow key holds a value, later entries never change it
(no new entry is itself named `norm_<k>`, and later duplicates of `k`
skip an occupied shadow slot). -/
theorem mergeFold_shadow_stable (k : String) (w : String) :
    ∀ (entries : List (String × String)) (out : Obj),
      hasK out k = true →
      hasK out ("norm_" ++ k) = true →
      getv out ("norm_" ++ k) = w →
      (∀ e ∈ entries, e.1 ≠ "norm_" ++ k) →
      getv (entries.foldl (mergeStep false) out) ("norm_" ++ k) = w := by
  intro entries
  induction entries with
  | nil => intro out _ _ h3 _; exact h3
  | cons e rest ih =>
    intro out h1 h2 h3 h4
    rw [List.foldl_cons]
    have hne : e.1 ≠ "norm_" ++ k := h4 e (List.mem_cons_self e rest)
    have hrest : ∀ f ∈ rest, f.1 ≠ "norm_" ++ k :=
      fun f hf => h4 f (List.mem_cons_of_mem e hf)
    by_cases hek : hasK out e.1 = true
    · by_cases hnke : hasK out ("norm_" ++ e.1) = true
      · have hstep : mergeStep false out e = out := by
          unfold mergeStep
          rw [if_pos hek, if_neg Bool.false_ne_true, if_pos hnke]
        rw [hstep]
        exact ih out h1 h2 h3 hrest
      · have hnknk : "norm_" ++ k ≠ "norm_" ++ e.1 := by
          intro hh
          exact hnke (hh ▸ h2)
        have hstep : mergeStep false out e = setv out ("norm_" ++ e.1) e.2 := by
          unfold mergeStep
          rw [if_pos hek, if_neg Bool.false_ne_true, if_neg hnke]
        rw [hstep]
        refine ih _ ?_ ?_ ?_ hrest
        · rw [hasK_setv]
          simp [h1]
        · rw [hasK_setv]
          simp [h2]
        · rw [getv_setv_other _ _ _ _ hnknk]
          exact h3
    · have hstep : mergeStep false out e = setv out e.1 e.2 := by
        unfold mergeStep
        rw [if_neg hek, if_neg Bool.false_ne_true]
      rw [hstep]
      refine ih _ ?_ ?_ ?_ hrest
      · rw [hasK_setv]
        simp [h1]
      · rw [hasK_setv]
        simp [h2]
      · rw [getv_setv_other _ _ _ _ (fun hh => hne hh.symm)]
        exact h3

/-- The first occurrence of a colliding column writes the shadow key with
the new record's value (blank-filling off, shadow slot initially absent
on both sides). -/
theorem mergeFold_shadow_writes (k : String) :
    ∀ (entries : List (String × String)) (out : Obj),
      hasK out k = true →
      hasK out ("norm_" ++ k) = false →
      (∀ e ∈ entries, e.1 ≠ "norm_" ++ k) →
      ∀ v, getEnt entries k = some v →
      getv (entries.foldl (mergeStep false) out) ("norm_" ++ k) = v := by
  intro entries
  induction entries with
  | nil =>
    intro out _ _ _ v hv
    simp [getEnt] at hv
  | cons e rest ih =>
    intro out h1 h2 h4 v hv
    rw [List.foldl_cons]
    have hne : e.1 ≠ "norm_" ++ k := h4 e (List.mem_cons_self e rest)
    have hrest : ∀ f ∈ rest, f.1 ≠ "norm_" ++ k :=
      fun f hf => h4 f (List.mem_cons_of_mem e hf)
    by_cases heq : e.1 = k
    · have hv2 : e.2 = v := by
        have hh : getEnt (e :: rest) k = some e.2 := by
          show (if e.1 = k then some e.2 else getEnt rest k) = _
          rw [if_pos heq]
        rw [hh] at hv
        exact Option.some.inj hv
      have hstep : mergeStep false out e = setv out ("norm_" ++ e.1) e.2 := by
        unfold mergeStep
        rw [if_pos (show hasK out e.1 = true from by rw [heq]; exact h1),
          if_neg Bool.false_ne_true,
          if_neg (show ¬hasK out ("norm_" ++ e.1) = true from by
            rw [heq, h2]; exact Bool.false_ne_true)]
      rw [hstep]
      apply mergeFold_shadow_stable k v rest
      · rw [hasK_setv]
        simp [h1]
      · rw [heq, hasK_setv]
        simp
      · rw [heq, getv_setv_same]
        exact hv2
      · exact hrest
    · have hvrest : getEnt rest k = some v := by
        have hh : getEnt (e :: rest) k = getEnt rest k := by
          show (if e.1 = k then some e.2 else getEnt rest k) = _
          rw [if_neg heq]
        rw [← hh]
        exact hv
      by_cases hek : hasK out e.1 = true
      · by_cases hnke : hasK out ("norm_" ++ e.1) = true
        · have hstep : mergeStep false out e = out := by
            unfold mergeStep
            rw [if_pos hek, if_neg Bool.false_ne_true, if_pos hnke]
          rw [hstep]
          exact ih out h1 h2 hrest v hvrest
        · have hnknk : ("norm_" ++ k == "norm_" ++ e.1) = false := by
            rw [beq_eq_false_iff_ne]
            intro hh
            exact heq (norm_shadow_inj hh).symm
          have hstep : mergeStep false out e = setv out ("norm_" ++ e.1) e.2 := by
            unfold mergeStep
            rw [if_pos hek, if_neg Bool.false_ne_true, if_neg hnke]
          rw [hstep]
          refine ih _ ?_ ?_ hrest v hvrest
          · rw [hasK_setv]
            simp [h1]
          · rw [hasK_setv, h2, hnknk]
            rfl
      · have hkne : ("norm_" ++ k == e.1) = false := by
          rw [beq_eq_false_iff_ne]
          intro hh
          exact hne hh.symm
        have hstep : mergeStep false out e = setv out e.1 e.2 := by
          unfold mergeStep
          rw [if_neg hek, if_neg Bool.false_ne_true]
        rw [hstep]
        refine ih _ ?_ ?_ hrest v hvrest
        · rw [hasK_setv]
          simp [h1]
        · rw [hasK_setv, h2, hkne]
          rfl
theorem bestStep_best (o : Obj) (st : Option Obj × Option ℚ × Option ℚ)
    (c : Obj) :
    ∃ x2 : ℚ, (bestStep o st c).2.1 = some x2 ∧ scoreMatch o c ≤ x2 ∧
      ∀ x : ℚ, st.2.1 = some x → x ≤ x2 := by
  unfold bestStep
  by_cases hg : gtB (scoreMatch o c) st.2.1 = true
  · rw [if_pos hg]
    refine ⟨scoreMatch o c, rfl, le_refl _, ?_⟩
    intro x hx
    unfold gtB at hg
    rw [hx] at hg
    exact le_of_lt (of_decide_eq_true hg)
  · rw [if_neg hg]
    have hex : ∃ x : ℚ, st.2.1 = some x := by
      cases h : st.2.1 with
      | none =>
        refine absurd ?_ hg
        unfold gtB
        rw [h]
      | some x => exact ⟨x, rfl⟩
    obtain ⟨x, hx⟩ := hex
    have hs_le : scoreMatch o c ≤ x := by
      by_contra hnot
      apply hg
      unfold gtB
      rw [hx]
      exact decide_eq_true (lt_of_not_le hnot)
    refine ⟨x, ?_, hs_le, ?_⟩
    · split
      · exact hx
      · exact hx
    · intro y hy
      rw [hx] at hy
      exact le_of_eq (Option.some.inj hy).symm

theorem bestFold_ge_aux (o : Obj) :
    ∀ (cs : List Obj) (st : Option Obj × Option ℚ × Option ℚ),
      (∀ c ∈ cs, ∃ b : ℚ, (cs.foldl (bestStep o) st).2.1 = some b ∧
        scoreMatch o c ≤ b) ∧
      (∀ x : ℚ, st.2.1 = some x → ∃ b : ℚ,
        (cs.foldl (bestStep o) st).2.1 = some b ∧ x ≤ b) := by
  intro cs
  induction cs with
  | nil =>
    intro st
    constructor
    · intro c hc
      simp at hc
    · intro x hx
      exact ⟨x, hx, le_refl x⟩
  | cons c cs ih =>
    intro st
    obtain ⟨x2, hx2, hsx2, hmono⟩ := bestStep_best o st c
    constructor
    · intro d hd
      rw [List.foldl_cons]
      rcases List.mem_cons.1 hd with rfl | hmem
      · obtain ⟨b, hb, hx2b⟩ := (ih (bestStep o st d)).2 x2 hx2
        exact ⟨b, hb, le_trans hsx2 hx2b⟩
      · exact (ih (bestStep o st c)).1 d hmem
    · intro x hx
      rw [List.foldl_cons]
      obtain ⟨b, hb, hx2b⟩ := (ih (bestStep o st c)).2 x2 hx2
      exact ⟨b, hb, le_trans (hmono x hx) hx2b⟩

/-- The running best score over any candidate list bounds every
candidate's score: the loop really finds the top score. -/
theorem bestFold_ge (o : Obj) (cs : List Obj) :
    ∀ c ∈ cs, ∃ b : ℚ, (bestFold o cs).2.1 = some b ∧ scoreMatch o c ≤ b :=
  (bestFold_ge_aux o cs (none, none, none)).1

theorem bestFold_fst_pres (o : Obj) :
    ∀ (cs : List Obj) (st : Option Obj × Option ℚ × Option ℚ),
      st.1.isSome = true → ((cs.foldl (bestStep o) st).1).isSome = true := by
  intro cs
  induction cs with
  | nil => intro st h; exact h
  | cons c cs ih =>
    intro st h
    rw [List.foldl_cons]
    apply ih
    unfold bestStep
    split
    · rfl
    · split
      · exact h
      · exact h

theorem bestFold_cons_some (o : Obj) (c : Obj) (cs : List Obj) :
    ((bestFold o (c :: cs)).1).isSome = true := by
  unfold bestFold
  rw [List.foldl_cons]
  exact bestFold_fst_pres o cs (bestStep o (none, none, none) c) rfl

theorem processOld_nil (idx : String → List Obj) (fill : Bool) (o : Obj)
    (h : idx (keyFromOld o) = []) :
    processOld idx fill o = (o, HClass.unmatched) := by
  unfold processOld
  rw [h]

theorem processOld_single (idx : String → List Obj) (fill : Bool) (o c1 : Obj)
    (h : idx (keyFromOld o) = [c1]) :
    processOld idx fill o = (mergeRows o c1 fill, HClass.matched) := by
  unfold processOld
  rw [h]

theorem processOld_multi_none (idx : String → List Obj) (fill : Bool)
    (o c1 c2 : Obj) (rest : List Obj) (h : idx (keyFromOld o) = c1 :: c2 :: rest)
    (hb : (bestFold o (c1 :: c2 :: rest)).1 = none) :
    processOld idx fill o = (o, HClass.ambiguous) := by
  unfold processOld
  simp only [h, hb]

theorem processOld_multi_accept (idx : String → List Obj) (fill : Bool)
    (o c1 c2 best : Obj) (rest : List Obj)
    (h : idx (keyFromOld o) = c1 :: c2 :: rest)
    (hb : (bestFold o (c1 :: c2 :: rest)).1 = some best)
    (ha : acceptCond (bestFold o (c1 :: c2 :: rest)).2.1
      (bestFold o (c1 :: c2 :: rest)).2.2 = true) :
    processOld idx fill o = (mergeRows o best fill, HClass.matched) := by
  unfold processOld
  simp only [h, hb, ha, if_true]

theorem processOld_multi_reject (idx : String → List Obj) (fill : Bool)
    (o c1 c2 best : Obj) (rest : List Obj)
    (h : idx (keyFromOld o) = c1 :: c2 :: rest)
    (hb : (bestFold o (c1 :: c2 :: rest)).1 = some best)
    (ha : acceptCond (bestFold o (c1 :: c2 :: rest)).2.1
      (bestFold o (c1 :: c2 :: rest)).2.2 = false) :
    processOld idx fill o = (o, HClass.ambiguous) := by
  unfold processOld
  simp [h, hb, ha]

end Hybrid

/-- C2 (counterexample): an authoritative row whose Identity Key has
exactly one candidate is merged even though the candidate's score (5) is
below the floor of 8 — the claim's single-candidate floor check does not
exist in the code. -/
theorem C2_counterexample_low_single_candidate_merged :
    (Hybrid.processOld
        (fun kk => if kk = Hybrid.keyFromOld [("Player", "x")] then
          [[("player", "x")]] else [])
        false [("Player", "x")]).2 = Hybrid.HClass.matched ∧
    Hybrid.scoreMatch [("Player", "x")] [("player", "x")] < 8 := by
  constructor
  · rfl
  · have h5 : Hybrid.scoreMatch [("Player", "x")] [("player", "x")] =
        5 + 0 + 0 + 0 + 0 + 0 + 0 + 0 := rfl
    rw [h5]
    norm_num

/-- C2 (amended): a merge is applied exactly when the row's Identity Key
has exactly one candidate (merged unconditionally, with no score check),
or at least two candidates and the best score meets the floor 8 and
exceeds the runner-up by at least the gap 1 (`acceptCond`); moreover the
loop's best score bounds every candidate's score. -/
theorem C2_amended_floor_gap_only_for_multiple_candidates :
    ∀ (idx : String → List Obj) (fill : Bool) (o : Obj),
      ((Hybrid.processOld idx fill o).2 = Hybrid.HClass.matched ↔
        ((idx (Hybrid.keyFromOld o)).length = 1 ∨
          (2 ≤ (idx (Hybrid.keyFromOld o)).length ∧
            Hybrid.acceptCond (Hybrid.bestFold o (idx (Hybrid.keyFromOld o))).2.1
              (Hybrid.bestFold o (idx (Hybrid.keyFromOld o))).2.2 = true))) ∧
      (∀ c ∈ idx (Hybrid.keyFromOld o), ∃ b : ℚ,
        (Hybrid.bestFold o (idx (Hybrid.keyFromOld o))).2.1 = some b ∧
          Hybrid.scoreMatch o c ≤ b) := by
  intro idx fill o
  refine ⟨?_, Hybrid.bestFold_ge o (idx (Hybrid.keyFromOld o))⟩
  cases hc : idx (Hybrid.keyFromOld o) with
  | nil =>
    rw [Hybrid.processOld_nil idx fill o hc]
    simp
  | cons c1 tl =>
    cases tl with
    | nil =>
      rw [Hybrid.processOld_single idx fill o c1 hc]
      simp
    | cons c2 rest =>
      cases hb : (Hybrid.bestFold o (c1 :: c2 :: rest)).1 with
      | none =>
        exact absurd (hb ▸ Hybrid.bestFold_cons_some o c1 (c2 :: rest))
          (by decide)
      | some best =>
        cases ha : Hybrid.acceptCond (Hybrid.bestFold o (c1 :: c2 :: rest)).2.1
            (Hybrid.bestFold o (c1 :: c2 :: rest)).2.2 with
        | true =>
          rw [Hybrid.processOld_multi_accept idx fill o c1 c2 best rest hc hb ha]
          constructor
          · intro _
            refine Or.inr ⟨?_, rfl⟩
            simp only [List.length_cons]
            omega
          · intro _
            rfl
        | false =>
          rw [Hybrid.processOld_multi_reject idx fill o c1 c2 best rest hc hb ha]
          constructor
          · intro h
            simp at h
          · intro h
            rcases h with h | h
            · simp only [List.length_cons] at h
              omega
            · exact absurd h.2 (by decide)

theorem C2_amended_floor_gap_only_for_multiple_candidates_witness :
    ¬(Hybrid.processOld (fun _ => []) false [("Player", "x")]).2 =
      Hybrid.HClass.matched := by
  intro hm
  rcases (C2_amended_floor_gap_only_for_multiple_candidates (fun _ => []) false
      [("Player", "x")]).1.mp hm with h | h
  · simp at h
  · simp at h

/-- C5: under the default policy (blank-filling off) the hybrid merge
keeps the old record's value for every field the old record defines, and
under any policy a change to an old field forces blank-filling to be on
and the old value to have been blank. -/
theorem C5_merge_keeps_old_fields :
    ∀ (oldRow newRow : Obj) (k : String), hasK oldRow k = true →
      getv (Hybrid.mergeRows oldRow newRow false) k = getv oldRow k ∧
      ∀ fill : Bool, getv (Hybrid.mergeRows oldRow newRow fill) k ≠ getv oldRow k →
        fill = true ∧ jsTrim (getv oldRow k) = "" := by
  intro oldRow newRow k hk
  constructor
  · have h := Hybrid.mergeFold_preserves_old oldRow false k newRow oldRow hk
      (Or.inl rfl)
    rcases h.2 with h2 | h2
    · exact h2
    · exact absurd h2.1 Bool.false_ne_true
  · intro fill hne
    have h := Hybrid.mergeFold_preserves_old oldRow fill k newRow oldRow hk
      (Or.inl rfl)
    rcases h.2 with h2 | h2
    · exact absurd h2 hne
    · exact h2

theorem C5_merge_keeps_old_fields_witness :
    hasK [("Player", "x")] "Player" = true ∧
    getv (Hybrid.mergeRows [("Player", "x")] [("player", "y"), ("team", "t")]
      false) "Player" = getv [("Player", "x")] "Player" :=
  ⟨by decide,
    (C5_merge_keeps_old_fields [("Player", "x")] [("player", "y"), ("team", "t")]
      "Player" (by decide)).1⟩

/-- C4 (counterexample): when the old record already defines the
`norm_player` column, a colliding differing `player` value from the new
record is dropped entirely — the merged record equals the old record, so
the losing value "b" is not recoverable from any shadow key. -/
theorem C4_counterexample_preexisting_shadow_drops_value :
    hasK [("player", "a"), ("norm_player", "z")] "player" = true ∧
    hasK [("player", "b")] "player" = true ∧
    getv [("player", "a"), ("norm_player", "z")] "player" ≠
      getv [("player", "b")] "player" ∧
    Hybrid.mergeRows [("player", "a"), ("norm_player", "z")] [("player", "b")]
      false = [("player", "a"), ("norm_player", "z")] := by
  decide

/-- C4 (amended): with blank-filling off, when both records define column
`k` and neither side already carries a `norm_<k>` column, the merged
record retains the new record's value under the shadow key `norm_<k>`. -/
theorem C4_amended_shadow_retention :
    ∀ (oldRow newRow : Obj) (k v : String),
      hasK oldRow k = true →
      getEnt newRow k = some v →
      hasK oldRow ("norm_" ++ k) = false →
      hasK newRow ("norm_" ++ k) = false →
      getv (Hybrid.mergeRows oldRow newRow false) ("norm_" ++ k) = v := by
  intro oldRow newRow k v h1 h2 h3 h4
  refine Hybrid.mergeFold_shadow_writes k newRow oldRow h1 h3 ?_ v h2
  apply Hybrid.getEnt_none_no_key newRow ("norm_" ++ k)
  unfold hasK at h4
  cases hh : getEnt newRow ("norm_" ++ k) with
  | none => rfl
  | some w =>
    rw [hh] at h4
    simp at h4

theorem C4_amended_shadow_retention_witness :
    getv (Hybrid.mergeRows [("player", "a")] [("player", "b")] false)
      ("norm_" ++ "player") = "b" :=
  C4_amended_shadow_retention [("player", "a")] [("player", "b")] "player" "b"
    (by decide) (by decide) (by decide) (by decide)

/-- C7: a row classified unmatched (no candidate) or ambiguous (floor or
gap not met) is emitted into the merged output exactly as it came in. -/
theorem C7_unmatched_ambiguous_rows_pass_through :
    ∀ (idx : String → List Obj) (fill : Bool) (o : Obj),
      ((Hybrid.processOld idx fill o).2 = Hybrid.HClass.unmatched ∨
        (Hybrid.processOld idx fill o).2 = Hybrid.HClass.ambiguous) →
      (Hybrid.processOld idx fill o).1 = o := by
  intro idx fill o h
  cases hc : idx (Hybrid.keyFromOld o) with
  | nil =>
    rw [Hybrid.processOld_nil idx fill o hc]
  | cons c1 tl =>
    cases tl with
    | nil =>
      rw [Hybrid.processOld_single idx fill o c1 hc] at h
      rcases h with h | h <;> simp at h
    | cons c2 rest =>
      cases hb : (Hybrid.bestFold o (c1 :: c2 :: rest)).1 with
      | none =>
        rw [Hybrid.processOld_multi_none idx fill o c1 c2 rest hc hb]
      | some best =>
        cases ha : Hybrid.acceptCond (Hybrid.bestFold o (c1 :: c2 :: rest)).2.1
            (Hybrid.bestFold o (c1 :: c2 :: rest)).2.2 with
        | true =>
          rw [Hybrid.processOld_multi_accept idx fill o c1 c2 best rest hc hb ha]
            at h
          rcases h with h | h <;> simp at h
        | false =>
          rw [Hybrid.processOld_multi_reject idx fill o c1 c2 best rest hc hb ha]

theorem C7_unmatched_ambiguous_rows_pass_through_witness :
    ((Hybrid.processOld (fun _ => []) false [("Player", "x")]).2 =
        Hybrid.HClass.unmatched ∨
      (Hybrid.processOld (fun _ => []) false [("Player", "x")]).2 =
        Hybrid.HClass.ambiguous) ∧
    (Hybrid.processOld (fun _ => []) false [("Player", "x")]).1 =
      [("Player", "x")] :=
  ⟨Or.inl (by decide),
    C7_unmatched_ambiguous_rows_pass_through (fun _ => []) false
      [("Player", "x")] (Or.inl (by decide))⟩

namespace Norm3

/-! Embedding of the inventory normalizer (`src/unnamed/part_003`):
header canonicalization, the field normalizers (`normalizeText`, `toBool`,
`safeInt`, `safeNum`, `normalizeYear`, `normalizeImageUrl`,
`parseImagesField`, `makeId`) and the per-row body of the `normalized`
map.  The `in` membership test is modelled as own-property membership;
`JSON.parse` is modelled for arrays of plain (escape-free) strings,
other JSON inputs behaving as a parse failure. -/

def CANONICAL_HEADERS : List String :=
  ["id", "sport", "year", "set", "subset", "card_number", "player", "team",
   "league", "parallel", "insert", "rookie", "autograph", "serial_number",
   "grade", "condition", "quantity", "purchase_price", "value", "currency",
   "notes", "image", "image_back", "source", "timestamp"]

def HEADER_ALIASES : List (String × String) :=
  [("card #", "card_number"), ("card#", "card_number"),
   ("card number", "card_number"), ("number", "card_number"),
   ("no.", "card_number"), ("no", "card_number"),
   ("player name", "player"), ("name", "player"),
   ("set name", "set"), ("product", "set"), ("collection", "set"),
   ("sub-set", "subset"), ("sub set", "subset"),
   ("qty", "quantity"), ("count", "quantity"),
   ("est value", "value"), ("estimated value", "value"), ("price", "value"),
   ("current value", "value"),
   ("buy price", "purchase_price"), ("cost", "purchase_price"),
   ("purchase", "purchase_price"),
   ("rc", "rookie"), ("auto", "autograph"), ("sig", "autograph"),
   ("signed", "autograph"),
   ("sn", "serial_number"), ("serial", "serial_number"),
   ("serial#", "serial_number"),
   ("season", "year"), ("year/season", "year"), ("set year", "year"),
   ("release year", "year"), ("yr", "year"),
   ("img", "image"), ("image_url", "image"), ("image url", "image"),
   ("front_image", "image"), ("front image", "image"), ("front", "image"),
   ("image_front", "image"), ("image front", "image"), ("photo", "image"),
   ("photo_url", "image"), ("front_url", "image"), ("front url", "image"),
   ("filename", "image"), ("file", "image"), ("images", "images"),
   ("back_image", "image_back"), ("back image", "image_back"),
   ("back", "image_back"), ("back_url", "image_back"),
   ("back url", "image_back")]

/-- `normalizeHeader`: trim, collapse whitespace runs, lower-case. -/
def normalizeHeader (h : String) : String :=
  ⟨(collapseRuns isWsChar ' ' (jsTrimChars h.data) false).map jsLowerCh⟩

/-- `replace(/[^\w]+/g, "_")` then strip leading/trailing underscores. -/
def underscoreHeader (nh : String) : String :=
  ⟨((collapseRuns (fun c => !(isWordCh c)) '_' nh.data false).dropWhile
      (fun c => c.toNat = 95)).rdropWhile (fun c => c.toNat = 95)⟩

def canonicalizeHeader (h : String) : String :=
  match getEnt HEADER_ALIASES (normalizeHeader h) with
  | some v => v
  | none =>
    if CANONICAL_HEADERS.contains (normalizeHeader h) then normalizeHeader h
    else
      match getEnt HEADER_ALIASES (underscoreHeader (normalizeHeader h)) with
      | some v => v
      | none =>
        if CANONICAL_HEADERS.contains (underscoreHeader (normalizeHeader h))
        then underscoreHeader (normalizeHeader h)
        else if underscoreHeader (normalizeHeader h) = "" then "col"
        else underscoreHeader (normalizeHeader h)

/-- `normalizeText`: strip carriage returns, trim. -/
def normalizeText (v : String) : String :=
  ⟨jsTrimChars (v.data.filter (fun c => !(c.toNat = 13)))⟩

/-- `toBool`: trim + lower-case, then the truthy/falsy token lists. -/
def toBool (v : String) : String :=
  if (jsTrimChars v.data).isEmpty then ""
  else if (⟨(jsTrimChars v.data).map jsLowerCh⟩ : String) = "1" ∨
      (⟨(jsTrimChars v.data).map jsLowerCh⟩ : String) = "true" ∨
      (⟨(jsTrimChars v.data).map jsLowerCh⟩ : String) = "yes" ∨
      (⟨(jsTrimChars v.data).map jsLowerCh⟩ : String) = "y" ∨
      (⟨(jsTrimChars v.data).map jsLowerCh⟩ : String) = "t" then "true"
  else if (⟨(jsTrimChars v.data).map jsLowerCh⟩ : String) = "0" ∨
      (⟨(jsTrimChars v.data).map jsLowerCh⟩ : String) = "false" ∨
      (⟨(jsTrimChars v.data).map jsLowerCh⟩ : String) = "no" ∨
      (⟨(jsTrimChars v.data).map jsLowerCh⟩ : String) = "n" ∨
      (⟨(jsTrimChars v.data).map jsLowerCh⟩ : String) = "f" then "false"
  else ⟨(jsTrimChars v.data).map jsLowerCh⟩

/-- `safeInt`: trim; blank gives the fallback; else `parseInt`, rendering
a finite result with `String(n)`. -/
def safeInt (v fb : String) : String :=
  if (jsTrimChars v.data).isEmpty then fb
  else match parseIntChars (jsTrimChars v.data) with
    | some n => intToString n
    | none => fb

/-- `replace(/^\$/, "")`. -/
def stripDollar (l : List Char) : List Char :=
  match l with
  | c :: rest => if c.toNat = 36 then rest else c :: rest
  | [] => []

/-- `safeNum`: trim, strip a leading dollar sign; blank gives the
fallback; else `Number(s)`, rendering a finite result with `String(n)`. -/
def safeNum (v fb : String) : String :=
  if (stripDollar (jsTrimChars v.data)).isEmpty then fb
  else match jsNumberR (jsTrimChars (stripDollar (jsTrimChars v.data))) with
    | some p => p.2
    | none => fb

/-- `normalizeYear`: first `(19|20)\d\d` match, else `safeInt` with an
empty fallback. -/
def normalizeYear (v : String) : String :=
  if (jsTrimChars v.data).isEmpty then ""
  else match findYearPlain (jsTrimChars v.data) with
    | some y => ⟨y⟩
    | none => safeInt (⟨jsTrimChars v.data⟩ : String) ""

def IMAGE_BASE : String :=
  "https://sportscards.standard.us-east-1.oortstorages.com/new%20card%20scans%202/card%20matcher/"

/-- The characters `encodeURIComponent` leaves unescaped. -/
def isUnreservedURI (c : Char) : Bool :=
  (65 ≤ c.toNat && c.toNat ≤ 90) || (97 ≤ c.toNat && c.toNat ≤ 122) ||
  isDigitCh c || c.toNat = 45 || c.toNat = 95 || c.toNat = 46 ||
  c.toNat = 33 || c.toNat = 126 || c.toNat = 42 || c.toNat = 39 ||
  c.toNat = 40 || c.toNat = 41

def hexUp (n : Nat) : Char :=
  if n < 10 then digitCh n
  else if n = 10 then 'A' else if n = 11 then 'B' else if n = 12 then 'C'
  else if n = 13 then 'D' else if n = 14 then 'E' else 'F'

def utf8Bytes (n : Nat) : List Nat :=
  if n < 128 then [n]
  else if n < 2048 then [192 + n / 64, 128 + n % 64]
  else if n < 65536 then [224 + n / 4096, 128 + (n / 64) % 64, 128 + n % 64]
  else [240 + n / 262144, 128 + (n / 4096) % 64, 128 + (n / 64) % 64,
    128 + n % 64]

def pctOne (c : Char) : List Char :=
  if isUnreservedURI c then [c]
  else (utf8Bytes c.toNat).foldr
    (fun b acc => '%' :: hexUp (b / 16) :: hexUp (b % 16) :: acc) []

def encodeURIComp : List Char → List Char
  | [] => []
  | c :: cs => pctOne c ++ encodeURIComp cs

/-- `replace(/%2F/g, "/")` on the encoder's output. -/
def slashRestore : List Char → List Char
  | [] => []
  | [c] => [c]
  | [c, c2] => [c, c2]
  | c :: c2 :: c3 :: rest =>
    if c.toNat = 37 ∧ c2.toNat = 50 ∧ c3.toNat = 70 then '/' :: slashRestore rest
    else c :: slashRestore (c2 :: c3 :: rest)

def startsWithStr (l : List Char) (p : String) : Bool := Hybrid.startsWithL p.data l

/-- `/^https?:\/\//i`. -/
def isHttpPrefix (l : List Char) : Bool :=
  Hybrid.startsWithL "http://".data (l.map lowerAscii) ||
  Hybrid.startsWithL "https://".data (l.map lowerAscii)

def isOpenWrap (c : Char) : Bool :=
  c.toNat = 34 || c.toNat = 39 || c.toNat = 91 || c.toNat = 40

def isCloseWrap (c : Char) : Bool :=
  c.toNat = 34 || c.toNat = 39 || c.toNat = 93 || c.toNat = 41

/-- `replace(/^(\.\/|\/)+/, "")`. -/
def stripDotSlash : List Char → List Char
  | '/' :: rest => stripDotSlash rest
  | '.' :: '/' :: rest => stripDotSlash rest
  | l => l

/-- `split(/[\\/]/).pop()`: the segment after the last path separator. -/
def lastSeg (l : List Char) : List Char :=
  l.foldl (fun acc c => if c.toNat = 47 || c.toNat = 92 then [] else acc ++ [c]) []

def normalizeImageUrl (v : String) : String :=
  if (jsTrimChars v.data).isEmpty then ""
  else if startsWithStr (jsTrimChars v.data) IMAGE_BASE then ⟨jsTrimChars v.data⟩
  else if isHttpPrefix (jsTrimChars v.data) then ⟨jsTrimChars v.data⟩
  else if (lastSeg (stripDotSlash (((jsTrimChars v.data).dropWhile
      isOpenWrap).rdropWhile isCloseWrap))).isEmpty then ""
  else IMAGE_BASE ++
    ⟨slashRestore (encodeURIComp (lastSeg (stripDotSlash
      (((jsTrimChars v.data).dropWhile isOpenWrap).rdropWhile isCloseWrap))))⟩

/-- A JSON string literal without escape sequences; escapes behave as a
parse failure. -/
def jsonStrAt (l : List Char) : Option (List Char × List Char) :=
  match l with
  | c :: rest =>
    if c.toNat = 34 then
      match rest.drop (rest.takeWhile
          (fun d => !(d.toNat = 34) && !(d.toNat = 92))).length with
      | d :: r2 =>
        if d.toNat = 34 then
          some (rest.takeWhile (fun d => !(d.toNat = 34) && !(d.toNat = 92)), r2)
        else none
      | [] => none
    else none
  | [] => none

def skipWs (l : List Char) : List Char := l.dropWhile isWsChar

def jsonElems : Nat → List Char → Option (List (List Char))
  | fuel, l =>
    match jsonStrAt l with
    | none => none
    | some (s, rest) =>
      match skipWs rest with
      | c :: r2 =>
        if c.toNat = 44 then
          match fuel with
          | 0 => none
          | fuel' + 1 => (jsonElems fuel' (skipWs r2)).map (fun es => s :: es)
        else if c.toNat = 93 then
          if (skipWs r2).isEmpty then some [s] else none
        else none
      | [] => none

def jsonArr (l : List Char) : Option (List (List Char)) :=
  match skipWs l with
  | c :: r =>
    if c.toNat = 91 then
      match skipWs r with
      | d :: r2 =>
        if d.toNat = 93 then
          if (skipWs r2).isEmpty then some [] else none
        else jsonElems (d :: r2).length (d :: r2)
      | [] => none
    else none
  | [] => none

/-- `/front\s*[:=]\s*([^;|,]+)/i` (resp. `back`) at the head. -/
def kvAt (pat : List Char) (l : List Char) : Option (List Char) :=
  match stripCI pat l with
  | none => none
  | some r1 =>
    match r1.dropWhile isWsChar with
    | c :: r3 =>
      if c.toNat = 58 || c.toNat = 61 then
        if ((r3.dropWhile isWsChar).takeWhile
            (fun d => !(d.toNat = 59) && !(d.toNat = 124) && !(d.toNat = 44))).isEmpty
        then none
        else some ((r3.dropWhile isWsChar).takeWhile
          (fun d => !(d.toNat = 59) && !(d.toNat = 124) && !(d.toNat = 44)))
      else none
    | [] => none

def kvFind (pat : List Char) : List Char → Option (List Char)
  | [] => none
  | c :: cs =>
    match kvAt pat (c :: cs) with
    | some cap => some cap
    | none => kvFind pat cs

/-- Split on `|`, `,` or `;`. -/
def splitSeps : List Char → List (List Char)
  | [] => [[]]
  | c :: cs =>
    if c.toNat = 124 || c.toNat = 44 || c.toNat = 59 then [] :: splitSeps cs
    else match splitSeps cs with
      | p :: ps => (c :: p) :: ps
      | [] => [[c]]

/-- The separator-split branch: parts trimmed, blanks dropped. -/
def imgParts (l : List Char) : List (List Char) :=
  ((splitSeps l).map
    (fun p => jsTrimChars (p.filter (fun c => !(c.toNat = 13))))).filter
      (fun p => !p.isEmpty)

def parseImagesKV (s : String) : String × String :=
  match kvFind "front".data s.data, kvFind "back".data s.data with
  | none, none =>
    ((⟨(imgParts s.data).getD 0 []⟩ : String), ⟨(imgParts s.data).getD 1 []⟩)
  | f, b =>
    (normalizeText ⟨f.getD []⟩, normalizeText ⟨b.getD []⟩)

def parseImagesField (raw : String) : String × String :=
  if (normalizeText raw).data.isEmpty then ("", "")
  else if startsWithStr (normalizeText raw).data "[" &&
      (match (normalizeText raw).data.getLast? with
        | some c => c.toNat = 93
        | none => false) then
    match jsonArr (normalizeText raw).data with
    | some arr =>
      ((⟨jsTrimChars (arr.getD 0 [])⟩ : String), ⟨jsTrimChars (arr.getD 1 [])⟩)
    | none => parseImagesKV (normalizeText raw)
  else parseImagesKV (normalizeText raw)

def lowTrim (x : String) : String := ⟨(jsTrimChars x.data).map jsLowerCh⟩

def joinBar : List String → String
  | [] => ""
  | [x] => x
  | x :: y :: rest => x ++ "|" ++ joinBar (y :: rest)

/-- One step of `h = (h * 31 + key.charCodeAt(i)) >>> 0`. -/
def hashStep (h : Nat) (c : Char) : Nat := (h * 31 + c.toNat) % 4294967296

def idKeyFields (o : Obj) : List String :=
  [getv o "year", getv o "set", getv o "card_number", getv o "player",
   getv o "parallel", getv o "insert"]

def makeId (o : Obj) (idx : Nat) : String :=
  if joinBar (((idKeyFields o).map lowTrim).filter
      (fun x => !(decide (x = "")))) = "" then
    "row_" ++ natToString (idx + 1)
  else
    "c_" ++ ⟨natToHexDigits ((joinBar (((idKeyFields o).map lowTrim).filter
      (fun x => !(decide (x = ""))))).data.foldl hashStep 0)⟩

def jsOr (a b : String) : String := if a = "" then b else a

def initOut : Obj := CANONICAL_HEADERS.map (fun h => (h, ""))

/-- One entry of the canonical-key copy loop. -/
def copyStep (out : Obj) (e : String × String) : Obj :=
  if hasK out (canonicalizeHeader e.1) then
    setv out (canonicalizeHeader e.1) (normalizeText e.2)
  else out

def copyFold (r : Obj) : Obj := r.foldl copyStep initOut

def stYear (o : Obj) : Obj := setv o "year" (normalizeYear (getv o "year"))

def stQty (o : Obj) : Obj :=
  setv o "quantity" (jsOr (safeInt (getv o "quantity") "1") "1")

def stPrice (o : Obj) : Obj :=
  setv o "purchase_price" (safeNum (getv o "purchase_price") "")

def stValue (o : Obj) : Obj := setv o "value" (safeNum (getv o "value") "")

def stRookie (o : Obj) : Obj := setv o "rookie" (toBool (getv o "rookie"))

def stAutograph (o : Obj) : Obj :=
  setv o "autograph" (toBool (getv o "autograph"))

/-- The images-column fallback when `image` is blank. -/
def stImages (r o : Obj) : Obj :=
  if getv o "image" = "" then
    if normalizeText (getv r "images") = "" then o
    else
      setv (setv o "image"
          (jsOr (parseImagesField (normalizeText (getv r "images"))).1
            (getv o "image")))
        "image_back"
        (jsOr (parseImagesField (normalizeText (getv r "images"))).2
          (getv o "image_back"))
  else o

def stImg1 (o : Obj) : Obj :=
  setv o "image" (normalizeImageUrl (getv o "image"))

def stImg2 (o : Obj) : Obj :=
  setv o "image_back" (normalizeImageUrl (getv o "image_back"))

def stId (i : Nat) (o : Obj) : Obj :=
  setv o "id" (jsOr (normalizeText (getv o "id")) (makeId o i))

def stTimestamp (now : String) (o : Obj) : Obj :=
  if getv o "timestamp" = "" then setv o "timestamp" now else o

def stCurrency (o : Obj) : Obj :=
  if getv o "currency" = "" then setv o "currency" "USD" else o

def stCondition (o : Obj) : Obj :=
  if getv o "condition" = "" then
    setv o "condition" (if getv o "grade" = "" then "raw" else "graded")
  else o

theorem map_fst_shape (l : List (String × String)) (k : String)
    (ks : List String) (h : l.map Prod.fst = k :: ks) :
    ∃ v t, l = (k, v) :: t ∧ t.map Prod.fst = ks := by
  cases l with
  | nil => simp at h
  | cons e t =>
    simp only [List.map_cons, List.cons.injEq] at h
    exact ⟨e.2, t, by rw [← h.1], h.2⟩

theorem mem_keys_of_getEnt {α : Type} :
    ∀ (l : List (String × α)) (k : String) (w : α),
      getEnt l k = some w → k ∈ l.map Prod.fst := by
  intro l
  induction l with
  | nil => intro k w h; cases h
  | cons e t ih =>
    intro k w h
    by_cases he : e.1 = k
    · rw [List.map_cons, he]
      exact List.mem_cons_self _ _
    · have hs : getEnt (e :: t) k = if e.1 = k then some e.2 else getEnt t k := rfl
      rw [hs, if_neg he] at h
      exact List.mem_cons_of_mem _ (ih k w h)

/-- Two objects with the same (duplicate-free) key skeleton and the same
property reads are equal. -/
theorem obj_ext : ∀ (l1 l2 : Obj), l1.map Prod.fst = l2.map Prod.fst →
    (l1.map Prod.fst).Nodup → (∀ k, getv l1 k = getv l2 k) → l1 = l2 := by
  intro l1
  induction l1 with
  | nil =>
    intro l2 hk _ _
    cases l2 with
    | nil => rfl
    | cons e t => simp at hk
  | cons e t ih =>
    intro l2 hk hnd hv
    obtain ⟨v2, t2, rfl, hk2⟩ := map_fst_shape l2 e.1 (t.map Prod.fst)
      (by rw [← hk]; rfl)
    have hval : e.2 = v2 := by
      have hvv := hv e.1
      unfold getv at hvv
      have h1 : getEnt (e :: t) e.1 = some e.2 := by
        show (if e.1 = e.1 then some e.2 else getEnt t e.1) = some e.2
        rw [if_pos rfl]
      have h2 : getEnt ((e.1, v2) :: t2) e.1 = some v2 := by
        show (if e.1 = e.1 then some v2 else getEnt t2 e.1) = some v2
        rw [if_pos rfl]
      rw [h1, h2] at hvv
      exact hvv
    have hnmem : e.1 ∉ t.map Prod.fst := by
      simp only [List.map_cons, List.nodup_cons] at hnd
      exact hnd.1
    have htail : t = t2 := by
      apply ih t2 (by rw [hk2]) (by
        simp only [List.map_cons, List.nodup_cons] at hnd
        exact hnd.2)
      intro k
      by_cases hke : k = e.1
      · rw [hke]
        have hn1 : getEnt t e.1 = none := by
          cases hg : getEnt t e.1 with
          | none => rfl
          | some w => exact absurd (mem_keys_of_getEnt t e.1 w hg) hnmem
        have hn2 : getEnt t2 e.1 = none := by
          cases hg : getEnt t2 e.1 with
          | none => rfl
          | some w =>
            refine absurd ?_ hnmem
            rw [← hk2]
            exact mem_keys_of_getEnt t2 e.1 w hg
        unfold getv
        rw [hn1, hn2]
      · have hvv := hv k
        unfold getv at hvv ⊢
        have h1 : getEnt (e :: t) k = getEnt t k := by
          show (if e.1 = k then some e.2 else getEnt t k) = getEnt t k
          rw [if_neg (by intro hh; exact hke hh.symm)]
        have h2 : getEnt ((e.1, v2) :: t2) k = getEnt t2 k := by
          show (if e.1 = k then some v2 else getEnt t2 k) = getEnt t2 k
          rw [if_neg (by intro hh; exact hke hh.symm)]
        rw [h1, h2] at hvv
        exact hvv
    rw [htail, ← hval]

/-- The body of the `normalized` map for one parsed row at index `i`;
`now` is `new Date().toISOString()`. -/
def normalizeRow (now : String) (i : Nat) (r : Obj) : Obj :=
  stCondition <| stCurrency <| stTimestamp now <| stId i <| stImg2 <| stImg1 <|
    stImages r <| stAutograph <| stRookie <| stValue <| stPrice <| stQty <|
    stYear <| copyFold r

theorem hasK_iff_mem_keys :
    ∀ (o : Obj) (k : String), hasK o k = true ↔ k ∈ o.map Prod.fst := by
  intro o k
  constructor
  · intro h
    unfold hasK at h
    cases hg : getEnt o k with
    | none => rw [hg] at h; cases h
    | some w => exact mem_keys_of_getEnt o k w hg
  · intro h
    induction o with
    | nil => simp at h
    | cons e t ih =>
      rw [List.map_cons] at h
      unfold hasK
      by_cases he : e.1 = k
      · have hs : getEnt (e :: t) k = some e.2 := by
          show (if e.1 = k then some e.2 else getEnt t k) = some e.2
          rw [if_pos he]
        rw [hs]
        rfl
      · have hs : getEnt (e :: t) k = getEnt t k := by
          show (if e.1 = k then some e.2 else getEnt t k) = getEnt t k
          rw [if_neg he]
        rw [hs]
        show hasK t k = true
        apply ih
        rcases List.mem_cons.1 h with h1 | h1
        · exact absurd h1.symm he
        · exact h1

theorem keys_setv_of_hasK :
    ∀ (o : Obj) (k v : String), hasK o k = true →
      (setv o k v).map Prod.fst = o.map Prod.fst := by
  intro o
  induction o with
  | nil => intro k v h; cases h
  | cons e t ih =>
    intro k v h
    show (if e.1 = k then (e.1, v) :: t else e :: setv t k v).map Prod.fst = _
    by_cases he : e.1 = k
    · rw [if_pos he]
      simp
    · rw [if_neg he, List.map_cons, List.map_cons]
      have ht : hasK t k = true := by
        unfold hasK at h ⊢
        have hs : getEnt (e :: t) k = getEnt t k := by
          show (if e.1 = k then some e.2 else getEnt t k) = getEnt t k
          rw [if_neg he]
        rw [hs] at h
        exact h
      rw [ih k v ht]

theorem getv_initOut (k : String) :
    ∀ (L : List String), getv (L.map (fun h => (h, ""))) k = "" := by
  intro L
  induction L with
  | nil => rfl
  | cons h t ih =>
    unfold getv
    show ((if h = k then some "" else getEnt (t.map (fun h => (h, ""))) k)).getD
      "" = ""
    by_cases hh : h = k
    · rw [if_pos hh]
      rfl
    · rw [if_neg hh]
      exact ih

theorem keys_mapPairs (L : List String) :
    (L.map (fun h => ((h, "") : String × String))).map Prod.fst = L := by
  induction L with
  | nil => rfl
  | cons h t ih => simp [ih]

theorem keys_copyStep (out : Obj) (e : String × String) :
    (copyStep out e).map Prod.fst = out.map Prod.fst := by
  unfold copyStep
  by_cases hk : hasK out (canonicalizeHeader e.1) = true
  · rw [if_pos hk]
    exact keys_setv_of_hasK out (canonicalizeHeader e.1) (normalizeText e.2) hk
  · rw [if_neg hk]

theorem keys_copyFoldAux :
    ∀ (entries : List (String × String)) (acc : Obj),
      (entries.foldl copyStep acc).map Prod.fst = acc.map Prod.fst := by
  intro entries
  induction entries with
  | nil => intro acc; rfl
  | cons e t ih =>
    intro acc
    rw [List.foldl_cons, ih (copyStep acc e), keys_copyStep]

theorem keys_copyFold (r : Obj) :
    (copyFold r).map Prod.fst = CANONICAL_HEADERS := by
  unfold copyFold initOut
  rw [keys_copyFoldAux, keys_mapPairs]

/-- Characters surviving `jsTrimChars` occur in the input. -/
theorem mem_of_mem_jsTrimChars {l : List Char} {c : Char}
    (h : c ∈ jsTrimChars l) : c ∈ l := by
  unfold jsTrimChars at h
  have h1 : c ∈ l.dropWhile isWsChar :=
    ( List.rdropWhile_prefix isWsChar (l.dropWhile isWsChar)).sublist.mem h
  exact (l.dropWhile_suffix isWsChar).sublist.mem h1

theorem normalizeText_idem (v : String) :
    normalizeText (normalizeText v) = normalizeText v := by
  unfold normalizeText
  have hfix : (jsTrimChars (v.data.filter (fun c => !(c.toNat = 13)))).filter
      (fun c => !(c.toNat = 13)) =
      jsTrimChars (v.data.filter (fun c => !(c.toNat = 13))) := by
    rw [List.filter_eq_self]
    intro a ha
    have h2 : a ∈ v.data.filter (fun c => !(c.toNat = 13)) :=
      mem_of_mem_jsTrimChars ha
    exact (List.mem_filter.1 h2).2
  show (⟨jsTrimChars ((⟨jsTrimChars (v.data.filter (fun c => !(c.toNat = 13)))⟩ :
      String).data.filter (fun c => !(c.toNat = 13)))⟩ : String) = _
  rw [show ((⟨jsTrimChars (v.data.filter (fun c => !(c.toNat = 13)))⟩ :
      String).data) = jsTrimChars (v.data.filter (fun c => !(c.toNat = 13)))
    from rfl]
  rw [hfix, jsTrimChars_idem]

/-- A string with no whitespace (hence no carriage return) is fixed by
`normalizeText`. -/
theorem normalizeText_of_no_ws {l : List Char}
    (h : ∀ c ∈ l, isWsChar c = false) :
    normalizeText ⟨l⟩ = ⟨l⟩ := by
  unfold normalizeText
  have hfil : l.filter (fun c => !(c.toNat = 13)) = l := by
    rw [List.filter_eq_self]
    intro a ha
    have := h a ha
    unfold isWsChar at this
    simp only [Bool.or_eq_false_iff, decide_eq_false_iff_not] at this
    simp only [Bool.not_eq_true', decide_eq_false_iff_not]
    omega
  show (⟨jsTrimChars ((⟨l⟩ : String).data.filter (fun c => !(c.toNat = 13)))⟩ :
    String) = _
  rw [show ((⟨l⟩ : String).data) = l from rfl, hfil,
    jsTrimChars_of_no_ws h]

/-- A trimmed, carriage-return-free list is fixed by `normalizeText`. -/
theorem normalizeText_of_trimmed {l : List Char}
    (ht : jsTrimChars l = l) (hcr : ∀ c ∈ l, c.toNat ≠ 13) :
    normalizeText ⟨l⟩ = ⟨l⟩ := by
  unfold normalizeText
  have hfil : l.filter (fun c => !(c.toNat = 13)) = l := by
    rw [List.filter_eq_self]
    intro a ha
    simp only [Bool.not_eq_true', decide_eq_false_iff_not]
    exact hcr a ha
  show (⟨jsTrimChars ((⟨l⟩ : String).data.filter (fun c => !(c.toNat = 13)))⟩ :
    String) = _
  rw [show ((⟨l⟩ : String).data) = l from rfl, hfil, ht]

theorem getv_stYear_other (o : Obj) (k : String) (h : k ≠ "year") :
    getv (stYear o) k = getv o k := getv_setv_other o "year" _ k h

theorem getv_stQty_other (o : Obj) (k : String) (h : k ≠ "quantity") :
    getv (stQty o) k = getv o k := getv_setv_other o "quantity" _ k h

theorem getv_stPrice_other (o : Obj) (k : String) (h : k ≠ "purchase_price") :
    getv (stPrice o) k = getv o k := getv_setv_other o "purchase_price" _ k h

theorem getv_stValue_other (o : Obj) (k : String) (h : k ≠ "value") :
    getv (stValue o) k = getv o k := getv_setv_other o "value" _ k h

theorem getv_stRookie_other (o : Obj) (k : String) (h : k ≠ "rookie") :
    getv (stRookie o) k = getv o k := getv_setv_other o "rookie" _ k h

theorem getv_stAutograph_other (o : Obj) (k : String) (h : k ≠ "autograph") :
    getv (stAutograph o) k = getv o k := getv_setv_other o "autograph" _ k h

theorem getv_stImages_other (r o : Obj) (k : String) (h1 : k ≠ "image")
    (h2 : k ≠ "image_back") : getv (stImages r o) k = getv o k := by
  unfold stImages
  split
  · split
    · rfl
    · rw [getv_setv_other _ _ _ _ h2, getv_setv_other _ _ _ _ h1]
  · rfl

theorem getv_stImg1_other (o : Obj) (k : String) (h : k ≠ "image") :
    getv (stImg1 o) k = getv o k := getv_setv_other o "image" _ k h

theorem getv_stImg2_other (o : Obj) (k : String) (h : k ≠ "image_back") :
    getv (stImg2 o) k = getv o k := getv_setv_other o "image_back" _ k h

theorem getv_stId_other (i : Nat) (o : Obj) (k : String) (h : k ≠ "id") :
    getv (stId i o) k = getv o k := getv_setv_other o "id" _ k h

theorem getv_stTimestamp_other (now : String) (o : Obj) (k : String)
    (h : k ≠ "timestamp") : getv (stTimestamp now o) k = getv o k := by
  unfold stTimestamp
  split
  · rw [getv_setv_other _ _ _ _ h]
  · rfl

theorem getv_stCurrency_other (o : Obj) (k : String) (h : k ≠ "currency") :
    getv (stCurrency o) k = getv o k := by
  unfold stCurrency
  split
  · rw [getv_setv_other _ _ _ _ h]
  · rfl

theorem getv_stCondition_other (o : Obj) (k : String) (h : k ≠ "condition") :
    getv (stCondition o) k = getv o k := by
  unfold stCondition
  split
  · rw [getv_setv_other _ _ _ _ h]
  · rfl

theorem stTimestamp_ts (now : String) (o : Obj) :
    getv (stTimestamp now o) "timestamp" =
      if getv o "timestamp" = "" then now else getv o "timestamp" := by
  unfold stTimestamp
  by_cases h : getv o "timestamp" = ""
  · rw [if_pos h, if_pos h, getv_setv_same]
  · rw [if_neg h, if_neg h]

theorem stCurrency_cur (o : Obj) :
    getv (stCurrency o) "currency" =
      if getv o "currency" = "" then "USD" else getv o "currency" := by
  unfold stCurrency
  by_cases h : getv o "currency" = ""
  · rw [if_pos h, if_pos h, getv_setv_same]
  · rw [if_neg h, if_neg h]

theorem stCondition_cond (o : Obj) :
    getv (stCondition o) "condition" =
      if getv o "condition" = "" then
        (if getv o "grade" = "" then "raw" else "graded")
      else getv o "condition" := by
  unfold stCondition
  by_cases h : getv o "condition" = ""
  · rw [if_pos h, if_pos h, getv_setv_same]
  · rw [if_neg h, if_neg h]

/-- Abbreviation for the value of field `h` after the canonical copy. -/
def cval (r : Obj) (h : String) : String := getv (copyFold r) h

theorem nr_year (now : String) (i : Nat) (r : Obj) :
    getv (normalizeRow now i r) "year" = normalizeYear (cval r "year") := by
  unfold normalizeRow cval
  rw [getv_stCondition_other _ _ (by decide), getv_stCurrency_other _ _ (by decide),
    getv_stTimestamp_other _ _ _ (by decide), getv_stId_other _ _ _ (by decide),
    getv_stImg2_other _ _ (by decide), getv_stImg1_other _ _ (by decide),
    getv_stImages_other _ _ _ (by decide) (by decide),
    getv_stAutograph_other _ _ (by decide), getv_stRookie_other _ _ (by decide),
    getv_stValue_other _ _ (by decide), getv_stPrice_other _ _ (by decide),
    getv_stQty_other _ _ (by decide)]
  exact getv_setv_same _ _ _

theorem nr_qty (now : String) (i : Nat) (r : Obj) :
    getv (normalizeRow now i r) "quantity" =
      jsOr (safeInt (cval r "quantity") "1") "1" := by
  unfold normalizeRow cval
  rw [getv_stCondition_other _ _ (by decide), getv_stCurrency_other _ _ (by decide),
    getv_stTimestamp_other _ _ _ (by decide), getv_stId_other _ _ _ (by decide),
    getv_stImg2_other _ _ (by decide), getv_stImg1_other _ _ (by decide),
    getv_stImages_other _ _ _ (by decide) (by decide),
    getv_stAutograph_other _ _ (by decide), getv_stRookie_other _ _ (by decide),
    getv_stValue_other _ _ (by decide), getv_stPrice_other _ _ (by decide)]
  show getv (setv _ "quantity" _) "quantity" = _
  rw [getv_setv_same, getv_stYear_other _ _ (by decide)]

theorem nr_price (now : String) (i : Nat) (r : Obj) :
    getv (normalizeRow now i r) "purchase_price" =
      safeNum (cval r "purchase_price") "" := by
  unfold normalizeRow cval
  rw [getv_stCondition_other _ _ (by decide), getv_stCurrency_other _ _ (by decide),
    getv_stTimestamp_other _ _ _ (by decide), getv_stId_other _ _ _ (by decide),
    getv_stImg2_other _ _ (by decide), getv_stImg1_other _ _ (by decide),
    getv_stImages_other _ _ _ (by decide) (by decide),
    getv_stAutograph_other _ _ (by decide), getv_stRookie_other _ _ (by decide),
    getv_stValue_other _ _ (by decide)]
  show getv (setv _ "purchase_price" _) "purchase_price" = _
  rw [getv_setv_same, getv_stQty_other _ _ (by decide),
    getv_stYear_other _ _ (by decide)]

theorem nr_value (now : String) (i : Nat) (r : Obj) :
    getv (normalizeRow now i r) "value" = safeNum (cval r "value") "" := by
  unfold normalizeRow cval
  rw [getv_stCondition_other _ _ (by decide), getv_stCurrency_other _ _ (by decide),
    getv_stTimestamp_other _ _ _ (by decide), getv_stId_other _ _ _ (by decide),
    getv_stImg2_other _ _ (by decide), getv_stImg1_other _ _ (by decide),
    getv_stImages_other _ _ _ (by decide) (by decide),
    getv_stAutograph_other _ _ (by decide), getv_stRookie_other _ _ (by decide)]
  show getv (setv _ "value" _) "value" = _
  rw [getv_setv_same, getv_stPrice_other _ _ (by decide),
    getv_stQty_other _ _ (by decide), getv_stYear_other _ _ (by decide)]

theorem nr_rookie (now : String) (i : Nat) (r : Obj) :
    getv (normalizeRow now i r) "rookie" = toBool (cval r "rookie") := by
  unfold normalizeRow cval
  rw [getv_stCondition_other _ _ (by decide), getv_stCurrency_other _ _ (by decide),
    getv_stTimestamp_other _ _ _ (by decide), getv_stId_other _ _ _ (by decide),
    getv_stImg2_other _ _ (by decide), getv_stImg1_other _ _ (by decide),
    getv_stImages_other _ _ _ (by decide) (by decide),
    getv_stAutograph_other _ _ (by decide)]
  show getv (setv _ "rookie" _) "rookie" = _
  rw [getv_setv_same, getv_stValue_other _ _ (by decide),
    getv_stPrice_other _ _ (by decide), getv_stQty_other _ _ (by decide),
    getv_stYear_other _ _ (by decide)]

theorem nr_autograph (now : String) (i : Nat) (r : Obj) :
    getv (normalizeRow now i r) "autograph" = toBool (cval r "autograph") := by
  unfold normalizeRow cval
  rw [getv_stCondition_other _ _ (by decide), getv_stCurrency_other _ _ (by decide),
    getv_stTimestamp_other _ _ _ (by decide), getv_stId_other _ _ _ (by decide),
    getv_stImg2_other _ _ (by decide), getv_stImg1_other _ _ (by decide),
    getv_stImages_other _ _ _ (by decide) (by decide)]
  show getv (setv _ "autograph" _) "autograph" = _
  rw [getv_setv_same, getv_stRookie_other _ _ (by decide),
    getv_stValue_other _ _ (by decide), getv_stPrice_other _ _ (by decide),
    getv_stQty_other _ _ (by decide), getv_stYear_other _ _ (by decide)]

theorem nr_image (now : String) (i : Nat) (r : Obj) :
    ∃ z : String, getv (normalizeRow now i r) "image" = normalizeImageUrl z := by
  unfold normalizeRow
  rw [getv_stCondition_other _ _ (by decide), getv_stCurrency_other _ _ (by decide),
    getv_stTimestamp_other _ _ _ (by decide), getv_stId_other _ _ _ (by decide),
    getv_stImg2_other _ _ (by decide)]
  unfold stImg1
  exact ⟨_, getv_setv_same _ _ _⟩

theorem nr_image_back (now : String) (i : Nat) (r : Obj) :
    ∃ z : String, getv (normalizeRow now i r) "image_back" =
      normalizeImageUrl z := by
  unfold normalizeRow
  rw [getv_stCondition_other _ _ (by decide), getv_stCurrency_other _ _ (by decide),
    getv_stTimestamp_other _ _ _ (by decide), getv_stId_other _ _ _ (by decide)]
  unfold stImg2
  exact ⟨_, getv_setv_same _ _ _⟩

theorem nr_id (now : String) (i : Nat) (r : Obj) :
    ∃ m : Obj, getv (normalizeRow now i r) "id" =
      jsOr (normalizeText (cval r "id")) (makeId m i) := by
  unfold normalizeRow cval
  rw [getv_stCondition_other _ _ (by decide), getv_stCurrency_other _ _ (by decide),
    getv_stTimestamp_other _ _ _ (by decide)]
  refine ⟨stImg2 (stImg1 (stImages r (stAutograph (stRookie (stValue (stPrice
    (stQty (stYear (copyFold r))))))))), ?_⟩
  unfold stId
  rw [getv_setv_same, getv_stImg2_other _ _ (by decide),
    getv_stImg1_other _ _ (by decide),
    getv_stImages_other _ _ _ (by decide) (by decide),
    getv_stAutograph_other _ _ (by decide), getv_stRookie_other _ _ (by decide),
    getv_stValue_other _ _ (by decide), getv_stPrice_other _ _ (by decide),
    getv_stQty_other _ _ (by decide), getv_stYear_other _ _ (by decide)]

theorem nr_timestamp (now : String) (i : Nat) (r : Obj) :
    getv (normalizeRow now i r) "timestamp" =
      if cval r "timestamp" = "" then now else cval r "timestamp" := by
  unfold normalizeRow cval
  rw [getv_stCondition_other _ _ (by decide), getv_stCurrency_other _ _ (by decide),
    stTimestamp_ts, getv_stId_other _ _ _ (by decide),
    getv_stImg2_other _ _ (by decide), getv_stImg1_other _ _ (by decide),
    getv_stImages_other _ _ _ (by decide) (by decide),
    getv_stAutograph_other _ _ (by decide), getv_stRookie_other _ _ (by decide),
    getv_stValue_other _ _ (by decide), getv_stPrice_other _ _ (by decide),
    getv_stQty_other _ _ (by decide), getv_stYear_other _ _ (by decide)]

theorem nr_currency (now : String) (i : Nat) (r : Obj) :
    getv (normalizeRow now i r) "currency" =
      if cval r "currency" = "" then "USD" else cval r "currency" := by
  unfold normalizeRow cval
  rw [getv_stCondition_other _ _ (by decide), stCurrency_cur,
    getv_stTimestamp_other _ _ _ (by decide), getv_stId_other _ _ _ (by decide),
    getv_stImg2_other _ _ (by decide), getv_stImg1_other _ _ (by decide),
    getv_stImages_other _ _ _ (by decide) (by decide),
    getv_stAutograph_other _ _ (by decide), getv_stRookie_other _ _ (by decide),
    getv_stValue_other _ _ (by decide), getv_stPrice_other _ _ (by decide),
    getv_stQty_other _ _ (by decide), getv_stYear_other _ _ (by decide)]

theorem nr_condition (now : String) (i : Nat) (r : Obj) :
    getv (normalizeRow now i r) "condition" =
      if cval r "condition" = "" then
        (if cval r "grade" = "" then "raw" else "graded")
      else cval r "condition" := by
  unfold normalizeRow cval
  rw [stCondition_cond]
  have hcond : ∀ k : String, k ≠ "timestamp" → k ≠ "currency" → k ≠ "id" →
      k ≠ "image_back" → k ≠ "image" → k ≠ "autograph" → k ≠ "rookie" →
      k ≠ "value" → k ≠ "purchase_price" → k ≠ "quantity" → k ≠ "year" →
      getv (stCurrency (stTimestamp now (stId i (stImg2 (stImg1 (stImages r
        (stAutograph (stRookie (stValue (stPrice (stQty (stYear
          (copyFold r))))))))))))) k = getv (copyFold r) k := by
    intro k h1 h2 h3 h4 h5 h6 h7 h8 h9 h10 h11
    rw [getv_stCurrency_other _ _ h2, getv_stTimestamp_other _ _ _ h1,
      getv_stId_other _ _ _ h3, getv_stImg2_other _ _ h4,
      getv_stImg1_other _ _ h5, getv_stImages_other _ _ _ h5 h4,
      getv_stAutograph_other _ _ h6, getv_stRookie_other _ _ h7,
      getv_stValue_other _ _ h8, getv_stPrice_other _ _ h9,
      getv_stQty_other _ _ h10, getv_stYear_other _ _ h11]
  rw [hcond "condition" (by decide) (by decide) (by decide) (by decide)
    (by decide) (by decide) (by decide) (by decide) (by decide) (by decide)
    (by decide),
    hcond "grade" (by decide) (by decide) (by decide) (by decide) (by decide)
    (by decide) (by decide) (by decide) (by decide) (by decide) (by decide)]

theorem nr_plain (now : String) (i : Nat) (r : Obj) (k : String)
    (h1 : k ≠ "year") (h2 : k ≠ "quantity") (h3 : k ≠ "purchase_price")
    (h4 : k ≠ "value") (h5 : k ≠ "rookie") (h6 : k ≠ "autograph")
    (h7 : k ≠ "image") (h8 : k ≠ "image_back") (h9 : k ≠ "id")
    (h10 : k ≠ "timestamp") (h11 : k ≠ "currency") (h12 : k ≠ "condition") :
    getv (normalizeRow now i r) k = cval r k := by
  unfold normalizeRow cval
  rw [getv_stCondition_other _ _ h12, getv_stCurrency_other _ _ h11,
    getv_stTimestamp_other _ _ _ h10, getv_stId_other _ _ _ h9,
    getv_stImg2_other _ _ h8, getv_stImg1_other _ _ h7,
    getv_stImages_other _ _ _ h7 h8, getv_stAutograph_other _ _ h6,
    getv_stRookie_other _ _ h5, getv_stValue_other _ _ h4,
    getv_stPrice_other _ _ h3, getv_stQty_other _ _ h2,
    getv_stYear_other _ _ h1]

/-- Every value stored by the copy loop is `normalizeText`-fixed. -/
theorem copyFold_values_fixed (r : Obj) :
    ∀ h, normalizeText (getv (copyFold r) h) = getv (copyFold r) h := by
  have haux : ∀ (entries : List (String × String)) (acc : Obj),
      (∀ k, normalizeText (getv acc k) = getv acc k) →
      ∀ k, normalizeText (getv (entries.foldl copyStep acc) k) =
        getv (entries.foldl copyStep acc) k := by
    intro entries
    induction entries with
    | nil => intro acc hacc k; exact hacc k
    | cons e t ih =>
      intro acc hacc k
      rw [List.foldl_cons]
      apply ih
      intro k2
      unfold copyStep
      by_cases hk : hasK acc (canonicalizeHeader e.1) = true
      · rw [if_pos hk]
        by_cases h2 : k2 = canonicalizeHeader e.1
        · rw [h2, getv_setv_same]
          exact normalizeText_idem e.2
        · rw [getv_setv_other _ _ _ _ h2]
          exact hacc k2
      · rw [if_neg hk]
        exact hacc k2
  intro h
  unfold copyFold
  apply haux
  intro k
  unfold initOut
  rw [getv_initOut]
  rfl

theorem jsParseInt_intToString (z : Int) :
    jsParseInt (intToString z) = some z := by
  have h0 := Dedupe.toInt_intToString z (z + 1)
  unfold Dedupe.toInt at h0
  cases h : jsParseInt (intToString z) with
  | none =>
    rw [h] at h0
    simp at h0
  | some w =>
    rw [h] at h0
    simp at h0
    rw [h0]

theorem jsTrimChars_intToChars (z : Int) :
    jsTrimChars (intToChars z) = intToChars z :=
  jsTrimChars_of_no_ws (Dedupe.intToChars_no_ws z)

theorem intToChars_ne_nil (z : Int) : intToChars z ≠ [] := by
  unfold intToChars
  split
  · simp
  · exact natToDigits_ne_nil _

/-- `safeInt` reproduces a rendered integer. -/
theorem safeInt_intToString (z : Int) (fb : String) :
    safeInt (intToString z) fb = intToString z := by
  unfold safeInt
  have hd : (intToString z).data = intToChars z := rfl
  rw [hd, jsTrimChars_intToChars]
  rw [if_neg (by
    intro hh
    exact intToChars_ne_nil z (List.isEmpty_iff.1 hh))]
  have hp : parseIntChars (intToChars z) = some z := by
    have := jsParseInt_intToString z
    unfold jsParseInt at this
    rw [hd, jsTrimChars_intToChars] at this
    exact this
  rw [hp]

theorem jsOr_ne_empty (a b : String) (hb : b ≠ "") : jsOr a b ≠ "" := by
  unfold jsOr
  split
  · exact hb
  · next h => exact h

theorem jsOr_of_ne (a b : String) (ha : a ≠ "") : jsOr a b = a := by
  unfold jsOr
  rw [if_neg ha]

/-- The quantity formula is a fixed point: re-normalizing a stored
quantity returns it unchanged. -/
theorem qty_fix (x : String) :
    jsOr (safeInt (jsOr (safeInt x "1") "1") "1") "1" =
      jsOr (safeInt x "1") "1" := by
  have hone : ("1" : String) = intToString 1 := by decide
  unfold safeInt
  by_cases h0 : (jsTrimChars x.data).isEmpty = true
  · rw [if_pos h0]
    decide
  · rw [if_neg h0]
    cases hp : parseIntChars (jsTrimChars x.data) with
    | none => decide
    | some n =>
      have hne : intToString n ≠ "" := by
        intro hh
        exact intToChars_ne_nil n (congrArg String.data hh)
      rw [jsOr_of_ne _ _ hne]
      have := safeInt_intToString n "1"
      unfold safeInt at this
      rw [this]
      rw [jsOr_of_ne _ _ hne]

theorem accentLower_cases (c : Char) :
    accentLower c = c ∨ (193 ≤ c.toNat ∧ c.toNat ≤ 220 ∧
      225 ≤ (accentLower c).toNat ∧ (accentLower c).toNat ≤ 252) := by
  unfold accentLower
  by_cases h1 : c.toNat = 193
  · rw [if_pos h1]; right; refine ⟨by omega, by omega, by decide, by decide⟩
  · rw [if_neg h1]
    by_cases h2 : c.toNat = 201
    · rw [if_pos h2]; right; refine ⟨by omega, by omega, by decide, by decide⟩
    · rw [if_neg h2]
      by_cases h3 : c.toNat = 205
      · rw [if_pos h3]; right; refine ⟨by omega, by omega, by decide, by decide⟩
      · rw [if_neg h3]
        by_cases h4 : c.toNat = 211
        · rw [if_pos h4]; right
          refine ⟨by omega, by omega, by decide, by decide⟩
        · rw [if_neg h4]
          by_cases h5 : c.toNat = 218
          · rw [if_pos h5]; right
            refine ⟨by omega, by omega, by decide, by decide⟩
          · rw [if_neg h5]
            by_cases h6 : c.toNat = 209
            · rw [if_pos h6]; right
              refine ⟨by omega, by omega, by decide, by decide⟩
            · rw [if_neg h6]
              by_cases h7 : c.toNat = 220
              · rw [if_pos h7]; right
                refine ⟨by omega, by omega, by decide, by decide⟩
              · rw [if_neg h7]; left; rfl

theorem jsLowerCh_fix_low {c : Char} (hlo : 97 ≤ c.toNat)
    (hhi : c.toNat ≤ 122) : jsLowerCh c = c := by
  unfold jsLowerCh
  rw [if_neg (by omega), accentLower_of_lt (by omega)]

theorem jsLowerCh_fix_ge225 {c : Char} (h1 : 225 ≤ c.toNat)
    (h2 : c.toNat ≤ 252) : jsLowerCh c = c := by
  unfold jsLowerCh accentLower
  rw [if_neg (by intro hh; omega), if_neg (by omega),
    if_neg (by intro hh; omega), if_neg (by omega),
    if_neg (by intro hh; omega), if_neg (by omega),
    if_neg (by intro hh; omega), if_neg (by omega)]

theorem jsLowerCh_upper {c : Char} (h : 65 ≤ c.toNat ∧ c.toNat ≤ 90) :
    jsLowerCh c = Char.ofNat (c.toNat + 32) := by
  unfold jsLowerCh
  rw [if_pos h]

theorem jsLowerCh_not_upper {c : Char} (h : ¬(65 ≤ c.toNat ∧ c.toNat ≤ 90)) :
    jsLowerCh c = accentLower c := by
  unfold jsLowerCh
  rw [if_neg h]

theorem jsLowerCh_idem (c : Char) : jsLowerCh (jsLowerCh c) = jsLowerCh c := by
  by_cases h1 : 65 ≤ c.toNat ∧ c.toNat ≤ 90
  · rw [jsLowerCh_upper h1]
    have ht : (Char.ofNat (c.toNat + 32)).toNat = c.toNat + 32 :=
      toNat_ofNat_lt (by omega)
    exact jsLowerCh_fix_low (by rw [ht]; omega) (by rw [ht]; omega)
  · rw [jsLowerCh_not_upper h1]
    rcases accentLower_cases c with hac | hac
    · rw [hac, jsLowerCh_not_upper h1, hac]
    · exact jsLowerCh_fix_ge225 hac.2.2.1 hac.2.2.2

theorem isWsChar_jsLowerCh (c : Char) : isWsChar (jsLowerCh c) = isWsChar c := by
  by_cases h1 : 65 ≤ c.toNat ∧ c.toNat ≤ 90
  · rw [jsLowerCh_upper h1]
    have ht : (Char.ofNat (c.toNat + 32)).toNat = c.toNat + 32 :=
      toNat_ofNat_lt (by omega)
    have hl : isWsChar (Char.ofNat (c.toNat + 32)) = false := by
      unfold isWsChar
      simp only [Bool.or_eq_false_iff, decide_eq_false_iff_not]
      omega
    have hr : isWsChar c = false := by
      unfold isWsChar
      simp only [Bool.or_eq_false_iff, decide_eq_false_iff_not]
      omega
    rw [hl, hr]
  · rw [jsLowerCh_not_upper h1]
    rcases accentLower_cases c with hac | hac
    · rw [hac]
    · have hl : isWsChar (accentLower c) = false := by
        unfold isWsChar
        simp only [Bool.or_eq_false_iff, decide_eq_false_iff_not]
        omega
      have hr : isWsChar c = false := by
        unfold isWsChar
        simp only [Bool.or_eq_false_iff, decide_eq_false_iff_not]
        omega
      rw [hl, hr]

theorem dropWhile_map_lower (l : List Char) :
    (l.map jsLowerCh).dropWhile isWsChar =
      (l.dropWhile isWsChar).map jsLowerCh := by
  induction l with
  | nil => rfl
  | cons c cs ih =>
    rw [List.map_cons, List.dropWhile_cons, List.dropWhile_cons,
      isWsChar_jsLowerCh]
    by_cases h : isWsChar c = true
    · rw [if_pos h, if_pos h, ih]
    · rw [if_neg h, if_neg h, List.map_cons]

theorem jsTrimChars_map_lower (l : List Char) :
    jsTrimChars (l.map jsLowerCh) = (jsTrimChars l).map jsLowerCh := by
  unfold jsTrimChars List.rdropWhile
  rw [dropWhile_map_lower, ← List.map_reverse, dropWhile_map_lower,
    ← List.map_reverse]

theorem jsLowerCh_ne_cr {c : Char} (h : c.toNat ≠ 13) :
    (jsLowerCh c).toNat ≠ 13 := by
  by_cases h1 : 65 ≤ c.toNat ∧ c.toNat ≤ 90
  · rw [jsLowerCh_upper h1, toNat_ofNat_lt (by omega)]
    omega
  · rw [jsLowerCh_not_upper h1]
    rcases accentLower_cases c with hac | hac
    · rw [hac]; exact h
    · omega

theorem jsTrimChars_sublist (l : List Char) : List.Sublist (jsTrimChars l) l :=
  (( List.rdropWhile_prefix isWsChar (l.dropWhile isWsChar)).sublist).trans
    ((l.dropWhile_suffix isWsChar).sublist)

/-- A `normalizeText`-fixed string is carriage-return-free and trimmed. -/
theorem of_normalizeText_fixed {y : String} (h : normalizeText y = y) :
    y.data.filter (fun c => !(c.toNat = 13)) = y.data ∧
      jsTrimChars y.data = y.data := by
  have hdata : jsTrimChars (y.data.filter (fun c => !(c.toNat = 13))) =
      y.data := congrArg String.data h
  have hsub1 : List.Sublist (jsTrimChars (y.data.filter
      (fun c => !(c.toNat = 13)))) (y.data.filter (fun c => !(c.toNat = 13))) :=
    jsTrimChars_sublist _
  have hsub2 : List.Sublist (y.data.filter (fun c => !(c.toNat = 13)))
      y.data := List.filter_sublist _
  have hsub3 : List.Sublist y.data
      (y.data.filter (fun c => !(c.toNat = 13))) := by
    have h4 := hsub1
    rw [hdata] at h4
    exact h4
  have hm : y.data.filter (fun c => !(c.toNat = 13)) = y.data :=
    List.Sublist.antisymm hsub2 hsub3
  refine ⟨hm, ?_⟩
  have h2 : jsTrimChars y.data =
      jsTrimChars (y.data.filter (fun c => !(c.toNat = 13))) := by rw [hm]
  rw [h2, hdata]

theorem isEmpty_map_lower (l : List Char) :
    ((l.map jsLowerCh).isEmpty) = l.isEmpty := by
  cases l with
  | nil => rfl
  | cons c cs => rfl

theorem map_lower_fix (v : String) :
    ((jsTrimChars v.data).map jsLowerCh).map jsLowerCh =
      (jsTrimChars v.data).map jsLowerCh := by
  rw [List.map_map]
  exact List.map_congr_left (fun a _ => jsLowerCh_idem a)

theorem toBool_idem (v : String) : toBool (toBool v) = toBool v := by
  by_cases h0 : (jsTrimChars v.data).isEmpty = true
  · have h1 : toBool v = "" := by
      unfold toBool
      rw [if_pos h0]
    rw [h1]
    decide
  · by_cases hT : (⟨(jsTrimChars v.data).map jsLowerCh⟩ : String) = "1" ∨
        (⟨(jsTrimChars v.data).map jsLowerCh⟩ : String) = "true" ∨
        (⟨(jsTrimChars v.data).map jsLowerCh⟩ : String) = "yes" ∨
        (⟨(jsTrimChars v.data).map jsLowerCh⟩ : String) = "y" ∨
        (⟨(jsTrimChars v.data).map jsLowerCh⟩ : String) = "t"
    · have h1 : toBool v = "true" := by
        unfold toBool
        rw [if_neg h0, if_pos hT]
      rw [h1]
      decide
    · by_cases hF : (⟨(jsTrimChars v.data).map jsLowerCh⟩ : String) = "0" ∨
          (⟨(jsTrimChars v.data).map jsLowerCh⟩ : String) = "false" ∨
          (⟨(jsTrimChars v.data).map jsLowerCh⟩ : String) = "no" ∨
          (⟨(jsTrimChars v.data).map jsLowerCh⟩ : String) = "n" ∨
          (⟨(jsTrimChars v.data).map jsLowerCh⟩ : String) = "f"
      · have h1 : toBool v = "false" := by
          unfold toBool
          rw [if_neg h0, if_neg hT, if_pos hF]
        rw [h1]
        decide
      · have h1 : toBool v = ⟨(jsTrimChars v.data).map jsLowerCh⟩ := by
          unfold toBool
          rw [if_neg h0, if_neg hT, if_neg hF]
        rw [h1]
        unfold toBool
        have hts : jsTrimChars (String.data
            ⟨(jsTrimChars v.data).map jsLowerCh⟩) =
            (jsTrimChars v.data).map jsLowerCh := by
          show jsTrimChars ((jsTrimChars v.data).map jsLowerCh) = _
          rw [jsTrimChars_map_lower, jsTrimChars_idem]
        rw [hts, map_lower_fix, if_neg (by
            rw [isEmpty_map_lower]
            exact h0),
          if_neg hT, if_neg hF]

theorem normalizeText_toBool (v : String) (hv : normalizeText v = v) :
    normalizeText (toBool v) = toBool v := by
  obtain ⟨hfil, htrim⟩ := of_normalizeText_fixed hv
  by_cases h0 : (jsTrimChars v.data).isEmpty = true
  · have h1 : toBool v = "" := by
      unfold toBool
      rw [if_pos h0]
    rw [h1]
    rfl
  · by_cases hT : (⟨(jsTrimChars v.data).map jsLowerCh⟩ : String) = "1" ∨
        (⟨(jsTrimChars v.data).map jsLowerCh⟩ : String) = "true" ∨
        (⟨(jsTrimChars v.data).map jsLowerCh⟩ : String) = "yes" ∨
        (⟨(jsTrimChars v.data).map jsLowerCh⟩ : String) = "y" ∨
        (⟨(jsTrimChars v.data).map jsLowerCh⟩ : String) = "t"
    · have h1 : toBool v = "true" := by
        unfold toBool
        rw [if_neg h0, if_pos hT]
      rw [h1]
      decide
    · by_cases hF : (⟨(jsTrimChars v.data).map jsLowerCh⟩ : String) = "0" ∨
          (⟨(jsTrimChars v.data).map jsLowerCh⟩ : String) = "false" ∨
          (⟨(jsTrimChars v.data).map jsLowerCh⟩ : String) = "no" ∨
          (⟨(jsTrimChars v.data).map jsLowerCh⟩ : String) = "n" ∨
          (⟨(jsTrimChars v.data).map jsLowerCh⟩ : String) = "f"
      · have h1 : toBool v = "false" := by
          unfold toBool
          rw [if_neg h0, if_neg hT, if_pos hF]
        rw [h1]
        decide
      · have h1 : toBool v = ⟨(jsTrimChars v.data).map jsLowerCh⟩ := by
          unfold toBool
          rw [if_neg h0, if_neg hT, if_neg hF]
        rw [h1]
        apply normalizeText_of_trimmed
        · rw [jsTrimChars_map_lower, jsTrimChars_idem]
        · intro c hc
          obtain ⟨d, hd, rfl⟩ := List.mem_map.1 hc
          apply jsLowerCh_ne_cr
          have hdv : d ∈ v.data := mem_of_mem_jsTrimChars hd
          have := List.filter_eq_self.1 hfil d hdv
          simp only [Bool.not_eq_true', decide_eq_false_iff_not] at this
          exact this

/-- The zeta-reduced body of `renderDec` on pre-normalized digit runs. -/
def renderOf (neg : Bool) (i f : List Char) : List Char :=
  if i = ['0'] ∧ f = [] then ['0']
  else if neg then '-' :: (if f.isEmpty then i else i ++ '.' :: f)
  else (if f.isEmpty then i else i ++ '.' :: f)

theorem renderDec_eq_renderOf (neg : Bool) (ip fp : List Char) :
    renderDec neg ip fp =
      renderOf neg
        (if (ip.dropWhile (fun c => c.toNat = 48)).isEmpty then ['0']
          else ip.dropWhile (fun c => c.toNat = 48))
        ((fp.reverse.dropWhile (fun c => c.toNat = 48)).reverse) := rfl

theorem takeWhile_append_stop (p : Char → Bool) :
    ∀ (a : List Char) (c : Char) (b : List Char),
      (∀ d ∈ a, p d = true) → p c = false →
      (a ++ c :: b).takeWhile p = a := by
  intro a
  induction a with
  | nil =>
    intro c b _ hc
    rw [List.nil_append, List.takeWhile_cons, if_neg (by simp [hc])]
  | cons d ds ih =>
    intro c b hall hc
    rw [List.cons_append, List.takeWhile_cons,
      if_pos (hall d (List.mem_cons_self d ds)),
      ih c b (fun x hx => hall x (List.mem_cons_of_mem _ hx)) hc]

theorem jsNumBody_eqn (l : List Char) :
    jsNumBody l =
      match l.drop (l.takeWhile isDigitCh).length with
      | [] => if (l.takeWhile isDigitCh).isEmpty then none
        else some (l.takeWhile isDigitCh, [])
      | c :: fr =>
        if c.toNat = 46 then
          if (fr.takeWhile isDigitCh).length ≠ fr.length then none
          else if (l.takeWhile isDigitCh).isEmpty &&
              (fr.takeWhile isDigitCh).isEmpty then none
          else some (l.takeWhile isDigitCh, fr.takeWhile isDigitCh)
        else none := rfl

theorem jsNumBody_int (i : List Char) (hd : ∀ c ∈ i, isDigitCh c = true)
    (hne : i ≠ []) : jsNumBody i = some (i, []) := by
  have htw : i.takeWhile isDigitCh = i := takeWhile_of_all hd
  rw [jsNumBody_eqn, htw, List.drop_length]
  show (if i.isEmpty then none else some (i, [])) = some (i, [])
  rw [if_neg (by
    intro hh
    exact hne (List.isEmpty_iff.1 hh))]

theorem jsNumBody_frac (i f : List Char) (hd : ∀ c ∈ i, isDigitCh c = true)
    (hne : i ≠ []) (hf : ∀ c ∈ f, isDigitCh c = true) :
    jsNumBody (i ++ '.' :: f) = some (i, f) := by
  have htw : (i ++ '.' :: f).takeWhile isDigitCh = i :=
    takeWhile_append_stop isDigitCh i '.' f hd (by decide)
  rw [jsNumBody_eqn, htw, List.drop_left]
  show (if ('.' : Char).toNat = 46 then
      if (f.takeWhile isDigitCh).length ≠ f.length then none
      else if i.isEmpty && (f.takeWhile isDigitCh).isEmpty then none
      else some (i, f.takeWhile isDigitCh)
    else none) = some (i, f)
  rw [if_pos (show ('.' : Char).toNat = 46 by decide),
    takeWhile_of_all hf, if_neg (by simp)]
  rw [if_neg (by
    intro hh
    rw [Bool.and_eq_true] at hh
    exact hne (List.isEmpty_iff.1 hh.1))]

theorem mag_no_ws (i f : List Char) (hd : ∀ c ∈ i, isDigitCh c = true)
    (hf : ∀ c ∈ f, isDigitCh c = true) :
    ∀ c ∈ (if f.isEmpty then i else i ++ '.' :: f), isWsChar c = false := by
  intro c hc
  by_cases hfe : f.isEmpty = true
  · rw [if_pos hfe] at hc
    exact isDigitCh_not_ws (hd c hc)
  · rw [if_neg hfe] at hc
    rcases List.mem_append.1 hc with h1 | h1
    · exact isDigitCh_not_ws (hd c h1)
    · rcases List.mem_cons.1 h1 with h2 | h2
      · rw [h2]
        decide
      · exact isDigitCh_not_ws (hf c h2)

theorem parse_render_core (neg : Bool) (i f : List Char)
    (hi_d : ∀ c ∈ i, isDigitCh c = true) (hi_ne : i ≠ [])
    (hi_z : i.dropWhile (fun c => c.toNat = 48) = i ∨ i = ['0'])
    (hf_d : ∀ c ∈ f, isDigitCh c = true)
    (hf_z : f.reverse.dropWhile (fun c => c.toNat = 48) = f.reverse) :
    safeNum ⟨renderOf neg i f⟩ "" = ⟨renderOf neg i f⟩ := by
  by_cases hz : i = ['0'] ∧ f = []
  · have hr : renderOf neg i f = ['0'] := by
      unfold renderOf
      rw [if_pos hz]
    rw [hr]
    decide
  · have hr : renderOf neg i f =
        if neg then '-' :: (if f.isEmpty then i else i ++ '.' :: f)
        else (if f.isEmpty then i else i ++ '.' :: f) := by
      unfold renderOf
      rw [if_neg hz]
    have hmagne : (if f.isEmpty then i else i ++ '.' :: f) ≠ [] := by
      split
      · exact hi_ne
      · intro hh
        rcases List.append_eq_nil.1 hh with ⟨h1, _⟩
        exact hi_ne h1
    have hnws : ∀ c ∈ renderOf neg i f, isWsChar c = false := by
      rw [hr]
      intro c hc
      by_cases hn : neg = true
      · rw [if_pos hn] at hc
        rcases List.mem_cons.1 hc with h2 | h2
        · rw [h2]
          decide
        · exact mag_no_ws i f hi_d hf_d c h2
      · rw [if_neg hn] at hc
        exact mag_no_ws i f hi_d hf_d c hc
    have hbody : jsNumBody (if f.isEmpty then i else i ++ '.' :: f) =
        some (i, f) := by
      by_cases hfe : f.isEmpty = true
      · rw [if_pos hfe, List.isEmpty_iff.1 hfe]
        exact jsNumBody_int i hi_d hi_ne
      · rw [if_neg hfe]
        exact jsNumBody_frac i f hi_d hi_ne hf_d
    have hparse : jsNumParse (renderOf neg i f) = some (neg, i, f) := by
      rw [hr]
      cases hn : neg with
      | true =>
        rw [if_pos rfl]
        have hstep : jsNumParse ('-' ::
            (if f.isEmpty then i else i ++ '.' :: f)) =
            (jsNumBody (if f.isEmpty then i else i ++ '.' :: f)).map
              (fun p => (true, p.1, p.2)) := by
          show (if ('-' : Char).toNat = 45 then
              (jsNumBody (if f.isEmpty then i else i ++ '.' :: f)).map
                (fun p => (true, p.1, p.2))
            else if ('-' : Char).toNat = 43 then
              (jsNumBody (if f.isEmpty then i else i ++ '.' :: f)).map
                (fun p => (false, p.1, p.2))
            else (jsNumBody ('-' ::
                (if f.isEmpty then i else i ++ '.' :: f))).map
              (fun p => (false, p.1, p.2))) = _
          rw [if_pos (show ('-' : Char).toNat = 45 by decide)]
        rw [hstep, hbody]
        rfl
      | false =>
        rw [if_neg (by decide)]
        obtain ⟨hi, irest, hie⟩ : ∃ hi irest, i = hi :: irest := by
          cases i with
          | nil => exact absurd rfl hi_ne
          | cons a b => exact ⟨a, b, rfl⟩
        have hhead : (if f.isEmpty then i else i ++ '.' :: f) =
            hi :: (if f.isEmpty then irest else irest ++ '.' :: f) := by
          rw [hie]
          split
          · rfl
          · rfl
        have hdig : isDigitCh hi = true := by
          apply hi_d
          rw [hie]
          exact List.mem_cons_self _ _
        have h48 : 48 ≤ hi.toNat ∧ hi.toNat ≤ 57 := by
          simp only [isDigitCh, Bool.and_eq_true, decide_eq_true_eq] at hdig
          exact hdig
        have hstep : jsNumParse (hi ::
            (if f.isEmpty then irest else irest ++ '.' :: f)) =
            (jsNumBody (hi ::
              (if f.isEmpty then irest else irest ++ '.' :: f))).map
              (fun p => (false, p.1, p.2)) := by
          show (if hi.toNat = 45 then
              (jsNumBody (if f.isEmpty then irest else irest ++ '.' :: f)).map
                (fun p => (true, p.1, p.2))
            else if hi.toNat = 43 then
              (jsNumBody (if f.isEmpty then irest else irest ++ '.' :: f)).map
                (fun p => (false, p.1, p.2))
            else (jsNumBody (hi ::
                (if f.isEmpty then irest else irest ++ '.' :: f))).map
              (fun p => (false, p.1, p.2))) = _
          rw [if_neg (show ¬hi.toNat = 45 by omega),
            if_neg (show ¬hi.toNat = 43 by omega)]
        rw [hhead, hstep, ← hhead, hbody]
        rfl
    have hre : renderDec neg i f = renderOf neg i f := by
      rw [renderDec_eq_renderOf]
      have hii : (if (i.dropWhile (fun c => c.toNat = 48)).isEmpty then ['0']
          else i.dropWhile (fun c => c.toNat = 48)) = i := by
        rcases hi_z with h1 | h1
        · rw [h1, if_neg (by
            intro hh
            exact hi_ne (List.isEmpty_iff.1 hh))]
        · rw [h1]
          rfl
      have hff : (f.reverse.dropWhile (fun c => c.toNat = 48)).reverse = f := by
        rw [hf_z, List.reverse_reverse]
      rw [hii, hff]
    unfold safeNum
    have hdata : (⟨renderOf neg i f⟩ : String).data = renderOf neg i f := rfl
    rw [hdata, jsTrimChars_of_no_ws hnws]
    have hsd : stripDollar (renderOf neg i f) = renderOf neg i f := by
      rw [hr]
      cases hn : neg with
      | true =>
        rw [if_pos rfl]
        show (if ('-' : Char).toNat = 36 then
            (if f.isEmpty then i else i ++ '.' :: f)
          else '-' :: (if f.isEmpty then i else i ++ '.' :: f)) =
          '-' :: (if f.isEmpty then i else i ++ '.' :: f)
        rw [if_neg (show ¬('-' : Char).toNat = 36 by decide)]
      | false =>
        rw [if_neg (by decide)]
        obtain ⟨hi, irest, hie⟩ : ∃ hi irest, i = hi :: irest := by
          cases i with
          | nil => exact absurd rfl hi_ne
          | cons a b => exact ⟨a, b, rfl⟩
        have hdig : isDigitCh hi = true := by
          apply hi_d
          rw [hie]
          exact List.mem_cons_self _ _
        have h48 : 48 ≤ hi.toNat ∧ hi.toNat ≤ 57 := by
          simp only [isDigitCh, Bool.and_eq_true, decide_eq_true_eq] at hdig
          exact hdig
        have hhead : (if f.isEmpty then i else i ++ '.' :: f) =
            hi :: (if f.isEmpty then irest else irest ++ '.' :: f) := by
          rw [hie]
          split
          · rfl
          · rfl
        rw [hhead]
        show (if hi.toNat = 36 then
            (if f.isEmpty then irest else irest ++ '.' :: f)
          else hi :: (if f.isEmpty then irest else irest ++ '.' :: f)) =
          hi :: (if f.isEmpty then irest else irest ++ '.' :: f)
        rw [if_neg (show ¬hi.toNat = 36 by omega)]
    rw [hsd]
    have hrne : renderOf neg i f ≠ [] := by
      rw [hr]
      split
      · simp
      · exact hmagne
    rw [if_neg (by
      intro hh
      exact hrne (List.isEmpty_iff.1 hh))]
    rw [jsTrimChars_of_no_ws hnws]
    unfold jsNumberR
    rw [if_neg (by
      intro hh
      exact hrne (List.isEmpty_iff.1 hh))]
    rw [hparse]
    show (⟨renderDec neg i f⟩ : String) = ⟨renderOf neg i f⟩
    rw [hre]

theorem mem_takeWhile_sat (p : Char → Bool) :
    ∀ (l : List Char) (c : Char), c ∈ l.takeWhile p → p c = true := by
  intro l
  induction l with
  | nil => intro c hc; simp [List.takeWhile] at hc
  | cons a as ih =>
    intro c hc
    rw [List.takeWhile_cons] at hc
    by_cases ha : p a = true
    · rw [if_pos ha] at hc
      rcases List.mem_cons.1 hc with h1 | h1
      · rw [h1]; exact ha
      · exact ih c h1
    · rw [if_neg ha] at hc
      simp at hc

theorem jsNumBody_digits (l ip fp : List Char)
    (h : jsNumBody l = some (ip, fp)) :
    (∀ c ∈ ip, isDigitCh c = true) ∧ (∀ c ∈ fp, isDigitCh c = true) := by
  rw [jsNumBody_eqn] at h
  cases hm : l.drop (l.takeWhile isDigitCh).length with
  | nil =>
    rw [hm] at h
    have h2 : (if (l.takeWhile isDigitCh).isEmpty then none
        else some (l.takeWhile isDigitCh, ([] : List Char))) =
        some (ip, fp) := h
    by_cases he : (l.takeWhile isDigitCh).isEmpty = true
    · rw [if_pos he] at h2
      cases h2
    · rw [if_neg he] at h2
      have h3 := Option.some.inj h2
      injection h3 with h4 h5
      refine ⟨?_, ?_⟩
      · intro c hc
        rw [← h4] at hc
        exact mem_takeWhile_sat isDigitCh l c hc
      · intro c hc
        rw [← h5] at hc
        simp at hc
  | cons c fr =>
    rw [hm] at h
    have h2 : (if c.toNat = 46 then
        if (fr.takeWhile isDigitCh).length ≠ fr.length then none
        else if (l.takeWhile isDigitCh).isEmpty &&
            (fr.takeWhile isDigitCh).isEmpty then none
        else some (l.takeWhile isDigitCh, fr.takeWhile isDigitCh)
      else none) = some (ip, fp) := h
    by_cases hc46 : c.toNat = 46
    · rw [if_pos hc46] at h2
      by_cases hlen : (fr.takeWhile isDigitCh).length ≠ fr.length
      · rw [if_pos hlen] at h2
        cases h2
      · rw [if_neg hlen] at h2
        by_cases hb : ((l.takeWhile isDigitCh).isEmpty &&
            (fr.takeWhile isDigitCh).isEmpty) = true
        · rw [if_pos hb] at h2
          cases h2
        · rw [if_neg hb] at h2
          have h3 := Option.some.inj h2
          injection h3 with h4 h5
          refine ⟨?_, ?_⟩
          · intro d hd
            rw [← h4] at hd
            exact mem_takeWhile_sat isDigitCh l d hd
          · intro d hd
            rw [← h5] at hd
            exact mem_takeWhile_sat isDigitCh fr d hd
    · rw [if_neg hc46] at h2
      cases h2

theorem jsNumParse_digits (l : List Char) (neg : Bool) (ip fp : List Char)
    (h : jsNumParse l = some (neg, ip, fp)) :
    (∀ c ∈ ip, isDigitCh c = true) ∧ (∀ c ∈ fp, isDigitCh c = true) := by
  cases l with
  | nil => cases h
  | cons c rest =>
    have h2 : (if c.toNat = 45 then
        (jsNumBody rest).map (fun p => (true, p.1, p.2))
      else if c.toNat = 43 then
        (jsNumBody rest).map (fun p => (false, p.1, p.2))
      else (jsNumBody (c :: rest)).map (fun p => (false, p.1, p.2))) =
        some (neg, ip, fp) := h
    by_cases h45 : c.toNat = 45
    · rw [if_pos h45] at h2
      obtain ⟨p, hp, hpe⟩ := Option.map_eq_some'.1 h2
      obtain ⟨pi, pf⟩ := p
      injection hpe with he1 hrest
      injection hrest with he2 he3
      rw [← he2, ← he3]
      exact jsNumBody_digits rest pi pf hp
    · rw [if_neg h45] at h2
      by_cases h43 : c.toNat = 43
      · rw [if_pos h43] at h2
        obtain ⟨p, hp, hpe⟩ := Option.map_eq_some'.1 h2
        obtain ⟨pi, pf⟩ := p
        injection hpe with he1 hrest
        injection hrest with he2 he3
        rw [← he2, ← he3]
        exact jsNumBody_digits rest pi pf hp
      · rw [if_neg h43] at h2
        obtain ⟨p, hp, hpe⟩ := Option.map_eq_some'.1 h2
        obtain ⟨pi, pf⟩ := p
        injection hpe with he1 hrest
        injection hrest with he2 he3
        rw [← he2, ← he3]
        exact jsNumBody_digits (c :: rest) pi pf hp

theorem safeNum_shape (x : String) :
    safeNum x "" = "" ∨
      ∃ neg ip fp, (∀ c ∈ ip, isDigitCh c = true) ∧
        (∀ c ∈ fp, isDigitCh c = true) ∧
        safeNum x "" = ⟨renderDec neg ip fp⟩ := by
  unfold safeNum
  by_cases h0 : (stripDollar (jsTrimChars x.data)).isEmpty = true
  · rw [if_pos h0]
    left
    rfl
  · rw [if_neg h0]
    unfold jsNumberR
    by_cases hL : (jsTrimChars (stripDollar (jsTrimChars x.data))).isEmpty = true
    · rw [if_pos hL]
      right
      refine ⟨false, ['0'], [], by decide, by simp, by decide⟩
    · rw [if_neg hL]
      cases hp : jsNumParse (jsTrimChars (stripDollar (jsTrimChars x.data))) with
      | none =>
        left
        rfl
      | some t =>
        right
        obtain ⟨neg, ip, fp⟩ := t
        have hd := jsNumParse_digits _ neg ip fp hp
        exact ⟨neg, ip, fp, hd.1, hd.2, rfl⟩

theorem mem_dropWhile_sub (p : Char → Bool) (l : List Char) (c : Char)
    (h : c ∈ l.dropWhile p) : c ∈ l :=
  (l.dropWhile_suffix p).sublist.mem h

theorem iComp_digits (ip : List Char) (hip : ∀ c ∈ ip, isDigitCh c = true) :
    ∀ c ∈ (if (ip.dropWhile (fun c => c.toNat = 48)).isEmpty then ['0']
      else ip.dropWhile (fun c => c.toNat = 48)), isDigitCh c = true := by
  intro c hc
  split at hc
  · rw [List.mem_singleton] at hc
    rw [hc]
    decide
  · exact hip c (mem_dropWhile_sub _ ip c hc)

theorem iComp_ne (ip : List Char) :
    (if (ip.dropWhile (fun c => c.toNat = 48)).isEmpty then ['0']
      else ip.dropWhile (fun c => c.toNat = 48)) ≠ [] := by
  split
  · simp
  · next h =>
    intro hh
    rw [hh] at h
    simp at h

theorem iComp_z (ip : List Char) :
    (if (ip.dropWhile (fun c => c.toNat = 48)).isEmpty then ['0']
      else ip.dropWhile (fun c => c.toNat = 48)).dropWhile
        (fun c => c.toNat = 48) =
      (if (ip.dropWhile (fun c => c.toNat = 48)).isEmpty then ['0']
        else ip.dropWhile (fun c => c.toNat = 48)) ∨
    (if (ip.dropWhile (fun c => c.toNat = 48)).isEmpty then ['0']
      else ip.dropWhile (fun c => c.toNat = 48)) = ['0'] := by
  split
  · right
    rfl
  · left
    exact List.dropWhile_idempotent _ _

theorem fComp_digits (fp : List Char) (hfp : ∀ c ∈ fp, isDigitCh c = true) :
    ∀ c ∈ (fp.reverse.dropWhile (fun c => c.toNat = 48)).reverse,
      isDigitCh c = true := by
  intro c hc
  rw [List.mem_reverse] at hc
  have h2 : c ∈ fp.reverse := mem_dropWhile_sub _ fp.reverse c hc
  rw [List.mem_reverse] at h2
  exact hfp c h2

theorem fComp_z (fp : List Char) :
    ((fp.reverse.dropWhile (fun c => c.toNat = 48)).reverse).reverse.dropWhile
      (fun c => c.toNat = 48) =
    ((fp.reverse.dropWhile (fun c => c.toNat = 48)).reverse).reverse := by
  rw [List.reverse_reverse]
  exact List.dropWhile_idempotent _ _

/-- The rendering has no whitespace characters. -/
theorem renderOf_no_ws (neg : Bool) (i f : List Char)
    (hi_d : ∀ c ∈ i, isDigitCh c = true)
    (hf_d : ∀ c ∈ f, isDigitCh c = true) :
    ∀ c ∈ renderOf neg i f, isWsChar c = false := by
  unfold renderOf
  intro c hc
  split at hc
  · rw [List.mem_singleton] at hc
    rw [hc]
    decide
  · split at hc
    · rcases List.mem_cons.1 hc with h2 | h2
      · rw [h2]
        decide
      · exact mag_no_ws i f hi_d hf_d c h2
    · exact mag_no_ws i f hi_d hf_d c hc

theorem safeNum_render_fix (neg : Bool) (ip fp : List Char)
    (hip : ∀ c ∈ ip, isDigitCh c = true)
    (hfp : ∀ c ∈ fp, isDigitCh c = true) :
    safeNum ⟨renderDec neg ip fp⟩ "" = ⟨renderDec neg ip fp⟩ := by
  rw [renderDec_eq_renderOf]
  exact parse_render_core neg _ _ (iComp_digits ip hip) (iComp_ne ip)
    (iComp_z ip) (fComp_digits fp hfp) (fComp_z fp)

theorem safeNum_idem (x : String) :
    safeNum (safeNum x "") "" = safeNum x "" := by
  rcases safeNum_shape x with h | ⟨neg, ip, fp, hip, hfp, h⟩
  · rw [h]
    decide
  · rw [h]
    exact safeNum_render_fix neg ip fp hip hfp

theorem normalizeText_safeNum (x : String) :
    normalizeText (safeNum x "") = safeNum x "" := by
  rcases safeNum_shape x with h | ⟨neg, ip, fp, hip, hfp, h⟩
  · rw [h]
    rfl
  · rw [h, renderDec_eq_renderOf]
    exact normalizeText_of_no_ws (renderOf_no_ws neg _ _
      (iComp_digits ip hip) (fComp_digits fp hfp))

theorem char_toNat_inj {a b : Char} (h : a.toNat = b.toNat) : a = b := by
  apply Char.ext
  exact UInt32.ext h

theorem digitCh_digitVal (c : Char) (hd : isDigitCh c = true) :
    digitCh (digitVal c) = c := by
  have h48 : 48 ≤ c.toNat ∧ c.toNat ≤ 57 := by
    simp only [isDigitCh, Bool.and_eq_true, decide_eq_true_eq] at hd
    exact hd
  apply char_toNat_inj
  rw [digitCh_toNat (show digitVal c ≤ 9 by unfold digitVal; omega)]
  unfold digitVal
  omega

theorem digitsVal_cons (c : Char) (t : List Char) :
    digitsVal (c :: t) = digitVal c * 10 ^ t.length + digitsVal t := by
  show t.foldl _ (10 * 0 + digitVal c) = _
  rw [foldl_digits_init]
  ring_nf

theorem digitsVal_append_digit (s : List Char) (d : Char) :
    digitsVal (s ++ [d]) = 10 * digitsVal s + digitVal d := by
  unfold digitsVal
  rw [List.foldl_append]
  rfl

theorem digitsVal_pos (c : Char) (t : List Char) (hd : isDigitCh c = true)
    (hne : c ≠ '0') : 0 < digitsVal (c :: t) := by
  rw [digitsVal_cons]
  have h48 : 48 ≤ c.toNat ∧ c.toNat ≤ 57 := by
    simp only [isDigitCh, Bool.and_eq_true, decide_eq_true_eq] at hd
    exact hd
  have h1 : 1 ≤ digitVal c := by
    unfold digitVal
    have hne48 : c.toNat ≠ 48 := by
      intro hh
      exact hne (char_toNat_inj (hh.trans (by decide)))
    omega
  have h2 : 1 ≤ 10 ^ t.length := Nat.one_le_pow _ _ (by omega)
  have := Nat.mul_le_mul h1 h2
  omega

theorem natToDigits_step (v d : Nat) (hv : 0 < v) (hd : d ≤ 9) :
    natToDigits (10 * v + d) = natToDigits v ++ [digitCh d] := by
  rw [natToDigits_eq (10 * v + d), if_neg (by omega)]
  have h1 : (10 * v + d) / 10 = v := by omega
  have h2 : (10 * v + d) % 10 = d := by omega
  rw [h1, h2]

theorem natToDigits_digitsVal_id :
    ∀ (t : List Char), (∀ c ∈ t, isDigitCh c = true) → t ≠ [] →
      (∀ c0 rest, t = c0 :: rest → c0 ≠ '0') →
      natToDigits (digitsVal t) = t := by
  intro t
  induction t using List.reverseRecOn with
  | nil => intro _ hne _; exact absurd rfl hne
  | append_singleton s d ih =>
    intro hdig hne hhead
    cases s with
    | nil =>
      have hdd : isDigitCh d = true := hdig d (by simp)
      have h48 : 48 ≤ d.toNat ∧ d.toNat ≤ 57 := by
        simp only [isDigitCh, Bool.and_eq_true, decide_eq_true_eq] at hdd
        exact hdd
      show natToDigits (digitsVal [d]) = [d]
      have hv : digitsVal [d] = digitVal d := by
        rw [show ([d] : List Char) = [] ++ [d] from rfl, digitsVal_append_digit]
        show 10 * 0 + digitVal d = digitVal d
        omega
      rw [hv, natToDigits_eq, if_pos (by unfold digitVal; omega),
        digitCh_digitVal d hdd]
    | cons c0 s' =>
      have hc0 : c0 ≠ '0' := hhead c0 (s' ++ [d]) (by simp)
      have hc0d : isDigitCh c0 = true := hdig c0 (by simp)
      have hdd : isDigitCh d = true := hdig d (by simp)
      have h48 : 48 ≤ d.toNat ∧ d.toNat ≤ 57 := by
        simp only [isDigitCh, Bool.and_eq_true, decide_eq_true_eq] at hdd
        exact hdd
      rw [digitsVal_append_digit,
        natToDigits_step (digitsVal (c0 :: s')) (digitVal d)
          (digitsVal_pos c0 s' hc0d hc0) (by unfold digitVal; omega),
        ih (fun c hc => hdig c (List.mem_append_left _ hc)) (by simp)
          (fun e rest he => by
            injection he with h1 h2
            rw [← h1]
            exact hc0),
        digitCh_digitVal d hdd]

theorem digitsVal_dropZeros (l : List Char) :
    digitsVal (l.dropWhile (fun c => c.toNat = 48)) = digitsVal l := by
  induction l with
  | nil => rfl
  | cons c t ih =>
    by_cases h : c.toNat = 48
    · rw [List.dropWhile_cons, if_pos (by simp [h]), ih, digitsVal_cons]
      have h0 : digitVal c = 0 := by
        unfold digitVal
        omega
      rw [h0]
      omega
    · rw [List.dropWhile_cons, if_neg (by simp [h])]

/-- `String(n)` of a digit-run's value: `"0"`, or the run with its leading
zeros removed. -/
theorem natToDigits_digitsVal (ds : List Char)
    (hd : ∀ c ∈ ds, isDigitCh c = true) :
    (ds.dropWhile (fun c => c.toNat = 48) = [] ∧
      natToDigits (digitsVal ds) = ['0']) ∨
    natToDigits (digitsVal ds) = ds.dropWhile (fun c => c.toNat = 48) := by
  by_cases hz : ds.dropWhile (fun c => c.toNat = 48) = []
  · left
    refine ⟨hz, ?_⟩
    rw [← digitsVal_dropZeros, hz]
    rfl
  · right
    rw [← digitsVal_dropZeros]
    apply natToDigits_digitsVal_id
    · intro c hc
      exact hd c (mem_dropWhile_sub _ ds c hc)
    · exact hz
    · intro c0 rest he
      have hhd : (ds.dropWhile (fun c => c.toNat = 48)).head? = some c0 := by
        rw [he]
        rfl
      have := dropWhile_head_false (fun c => decide (c.toNat = 48)) ds c0 hhd
      intro hc
      rw [hc] at this
      simp at this

theorem yearAt_extend (t r : List Char) (h : yearAt t ≠ none) :
    yearAt (t ++ r) ≠ none := by
  cases t with
  | nil => exact absurd rfl h
  | cons c1 t1 =>
    cases t1 with
    | nil => exact absurd rfl h
    | cons c2 t2 =>
      cases t2 with
      | nil => exact absurd rfl h
      | cons c3 t3 =>
        cases t3 with
        | nil => exact absurd rfl h
        | cons c4 t4 =>
          have hredl : yearAt (c1 :: c2 :: c3 :: c4 :: t4) =
              (if (((c1 = '1' && c2 = '9') || (c1 = '2' && c2 = '0')) &&
                isDigitCh c3 && isDigitCh c4) = true then
                some ([c1, c2, c3, c4], t4) else none) := rfl
          have hredr : yearAt ((c1 :: c2 :: c3 :: c4 :: t4) ++ r) =
              (if (((c1 = '1' && c2 = '9') || (c1 = '2' && c2 = '0')) &&
                isDigitCh c3 && isDigitCh c4) = true then
                some ([c1, c2, c3, c4], t4 ++ r) else none) := rfl
          rw [hredr]
          rw [hredl] at h
          by_cases hc : (((c1 = '1' && c2 = '9') || (c1 = '2' && c2 = '0')) &&
              isDigitCh c3 && isDigitCh c4) = true
          · rw [if_pos hc]
            simp
          · rw [if_neg hc] at h
            exact absurd rfl h

theorem findYearPlain_none_windows :
    ∀ (L : List Char), findYearPlain L = none →
      ∀ t, t <:+ L → yearAt t = none := by
  intro L
  induction L with
  | nil =>
    intro _ t ht
    rw [List.suffix_nil.1 ht]
    rfl
  | cons c cs ih =>
    intro h t ht
    have hsplit : yearAt (c :: cs) = none ∧ findYearPlain cs = none := by
      unfold findYearPlain at h
      cases hy : yearAt (c :: cs) with
      | none =>
        rw [hy] at h
        exact ⟨rfl, h⟩
      | some p =>
        rw [hy] at h
        cases h
    rcases List.suffix_cons_iff.1 ht with h1 | h1
    · rw [h1]
      exact hsplit.1
    · exact ih hsplit.2 t h1

theorem findYearPlain_eq_none :
    ∀ (L : List Char), (∀ t, t <:+ L → yearAt t = none) →
      findYearPlain L = none := by
  intro L
  induction L with
  | nil => intro _; rfl
  | cons c cs ih =>
    intro h
    unfold findYearPlain
    rw [h (c :: cs) (List.suffix_refl _)]
    exact ih (fun t ht => h t (ht.trans (List.suffix_cons c cs)))

theorem findYearPlain_none_of_embed (D ds X L : List Char)
    (hD : D <:+ ds) (hL : ds ++ X <:+ L) (hnone : findYearPlain L = none) :
    findYearPlain D = none := by
  apply findYearPlain_eq_none
  intro t ht
  cases hy : yearAt t with
  | none => rfl
  | some p =>
    exfalso
    have h1 : t <:+ ds := ht.trans hD
    have h2 : t ++ X <:+ ds ++ X := by
      obtain ⟨pre, hp⟩ := h1
      exact ⟨pre, by rw [← List.append_assoc, hp]⟩
    have h3 : t ++ X <:+ L := h2.trans hL
    have h4 : yearAt (t ++ X) ≠ none := yearAt_extend t X (by
      rw [hy]
      simp)
    exact h4 (findYearPlain_none_windows L hnone (t ++ X) h3)

theorem findYearPlain_cons_nonyear (c : Char) (M : List Char)
    (hc1 : c ≠ '1') (hc2 : c ≠ '2') (h : findYearPlain M = none) :
    findYearPlain (c :: M) = none := by
  have hy : yearAt (c :: M) = none := by
    cases M with
    | nil => rfl
    | cons c2 t2 =>
      cases t2 with
      | nil => rfl
      | cons c3 t3 =>
        cases t3 with
        | nil => rfl
        | cons c4 t4 =>
          have hred : yearAt (c :: c2 :: c3 :: c4 :: t4) =
              (if (((c = '1' && c2 = '9') || (c = '2' && c2 = '0')) &&
                isDigitCh c3 && isDigitCh c4) = true then
                some ([c, c2, c3, c4], t4) else none) := rfl
          rw [hred, if_neg (by
            simp only [Bool.and_eq_true, Bool.or_eq_true, decide_eq_true_eq]
            intro hh
            rcases hh.1.1 with h1 | h1
            · exact hc1 h1.1
            · exact hc2 h1.1)]
  unfold findYearPlain
  rw [hy]
  exact h

theorem suffix_append_left {t ds X : List Char} (h : t <:+ ds) :
    t ++ X <:+ ds ++ X := by
  obtain ⟨pre, hp⟩ := h
  exact ⟨pre, by rw [← List.append_assoc, hp]⟩

/-- An integer rendered from a digit run parsed out of a year-free string
contains no year either. -/
theorem findYearPlain_intToChars (s' : List Char) (n : Int)
    (hnone : findYearPlain s' = none) (hp : parseIntChars s' = some n) :
    findYearPlain (intToChars n) = none := by
  cases s' with
  | nil => cases hp
  | cons c rest0 =>
    have hsplit : ∀ (ds X tail : List Char), ds ++ X = tail →
        (c :: rest0 = tail ∨ tail = rest0) →
        (∀ d ∈ ds, isDigitCh d = true) →
        ∀ (m : Nat), m = digitsVal ds →
        findYearPlain (intToChars (m : Int)) = none ∧
        findYearPlain (intToChars (-(m : Nat) : Int)) = none := by
      intro ds X tail hds htail hdig m hm
      have htailsuffix : ds ++ X <:+ c :: rest0 := by
        rcases htail with h1 | h1
        · rw [hds, ← h1]
        · rw [hds, h1]
          exact List.suffix_cons c rest0
      rcases natToDigits_digitsVal ds hdig with ⟨hz, hD⟩ | hD
      · have hm0 : m = 0 := by
          rw [hm, ← digitsVal_dropZeros, hz]
          rfl
        subst hm0
        constructor
        · decide
        · decide
      · have hDnone : findYearPlain (natToDigits (digitsVal ds)) = none := by
          rw [hD]
          exact findYearPlain_none_of_embed _ ds X (c :: rest0)
            (List.dropWhile_suffix _) htailsuffix hnone
        subst hm
        constructor
        · show findYearPlain (intToChars (digitsVal ds : Int)) = none
          unfold intToChars
          rw [if_neg (by omega)]
          rw [show ((digitsVal ds : Int)).natAbs = digitsVal ds from rfl]
          exact hDnone
        · show findYearPlain (intToChars (-(digitsVal ds : Nat) : Int)) = none
          by_cases hz2 : digitsVal ds = 0
          · rw [hz2]
            decide
          · unfold intToChars
            rw [if_pos (by omega)]
            rw [show ((-(digitsVal ds : Nat) : Int)).natAbs = digitsVal ds by
              rw [Int.natAbs_neg]
              rfl]
            exact findYearPlain_cons_nonyear '-' _ (by decide) (by decide)
              hDnone
    have hps : (if c.toNat = 45 then
        (leadDigits rest0).map (fun ds => -(digitsVal ds : Int))
      else if c.toNat = 43 then
        (leadDigits rest0).map (fun ds => (digitsVal ds : Int))
      else (leadDigits (c :: rest0)).map (fun ds => (digitsVal ds : Int))) =
        some n := hp
    have hlead : ∀ (l : List Char), leadDigits l =
        (if (l.takeWhile isDigitCh).isEmpty then none
          else some (l.takeWhile isDigitCh)) := fun _ => rfl
    by_cases h45 : c.toNat = 45
    · rw [if_pos h45, hlead] at hps
      by_cases he : (rest0.takeWhile isDigitCh).isEmpty = true
      · rw [if_pos he] at hps
        simp at hps
      · rw [if_neg he] at hps
        simp only [Option.map_some'] at hps
        have hn : n = -(digitsVal (rest0.takeWhile isDigitCh) : Nat) := by
          have h2 := Option.some.inj hps
          rw [← h2]
        rw [hn]
        exact (hsplit (rest0.takeWhile isDigitCh) (rest0.dropWhile isDigitCh)
          rest0 (List.takeWhile_append_dropWhile isDigitCh rest0) (Or.inr rfl)
          (fun d hd => mem_takeWhile_sat isDigitCh rest0 d hd)
          (digitsVal (rest0.takeWhile isDigitCh)) rfl).2
    · rw [if_neg h45] at hps
      by_cases h43 : c.toNat = 43
      · rw [if_pos h43, hlead] at hps
        by_cases he : (rest0.takeWhile isDigitCh).isEmpty = true
        · rw [if_pos he] at hps
          simp at hps
        · rw [if_neg he] at hps
          simp only [Option.map_some'] at hps
          have hn : n = (digitsVal (rest0.takeWhile isDigitCh) : Int) := by
            have h2 := Option.some.inj hps
            rw [← h2]
          rw [hn]
          exact (hsplit (rest0.takeWhile isDigitCh) (rest0.dropWhile isDigitCh)
            rest0 (List.takeWhile_append_dropWhile isDigitCh rest0) (Or.inr rfl)
            (fun d hd => mem_takeWhile_sat isDigitCh rest0 d hd)
            (digitsVal (rest0.takeWhile isDigitCh)) rfl).1
      · rw [if_neg h43, hlead] at hps
        by_cases he : ((c :: rest0).takeWhile isDigitCh).isEmpty = true
        · rw [if_pos he] at hps
          simp at hps
        · rw [if_neg he] at hps
          simp only [Option.map_some'] at hps
          have hn : n = (digitsVal ((c :: rest0).takeWhile isDigitCh) : Int) := by
            have h2 := Option.some.inj hps
            rw [← h2]
          rw [hn]
          exact (hsplit ((c :: rest0).takeWhile isDigitCh)
            ((c :: rest0).dropWhile isDigitCh) (c :: rest0)
            (List.takeWhile_append_dropWhile isDigitCh (c :: rest0)) (Or.inl rfl)
            (fun d hd => mem_takeWhile_sat isDigitCh (c :: rest0) d hd)
            (digitsVal ((c :: rest0).takeWhile isDigitCh)) rfl).1

theorem yearAt_some_shape (l y rest : List Char)
    (h : yearAt l = some (y, rest)) :
    ∃ c1 c2 c3 c4 tail, l = c1 :: c2 :: c3 :: c4 :: tail ∧
      y = [c1, c2, c3, c4] ∧ rest = tail ∧
      (((c1 = '1' && c2 = '9') || (c1 = '2' && c2 = '0')) &&
        isDigitCh c3 && isDigitCh c4) = true := by
  cases l with
  | nil => cases h
  | cons c1 t1 =>
    cases t1 with
    | nil => cases h
    | cons c2 t2 =>
      cases t2 with
      | nil => cases h
      | cons c3 t3 =>
        cases t3 with
        | nil => cases h
        | cons c4 t4 =>
          have hred : yearAt (c1 :: c2 :: c3 :: c4 :: t4) =
              (if (((c1 = '1' && c2 = '9') || (c1 = '2' && c2 = '0')) &&
                isDigitCh c3 && isDigitCh c4) = true then
                some ([c1, c2, c3, c4], t4) else none) := rfl
          rw [hred] at h
          by_cases hc : (((c1 = '1' && c2 = '9') || (c1 = '2' && c2 = '0')) &&
              isDigitCh c3 && isDigitCh c4) = true
          · rw [if_pos hc] at h
            have h2 := Option.some.inj h
            injection h2 with hy hr
            exact ⟨c1, c2, c3, c4, t4, rfl, hy.symm, hr.symm, hc⟩
          · rw [if_neg hc] at h
            cases h

theorem findYearPlain_shape (L y : List Char)
    (h : findYearPlain L = some y) :
    ∃ c1 c2 c3 c4, y = [c1, c2, c3, c4] ∧
      (((c1 = '1' && c2 = '9') || (c1 = '2' && c2 = '0')) &&
        isDigitCh c3 && isDigitCh c4) = true := by
  induction L with
  | nil => cases h
  | cons c cs ih =>
    unfold findYearPlain at h
    cases hy : yearAt (c :: cs) with
    | none =>
      rw [hy] at h
      exact ih h
    | some p =>
      rw [hy] at h
      obtain ⟨py, pr⟩ := p
      obtain ⟨c1, c2, c3, c4, tail, _, hys, _, hcond⟩ :=
        yearAt_some_shape _ py pr hy
      have h2 := Option.some.inj h
      exact ⟨c1, c2, c3, c4, by rw [← h2, hys], hcond⟩

theorem yearShape_fix (c1 c2 c3 c4 : Char)
    (hcond : (((c1 = '1' && c2 = '9') || (c1 = '2' && c2 = '0')) &&
      isDigitCh c3 && isDigitCh c4) = true) :
    normalizeYear ⟨[c1, c2, c3, c4]⟩ = ⟨[c1, c2, c3, c4]⟩ ∧
      normalizeText ⟨[c1, c2, c3, c4]⟩ = ⟨[c1, c2, c3, c4]⟩ := by
  have hb := hcond
  simp only [Bool.and_eq_true, Bool.or_eq_true, decide_eq_true_eq] at hb
  have hd1 : isDigitCh c1 = true := by
    rcases hb.1.1 with h | h
    · rw [h.1]
      decide
    · rw [h.1]
      decide
  have hd2 : isDigitCh c2 = true := by
    rcases hb.1.1 with h | h
    · rw [h.2]
      decide
    · rw [h.2]
      decide
  have hall : ∀ c ∈ [c1, c2, c3, c4], isDigitCh c = true := by
    intro c hc
    simp only [List.mem_cons, List.mem_singleton] at hc
    rcases hc with rfl | rfl | rfl | hc
    · exact hd1
    · exact hd2
    · exact hb.1.2
    · simp at hc
      rw [hc]
      exact hb.2
  have hnws : ∀ c ∈ [c1, c2, c3, c4], isWsChar c = false :=
    fun c hc => isDigitCh_not_ws (hall c hc)
  constructor
  · unfold normalizeYear
    have hdata : (⟨[c1, c2, c3, c4]⟩ : String).data = [c1, c2, c3, c4] := rfl
    rw [hdata, jsTrimChars_of_no_ws hnws, if_neg (by simp)]
    have hya : yearAt [c1, c2, c3, c4] = some ([c1, c2, c3, c4], []) := by
      have hred : yearAt [c1, c2, c3, c4] =
          (if (((c1 = '1' && c2 = '9') || (c1 = '2' && c2 = '0')) &&
            isDigitCh c3 && isDigitCh c4) = true then
            some ([c1, c2, c3, c4], []) else none) := rfl
      rw [hred, if_pos hcond]
    have hfy : findYearPlain [c1, c2, c3, c4] = some [c1, c2, c3, c4] := by
      unfold findYearPlain
      rw [hya]
    rw [hfy]
  · exact normalizeText_of_no_ws hnws

theorem normalizeYear_idem (v : String) :
    normalizeYear (normalizeYear v) = normalizeYear v := by
  by_cases h0 : (jsTrimChars v.data).isEmpty = true
  · have h1 : normalizeYear v = "" := by
      unfold normalizeYear
      rw [if_pos h0]
    rw [h1]
    rfl
  · cases hf : findYearPlain (jsTrimChars v.data) with
    | some y =>
      have h1 : normalizeYear v = ⟨y⟩ := by
        unfold normalizeYear
        rw [if_neg h0, hf]
      obtain ⟨c1, c2, c3, c4, hy, hcond⟩ := findYearPlain_shape _ y hf
      rw [h1, hy]
      exact (yearShape_fix c1 c2 c3 c4 hcond).1
    | none =>
      have h1 : normalizeYear v = safeInt (⟨jsTrimChars v.data⟩ : String) "" := by
        unfold normalizeYear
        rw [if_neg h0, hf]
      rw [h1]
      unfold safeInt
      have hdata : (⟨jsTrimChars v.data⟩ : String).data = jsTrimChars v.data :=
        rfl
      rw [hdata, jsTrimChars_idem, if_neg h0]
      cases hp : parseIntChars (jsTrimChars v.data) with
      | none => rfl
      | some n =>
        show normalizeYear (intToString n) = intToString n
        unfold normalizeYear
        have hd2 : (intToString n).data = intToChars n := rfl
        rw [hd2, jsTrimChars_intToChars,
          if_neg (by
            intro hh
            exact intToChars_ne_nil n (List.isEmpty_iff.1 hh)),
          findYearPlain_intToChars (jsTrimChars v.data) n hf hp]
        exact safeInt_intToString n ""

theorem normalizeText_normalizeYear (v : String) :
    normalizeText (normalizeYear v) = normalizeYear v := by
  by_cases h0 : (jsTrimChars v.data).isEmpty = true
  · have h1 : normalizeYear v = "" := by
      unfold normalizeYear
      rw [if_pos h0]
    rw [h1]
    rfl
  · cases hf : findYearPlain (jsTrimChars v.data) with
    | some y =>
      have h1 : normalizeYear v = ⟨y⟩ := by
        unfold normalizeYear
        rw [if_neg h0, hf]
      obtain ⟨c1, c2, c3, c4, hy, hcond⟩ := findYearPlain_shape _ y hf
      rw [h1, hy]
      exact (yearShape_fix c1 c2 c3 c4 hcond).2
    | none =>
      have h1 : normalizeYear v = safeInt (⟨jsTrimChars v.data⟩ : String) "" := by
        unfold normalizeYear
        rw [if_neg h0, hf]
      rw [h1]
      unfold safeInt
      have hdata : (⟨jsTrimChars v.data⟩ : String).data = jsTrimChars v.data :=
        rfl
      rw [hdata, jsTrimChars_idem, if_neg h0]
      cases hp : parseIntChars (jsTrimChars v.data) with
      | none => rfl
      | some n =>
        exact normalizeText_of_no_ws (Dedupe.intToChars_no_ws n)

theorem normalizeText_qty (x : String) :
    normalizeText (jsOr (safeInt x "1") "1") = jsOr (safeInt x "1") "1" := by
  unfold safeInt
  by_cases h0 : (jsTrimChars x.data).isEmpty = true
  · rw [if_pos h0]
    decide
  · rw [if_neg h0]
    cases hp : parseIntChars (jsTrimChars x.data) with
    | none => decide
    | some n =>
      rw [jsOr_of_ne _ _ (by
        intro hh
        exact intToChars_ne_nil n (congrArg String.data hh))]
      exact normalizeText_of_no_ws (Dedupe.intToChars_no_ws n)

theorem cr_free_of_fixed {y : String} (h : normalizeText y = y) :
    ∀ c ∈ y.data, c.toNat ≠ 13 := by
  have hf := (of_normalizeText_fixed h).1
  intro c hc
  have h2 := List.filter_eq_self.1 hf c hc
  simp only [Bool.not_eq_true', decide_eq_false_iff_not] at h2
  exact h2

theorem normalizeText_cr_free (x : String) :
    ∀ c ∈ (normalizeText x).data, c.toNat ≠ 13 :=
  cr_free_of_fixed (normalizeText_idem x)

theorem skipWs_sub (l : List Char) : ∀ c ∈ skipWs l, c ∈ l :=
  fun c hc => mem_dropWhile_sub isWsChar l c hc

theorem jsonStrAt_sub (l s r : List Char) (h : jsonStrAt l = some (s, r)) :
    (∀ c ∈ s, c ∈ l) ∧ (∀ c ∈ r, c ∈ l) := by
  cases l with
  | nil => cases h
  | cons c0 rest =>
    have h2 : (if c0.toNat = 34 then
        match rest.drop (rest.takeWhile
            (fun d => !(d.toNat = 34) && !(d.toNat = 92))).length with
        | d :: r2 =>
          if d.toNat = 34 then
            some (rest.takeWhile (fun d => !(d.toNat = 34) && !(d.toNat = 92)),
              r2)
          else none
        | [] => none
      else none) = some (s, r) := h
    by_cases h34 : c0.toNat = 34
    · rw [if_pos h34] at h2
      cases hm : rest.drop (rest.takeWhile
          (fun d => !(d.toNat = 34) && !(d.toNat = 92))).length with
      | nil =>
        rw [hm] at h2
        cases h2
      | cons d r2 =>
        rw [hm] at h2
        have h2b : (if d.toNat = 34 then
            some (rest.takeWhile (fun d => !(d.toNat = 34) && !(d.toNat = 92)),
              r2)
          else none) = some (s, r) := h2
        by_cases hd : d.toNat = 34
        · rw [if_pos hd] at h2b
          have h3 := Option.some.inj h2b
          injection h3 with h4 h5
          constructor
          · intro c hc
            rw [← h4] at hc
            apply List.mem_cons_of_mem
            exact (List.takeWhile_sublist _).mem hc
          · intro c hc
            rw [← h5] at hc
            apply List.mem_cons_of_mem
            have hdrop : c ∈ rest.drop (rest.takeWhile
                (fun d => !(d.toNat = 34) && !(d.toNat = 92))).length := by
              rw [hm]
              exact List.mem_cons_of_mem d hc
            exact (List.drop_sublist _ _).mem hdrop
        · rw [if_neg hd] at h2b
          cases h2b
    · rw [if_neg h34] at h2
      cases h2

theorem jsonElems_sub :
    ∀ (fuel : Nat) (l : List Char) (es : List (List Char)),
      jsonElems fuel l = some es → ∀ e ∈ es, ∀ c ∈ e, c ∈ l := by
  intro fuel
  induction fuel with
  | zero =>
    intro l es h
    unfold jsonElems at h
    have h2 : (match jsonStrAt l with
      | none => none
      | some (s, rest) =>
        match skipWs rest with
        | c :: r2 =>
          if c.toNat = 44 then none
          else if c.toNat = 93 then
            if (skipWs r2).isEmpty then some [s] else none
          else none
        | [] => none) = some es := h
    cases hs : jsonStrAt l with
    | none =>
      rw [hs] at h2
      cases h2
    | some p =>
      rw [hs] at h2
      obtain ⟨s, rest⟩ := p
      have h2a : (match skipWs rest with
        | c :: r2 =>
          if c.toNat = 44 then none
          else if c.toNat = 93 then
            if (skipWs r2).isEmpty then some [s] else none
          else none
        | [] => none) = some es := h2
      cases hw : skipWs rest with
      | nil =>
        rw [hw] at h2a
        cases h2a
      | cons c r2 =>
        rw [hw] at h2a
        have h2b : (if c.toNat = 44 then none
          else if c.toNat = 93 then
            if (skipWs r2).isEmpty then some [s] else none
          else none) = some es := h2a
        by_cases h44 : c.toNat = 44
        · rw [if_pos h44] at h2b
          cases h2b
        · rw [if_neg h44] at h2b
          by_cases h93 : c.toNat = 93
          · rw [if_pos h93] at h2b
            by_cases he : (skipWs r2).isEmpty = true
            · rw [if_pos he] at h2b
              have h3 := Option.some.inj h2b
              intro e hmem
              rw [← h3] at hmem
              rw [List.mem_singleton] at hmem
              intro d hd
              rw [hmem] at hd
              exact (jsonStrAt_sub l s rest hs).1 d hd
            · rw [if_neg he] at h2b
              cases h2b
          · rw [if_neg h93] at h2b
            cases h2b
  | succ fuel ih =>
    intro l es h
    unfold jsonElems at h
    have h2 : (match jsonStrAt l with
      | none => none
      | some (s, rest) =>
        match skipWs rest with
        | c :: r2 =>
          if c.toNat = 44 then
            (jsonElems fuel (skipWs r2)).map (fun es => s :: es)
          else if c.toNat = 93 then
            if (skipWs r2).isEmpty then some [s] else none
          else none
        | [] => none) = some es := h
    cases hs : jsonStrAt l with
    | none =>
      rw [hs] at h2
      cases h2
    | some p =>
      rw [hs] at h2
      obtain ⟨s, rest⟩ := p
      have h2a : (match skipWs rest with
        | c :: r2 =>
          if c.toNat = 44 then
            (jsonElems fuel (skipWs r2)).map (fun es => s :: es)
          else if c.toNat = 93 then
            if (skipWs r2).isEmpty then some [s] else none
          else none
        | [] => none) = some es := h2
      cases hw : skipWs rest with
      | nil =>
        rw [hw] at h2a
        cases h2a
      | cons c r2 =>
        rw [hw] at h2a
        have h2b : (if c.toNat = 44 then
            (jsonElems fuel (skipWs r2)).map (fun es => s :: es)
          else if c.toNat = 93 then
            if (skipWs r2).isEmpty then some [s] else none
          else none) = some es := h2a
        by_cases h44 : c.toNat = 44
        · rw [if_pos h44] at h2b
          obtain ⟨es2, hes2, hmap⟩ := Option.map_eq_some'.1 h2b
          intro e hmem d hd
          rw [← hmap] at hmem
          rcases List.mem_cons.1 hmem with h5 | h5
          · rw [h5] at hd
            exact (jsonStrAt_sub l s rest hs).1 d hd
          · have hinner : d ∈ skipWs r2 := ih (skipWs r2) es2 hes2 e h5 d hd
            have hr2 : d ∈ r2 := skipWs_sub r2 d hinner
            have hcs : d ∈ skipWs rest := by
              rw [hw]
              exact List.mem_cons_of_mem c hr2
            exact (jsonStrAt_sub l s rest hs).2 d (skipWs_sub rest d hcs)
        · rw [if_neg h44] at h2b
          by_cases h93 : c.toNat = 93
          · rw [if_pos h93] at h2b
            by_cases he : (skipWs r2).isEmpty = true
            · rw [if_pos he] at h2b
              have h3 := Option.some.inj h2b
              intro e hmem
              rw [← h3] at hmem
              rw [List.mem_singleton] at hmem
              intro d hd
              rw [hmem] at hd
              exact (jsonStrAt_sub l s rest hs).1 d hd
            · rw [if_neg he] at h2b
              cases h2b
          · rw [if_neg h93] at h2b
            cases h2b

theorem jsonArr_sub (l : List Char) (arr : List (List Char))
    (h : jsonArr l = some arr) : ∀ e ∈ arr, ∀ c ∈ e, c ∈ l := by
  have h2 : (match skipWs l with
    | c :: r =>
      if c.toNat = 91 then
        match skipWs r with
        | d :: r2 =>
          if d.toNat = 93 then
            if (skipWs r2).isEmpty then some [] else none
          else jsonElems (d :: r2).length (d :: r2)
        | [] => none
      else none
    | [] => none) = some arr := h
  cases hw : skipWs l with
  | nil =>
    rw [hw] at h2
    cases h2
  | cons c r =>
    rw [hw] at h2
    have h2b : (if c.toNat = 91 then
        match skipWs r with
        | d :: r2 =>
          if d.toNat = 93 then
            if (skipWs r2).isEmpty then some [] else none
          else jsonElems (d :: r2).length (d :: r2)
        | [] => none
      else none) = some arr := h2
    by_cases h91 : c.toNat = 91
    · rw [if_pos h91] at h2b
      cases hw2 : skipWs r with
      | nil =>
        rw [hw2] at h2b
        cases h2b
      | cons d r2 =>
        rw [hw2] at h2b
        have h2c : (if d.toNat = 93 then
            if (skipWs r2).isEmpty then some [] else none
          else jsonElems (d :: r2).length (d :: r2)) = some arr := h2b
        by_cases h93 : d.toNat = 93
        · rw [if_pos h93] at h2c
          by_cases he : (skipWs r2).isEmpty = true
          · rw [if_pos he] at h2c
            have h3 := Option.some.inj h2c
            intro e hmem
            rw [← h3] at hmem
            simp at hmem
          · rw [if_neg he] at h2c
            cases h2c
        · rw [if_neg h93] at h2c
          intro e hmem dd hdd
          have h4 : dd ∈ d :: r2 :=
            jsonElems_sub (d :: r2).length (d :: r2) arr h2c e hmem dd hdd
          have h5 : dd ∈ skipWs r := by
            rw [hw2]
            exact h4
          have h6 : dd ∈ r := skipWs_sub r dd h5
          have h7 : dd ∈ skipWs l := by
            rw [hw]
            exact List.mem_cons_of_mem c h6
          exact skipWs_sub l dd h7
    · rw [if_neg h91] at h2b
      cases h2b

theorem getD_cases {α : Type} :
    ∀ (L : List α) (n : Nat) (d : α), L.getD n d = d ∨ L.getD n d ∈ L := by
  intro L
  induction L with
  | nil =>
    intro n d
    left
    cases n with
    | zero => rfl
    | succ m => rfl
  | cons a t ih =>
    intro n d
    cases n with
    | zero =>
      right
      exact List.mem_cons_self a t
    | succ m =>
      rcases ih m d with h | h
      · left
        exact h
      · right
        exact List.mem_cons_of_mem a h

theorem imgParts_cr_free (l : List Char) :
    ∀ p ∈ imgParts l, ∀ c ∈ p, c.toNat ≠ 13 := by
  intro p hp c hc
  unfold imgParts at hp
  have hp2 := (List.mem_filter.1 hp).1
  obtain ⟨q, _, hq2⟩ := List.mem_map.1 hp2
  rw [← hq2] at hc
  have h3 : c ∈ q.filter (fun c => !(c.toNat = 13)) := mem_of_mem_jsTrimChars hc
  have h4 := (List.mem_filter.1 h3).2
  simp only [Bool.not_eq_true', decide_eq_false_iff_not] at h4
  exact h4

theorem parseImagesKV_cr_free (s : String) :
    (∀ c ∈ (parseImagesKV s).1.data, c.toNat ≠ 13) ∧
    (∀ c ∈ (parseImagesKV s).2.data, c.toNat ≠ 13) := by
  unfold parseImagesKV
  cases hf : kvFind "front".data s.data with
  | none =>
    cases hb : kvFind "back".data s.data with
    | none =>
      constructor
      · intro c hc
        rcases getD_cases (imgParts s.data) 0 [] with hg | hg
        · rw [hg] at hc
          simp at hc
        · exact imgParts_cr_free s.data _ hg c hc
      · intro c hc
        rcases getD_cases (imgParts s.data) 1 [] with hg | hg
        · rw [hg] at hc
          simp at hc
        · exact imgParts_cr_free s.data _ hg c hc
    | some b0 =>
      exact ⟨normalizeText_cr_free _, normalizeText_cr_free _⟩
  | some f0 =>
    exact ⟨normalizeText_cr_free _, normalizeText_cr_free _⟩

theorem parseImagesField_cr_free (raw : String) :
    (∀ c ∈ (parseImagesField raw).1.data, c.toNat ≠ 13) ∧
    (∀ c ∈ (parseImagesField raw).2.data, c.toNat ≠ 13) := by
  unfold parseImagesField
  by_cases h0 : (normalizeText raw).data.isEmpty = true
  · rw [if_pos h0]
    constructor
    · intro c hc
      simp at hc
    · intro c hc
      simp at hc
  · rw [if_neg h0]
    by_cases hjson : (startsWithStr (normalizeText raw).data "[" &&
        (match (normalizeText raw).data.getLast? with
          | some c => decide (c.toNat = 93)
          | none => false)) = true
    · rw [if_pos hjson]
      cases ha : jsonArr (normalizeText raw).data with
      | none => exact parseImagesKV_cr_free _
      | some arr =>
        constructor
        · intro c hc
          have h2 : c ∈ arr.getD 0 [] := mem_of_mem_jsTrimChars hc
          rcases getD_cases arr 0 [] with hg | hg
          · rw [hg] at h2
            simp at h2
          · exact normalizeText_cr_free raw c
              (jsonArr_sub _ arr ha _ hg c h2)
        · intro c hc
          have h2 : c ∈ arr.getD 1 [] := mem_of_mem_jsTrimChars hc
          rcases getD_cases arr 1 [] with hg | hg
          · rw [hg] at h2
            simp at h2
          · exact normalizeText_cr_free raw c
              (jsonArr_sub _ arr ha _ hg c h2)
    · rw [if_neg hjson]
      exact parseImagesKV_cr_free _

theorem stImages_image_cases (r o : Obj) :
    getv (stImages r o) "image" = getv o "image" ∨
    getv (stImages r o) "image" =
      jsOr (parseImagesField (normalizeText (getv r "images"))).1
        (getv o "image") := by
  unfold stImages
  split
  · split
    · left
      rfl
    · right
      rw [getv_setv_other _ _ _ _ (by decide), getv_setv_same]
  · left
    rfl

theorem stImages_imageback_cases (r o : Obj) :
    getv (stImages r o) "image_back" = getv o "image_back" ∨
    getv (stImages r o) "image_back" =
      jsOr (parseImagesField (normalizeText (getv r "images"))).2
        (getv o "image_back") := by
  unfold stImages
  split
  · split
    · left
      rfl
    · right
      rw [getv_setv_same]
  · left
    rfl

theorem cval_fixed (r : Obj) (h : String) :
    normalizeText (cval r h) = cval r h := copyFold_values_fixed r h

theorem cval_cr_free (r : Obj) (h : String) :
    ∀ c ∈ (cval r h).data, c.toNat ≠ 13 :=
  cr_free_of_fixed (cval_fixed r h)

theorem jsOr_cr_free (a b : String) (ha : ∀ c ∈ a.data, c.toNat ≠ 13)
    (hb : ∀ c ∈ b.data, c.toNat ≠ 13) :
    ∀ c ∈ (jsOr a b).data, c.toNat ≠ 13 := by
  unfold jsOr
  split
  · exact hb
  · exact ha

theorem nr_image_strong (now : String) (i : Nat) (r : Obj) :
    ∃ z : String, getv (normalizeRow now i r) "image" = normalizeImageUrl z ∧
      ∀ c ∈ z.data, c.toNat ≠ 13 := by
  unfold normalizeRow
  rw [getv_stCondition_other _ _ (by decide),
    getv_stCurrency_other _ _ (by decide),
    getv_stTimestamp_other _ _ _ (by decide),
    getv_stId_other _ _ _ (by decide), getv_stImg2_other _ _ (by decide)]
  unfold stImg1
  refine ⟨getv (stImages r (stAutograph (stRookie (stValue (stPrice (stQty
    (stYear (copyFold r)))))))) "image", getv_setv_same _ _ _, ?_⟩
  rcases stImages_image_cases r (stAutograph (stRookie (stValue (stPrice
    (stQty (stYear (copyFold r))))))) with h | h
  · rw [h, getv_stAutograph_other _ _ (by decide),
      getv_stRookie_other _ _ (by decide), getv_stValue_other _ _ (by decide),
      getv_stPrice_other _ _ (by decide), getv_stQty_other _ _ (by decide),
      getv_stYear_other _ _ (by decide)]
    exact cval_cr_free r "image"
  · rw [h]
    apply jsOr_cr_free
    · exact (parseImagesField_cr_free _).1
    · rw [getv_stAutograph_other _ _ (by decide),
        getv_stRookie_other _ _ (by decide),
        getv_stValue_other _ _ (by decide),
        getv_stPrice_other _ _ (by decide), getv_stQty_other _ _ (by decide),
        getv_stYear_other _ _ (by decide)]
      exact cval_cr_free r "image"

theorem nr_image_back_strong (now : String) (i : Nat) (r : Obj) :
    ∃ z : String, getv (normalizeRow now i r) "image_back" =
      normalizeImageUrl z ∧ ∀ c ∈ z.data, c.toNat ≠ 13 := by
  unfold normalizeRow
  rw [getv_stCondition_other _ _ (by decide),
    getv_stCurrency_other _ _ (by decide),
    getv_stTimestamp_other _ _ _ (by decide),
    getv_stId_other _ _ _ (by decide)]
  unfold stImg2
  refine ⟨getv (stImg1 (stImages r (stAutograph (stRookie (stValue (stPrice
    (stQty (stYear (copyFold r))))))))) "image_back", getv_setv_same _ _ _, ?_⟩
  rw [getv_stImg1_other _ _ (by decide)]
  rcases stImages_imageback_cases r (stAutograph (stRookie (stValue (stPrice
    (stQty (stYear (copyFold r))))))) with h | h
  · rw [h, getv_stAutograph_other _ _ (by decide),
      getv_stRookie_other _ _ (by decide), getv_stValue_other _ _ (by decide),
      getv_stPrice_other _ _ (by decide), getv_stQty_other _ _ (by decide),
      getv_stYear_other _ _ (by decide)]
    exact cval_cr_free r "image_back"
  · rw [h]
    apply jsOr_cr_free
    · exact (parseImagesField_cr_free _).2
    · rw [getv_stAutograph_other _ _ (by decide),
        getv_stRookie_other _ _ (by decide),
        getv_stValue_other _ _ (by decide),
        getv_stPrice_other _ _ (by decide), getv_stQty_other _ _ (by decide),
        getv_stYear_other _ _ (by decide)]
      exact cval_cr_free r "image_back"

theorem hexUp_toNat_range (n : Nat) :
    48 ≤ (hexUp n).toNat ∧ (hexUp n).toNat ≤ 70 := by
  unfold hexUp
  by_cases h : n < 10
  · rw [if_pos h]
    have := digitCh_toNat (show n ≤ 9 by omega)
    omega
  · rw [if_neg h]
    by_cases h10 : n = 10
    · rw [if_pos h10]; exact ⟨by decide, by decide⟩
    · rw [if_neg h10]
      by_cases h11 : n = 11
      · rw [if_pos h11]; exact ⟨by decide, by decide⟩
      · rw [if_neg h11]
        by_cases h12 : n = 12
        · rw [if_pos h12]; exact ⟨by decide, by decide⟩
        · rw [if_neg h12]
          by_cases h13 : n = 13
          · rw [if_pos h13]; exact ⟨by decide, by decide⟩
          · rw [if_neg h13]
            by_cases h14 : n = 14
            · rw [if_pos h14]; exact ⟨by decide, by decide⟩
            · rw [if_neg h14]; exact ⟨by decide, by decide⟩

/-- Every character emitted by the percent-escape fold is `%` or a hex
digit. -/
theorem hexFold_mem (bs : List Nat) :
    ∀ d ∈ bs.foldr (fun b acc => '%' :: hexUp (b / 16) :: hexUp (b % 16) ::
      acc) [], d = '%' ∨ ∃ m, d = hexUp m := by
  induction bs with
  | nil => intro d hd; exact absurd hd (List.not_mem_nil d)
  | cons b bs ih =>
    intro d hd
    rw [List.foldr_cons] at hd
    rcases List.mem_cons.1 hd with h | h
    · exact Or.inl h
    rcases List.mem_cons.1 h with h2 | h2
    · exact Or.inr ⟨b / 16, h2⟩
    rcases List.mem_cons.1 h2 with h3 | h3
    · exact Or.inr ⟨b % 16, h3⟩
    · exact ih d h3

theorem pctOne_not_ws (c : Char) : ∀ d ∈ pctOne c, isWsChar d = false := by
  unfold pctOne
  by_cases hun : isUnreservedURI c = true
  · rw [if_pos hun]
    intro d hd
    rw [List.mem_singleton] at hd
    subst hd
    unfold isUnreservedURI isDigitCh at hun
    simp only [Bool.or_eq_true, Bool.and_eq_true, decide_eq_true_eq] at hun
    unfold isWsChar
    simp only [Bool.or_eq_false_iff, decide_eq_false_iff_not]
    omega
  · rw [if_neg hun]
    intro d hd
    rcases hexFold_mem (utf8Bytes c.toNat) d hd with h | ⟨m, hm⟩
    · subst h; decide
    · subst hm
      have hr := hexUp_toNat_range m
      unfold isWsChar
      simp only [Bool.or_eq_false_iff, decide_eq_false_iff_not]
      omega

theorem encodeURIComp_not_ws (l : List Char) :
    ∀ d ∈ encodeURIComp l, isWsChar d = false := by
  induction l with
  | nil => intro d hd; exact absurd hd (List.not_mem_nil d)
  | cons c cs ih =>
    intro d hd
    rw [show encodeURIComp (c :: cs) = pctOne c ++ encodeURIComp cs
      from rfl] at hd
    rcases List.mem_append.1 hd with h | h
    · exact pctOne_not_ws c d h
    · exact ih d h

theorem slashRestore_not_ws_aux : ∀ (n : Nat) (l : List Char),
    l.length ≤ n → (∀ d ∈ l, isWsChar d = false) →
    ∀ d ∈ slashRestore l, isWsChar d = false := by
  intro n
  induction n with
  | zero =>
    intro l hl _ d hd
    have hnil : l = [] := List.eq_nil_of_length_eq_zero (by omega)
    subst hnil
    exact absurd hd (List.not_mem_nil d)
  | succ m ih =>
    intro l hl hws d hd
    cases l with
    | nil => exact absurd hd (List.not_mem_nil d)
    | cons c r =>
      cases r with
      | nil =>
        rw [show slashRestore [c] = [c] from rfl] at hd
        rw [List.mem_singleton] at hd
        rw [hd]
        exact hws c (List.mem_singleton.2 rfl)
      | cons c2 r2 =>
        cases r2 with
        | nil =>
          rw [show slashRestore [c, c2] = [c, c2] from rfl] at hd
          rcases List.mem_cons.1 hd with h | h
          · rw [h]; exact hws c (List.mem_cons_self c _)
          · rw [List.mem_singleton] at h
            rw [h]
            exact hws c2 (List.mem_cons_of_mem c (List.mem_cons_self c2 _))
        | cons c3 r3 =>
          rw [show slashRestore (c :: c2 :: c3 :: r3) =
            (if c.toNat = 37 ∧ c2.toNat = 50 ∧ c3.toNat = 70 then
              '/' :: slashRestore r3
            else c :: slashRestore (c2 :: c3 :: r3)) from rfl] at hd
          by_cases hc : c.toNat = 37 ∧ c2.toNat = 50 ∧ c3.toNat = 70
          · rw [if_pos hc] at hd
            rcases List.mem_cons.1 hd with h | h
            · subst h; decide
            · exact ih r3 (by simp only [List.length_cons] at hl; omega)
                (fun e he => hws e (by
                  exact List.mem_cons_of_mem c (List.mem_cons_of_mem c2
                    (List.mem_cons_of_mem c3 he)))) d h
          · rw [if_neg hc] at hd
            rcases List.mem_cons.1 hd with h | h
            · rw [h]; exact hws c (List.mem_cons_self c _)
            · exact ih (c2 :: c3 :: r3)
                (by simp only [List.length_cons] at hl ⊢; omega)
                (fun e he => hws e (List.mem_cons_of_mem c he)) d h

theorem slashRestore_not_ws (l : List Char)
    (h : ∀ d ∈ l, isWsChar d = false) :
    ∀ d ∈ slashRestore l, isWsChar d = false :=
  slashRestore_not_ws_aux l.length l (Nat.le_refl _) h

theorem startsWithL_self_append : ∀ (p r : List Char),
    Hybrid.startsWithL p (p ++ r) = true := by
  intro p
  induction p with
  | nil => intro r; rfl
  | cons a ps ih =>
    intro r
    show (a = a && Hybrid.startsWithL ps (ps ++ r)) = true
    rw [ih r]
    simp

/-- A rebuilt URL (the image base plus a whitespace-free encoded tail) is
fixed by both `normalizeText` and `normalizeImageUrl`. -/
theorem NIU_result_fix (E : List Char)
    (hws : ∀ d ∈ E, isWsChar d = false) :
    normalizeText (IMAGE_BASE ++ (⟨E⟩ : String)) =
      IMAGE_BASE ++ (⟨E⟩ : String) ∧
    normalizeImageUrl (IMAGE_BASE ++ (⟨E⟩ : String)) =
      IMAGE_BASE ++ (⟨E⟩ : String) := by
  have hrepr : IMAGE_BASE ++ (⟨E⟩ : String) =
      (⟨IMAGE_BASE.data ++ E⟩ : String) := rfl
  have hall : ∀ d ∈ IMAGE_BASE.data ++ E, isWsChar d = false := by
    intro d hd
    rcases List.mem_append.1 hd with h | h
    · revert h
      have : ∀ d ∈ IMAGE_BASE.data, isWsChar d = false := by decide
      exact this d
    · exact hws d h
  constructor
  · rw [hrepr]
    exact normalizeText_of_no_ws hall
  · rw [hrepr]
    unfold normalizeImageUrl
    rw [show ((⟨IMAGE_BASE.data ++ E⟩ : String).data) = IMAGE_BASE.data ++ E
      from rfl]
    rw [jsTrimChars_of_no_ws hall]
    rw [if_neg (by
      cases hb : IMAGE_BASE.data with
      | nil => exact absurd hb (by decide)
      | cons a as => simp)]
    rw [if_pos (show startsWithStr (IMAGE_BASE.data ++ E) IMAGE_BASE = true
      from startsWithL_self_append IMAGE_BASE.data E)]

/-- `normalizeImageUrl` output (on carriage-return-free input) is fixed by
`normalizeText` and by `normalizeImageUrl` itself. -/
theorem normalizeImageUrl_fix (z : String)
    (hcr : ∀ c ∈ z.data, c.toNat ≠ 13) :
    normalizeText (normalizeImageUrl z) = normalizeImageUrl z ∧
    normalizeImageUrl (normalizeImageUrl z) = normalizeImageUrl z := by
  by_cases h0 : (jsTrimChars z.data).isEmpty = true
  · have h1 : normalizeImageUrl z = "" := by
      unfold normalizeImageUrl; rw [if_pos h0]
    rw [h1]
    exact ⟨rfl, rfl⟩
  · by_cases h2 : startsWithStr (jsTrimChars z.data) IMAGE_BASE = true
    · have h1 : normalizeImageUrl z = ⟨jsTrimChars z.data⟩ := by
        unfold normalizeImageUrl; rw [if_neg h0, if_pos h2]
      rw [h1]
      constructor
      · exact normalizeText_of_trimmed (jsTrimChars_idem z.data)
          (fun c hc => hcr c (mem_of_mem_jsTrimChars hc))
      · unfold normalizeImageUrl
        rw [show ((⟨jsTrimChars z.data⟩ : String).data) = jsTrimChars z.data
          from rfl, jsTrimChars_idem]
        rw [if_neg h0, if_pos h2]
    · by_cases h3 : isHttpPrefix (jsTrimChars z.data) = true
      · have h1 : normalizeImageUrl z = ⟨jsTrimChars z.data⟩ := by
          unfold normalizeImageUrl; rw [if_neg h0, if_neg h2, if_pos h3]
        rw [h1]
        constructor
        · exact normalizeText_of_trimmed (jsTrimChars_idem z.data)
            (fun c hc => hcr c (mem_of_mem_jsTrimChars hc))
        · unfold normalizeImageUrl
          rw [show ((⟨jsTrimChars z.data⟩ : String).data) = jsTrimChars z.data
            from rfl, jsTrimChars_idem]
          rw [if_neg h0, if_neg h2, if_pos h3]
      · by_cases h4 : (lastSeg (stripDotSlash (((jsTrimChars z.data).dropWhile
            isOpenWrap).rdropWhile isCloseWrap))).isEmpty = true
        · have h1 : normalizeImageUrl z = "" := by
            unfold normalizeImageUrl
            rw [if_neg h0, if_neg h2, if_neg h3, if_pos h4]
          rw [h1]
          exact ⟨rfl, rfl⟩
        · have h1 : normalizeImageUrl z = IMAGE_BASE ++
              (⟨slashRestore (encodeURIComp (lastSeg (stripDotSlash
                (((jsTrimChars z.data).dropWhile isOpenWrap).rdropWhile
                  isCloseWrap))))⟩ : String) := by
            unfold normalizeImageUrl
            rw [if_neg h0, if_neg h2, if_neg h3, if_neg h4]
          rw [h1]
          exact NIU_result_fix _
            (slashRestore_not_ws _ (encodeURIComp_not_ws _))

theorem canonNodup : CANONICAL_HEADERS.Nodup := by decide

/-- Canonical header names canonicalize to themselves. -/
theorem canonFix : ∀ h ∈ CANONICAL_HEADERS, canonicalizeHeader h = h := by
  decide

theorem getv_eq_empty_of_not_mem (o : Obj) (h : String)
    (hmem : h ∉ o.map Prod.fst) : getv o h = "" := by
  unfold getv
  cases hg : getEnt o h with
  | none => rfl
  | some w => exact absurd (mem_keys_of_getEnt o h w hg) hmem

theorem copyFoldAux_not_mem :
    ∀ (entries : List (String × String)) (acc : Obj) (h : String),
      (∀ e ∈ entries, canonicalizeHeader e.1 ≠ h) →
      getv (entries.foldl copyStep acc) h = getv acc h := by
  intro entries
  induction entries with
  | nil => intro acc h _; rfl
  | cons e t ih =>
    intro acc h hne
    rw [List.foldl_cons, ih (copyStep acc e) h
      (fun f hf => hne f (List.mem_cons_of_mem e hf))]
    unfold copyStep
    by_cases hk : hasK acc (canonicalizeHeader e.1) = true
    · rw [if_pos hk]
      exact getv_setv_other _ _ _ _ (fun hh => hne e (List.mem_cons_self e t) hh.symm)
    · rw [if_neg hk]

theorem copyFoldAux_mem :
    ∀ (entries : List (String × String)) (acc : Obj) (h v : String),
      getEnt entries h = some v →
      (∀ e ∈ entries, canonicalizeHeader e.1 = e.1) →
      (entries.map Prod.fst).Nodup →
      hasK acc h = true →
      getv (entries.foldl copyStep acc) h = normalizeText v := by
  intro entries
  induction entries with
  | nil => intro acc h v hg _ _ _; cases hg
  | cons e t ih =>
    intro acc h v hg hcanon hnd hacc
    rw [List.foldl_cons]
    by_cases he : e.1 = h
    · have hv : v = e.2 := by
        have hs : getEnt (e :: t) h = some e.2 := by
          show (if e.1 = h then some e.2 else getEnt t h) = some e.2
          rw [if_pos he]
        rw [hs] at hg
        exact (Option.some.inj hg).symm
      have hstep : copyStep acc e = setv acc h (normalizeText e.2) := by
        unfold copyStep
        rw [hcanon e (List.mem_cons_self e t), he,
          if_pos hacc]
      rw [hstep, copyFoldAux_not_mem t (setv acc h (normalizeText e.2)) h
        (by
          intro f hf
          rw [hcanon f (List.mem_cons_of_mem e hf)]
          intro hfh
          simp only [List.map_cons, List.nodup_cons] at hnd
          exact hnd.1 (by
            rw [he, ← hfh]
            exact List.mem_map_of_mem Prod.fst hf)),
        getv_setv_same, hv]
    · have hg2 : getEnt t h = some v := by
        have hs : getEnt (e :: t) h = getEnt t h := by
          show (if e.1 = h then some e.2 else getEnt t h) = getEnt t h
          rw [if_neg he]
        rw [hs] at hg
        exact hg
      apply ih (copyStep acc e) h v hg2
        (fun f hf => hcanon f (List.mem_cons_of_mem e hf))
        (by
          simp only [List.map_cons, List.nodup_cons] at hnd
          exact hnd.2)
      apply (hasK_iff_mem_keys _ _).2
      rw [keys_copyStep]
      exact (hasK_iff_mem_keys _ _).1 hacc

/-- On a row whose keys are exactly the canonical headers, the copy loop
re-applies `normalizeText` to each stored value. -/
theorem copyFold_canonical (o : Obj)
    (hk : o.map Prod.fst = CANONICAL_HEADERS) :
    ∀ h, hasK o h = true → getv (copyFold o) h = normalizeText (getv o h) := by
  intro h hh
  cases hg : getEnt o h with
  | none =>
    unfold hasK at hh
    rw [hg] at hh
    cases hh
  | some v =>
    have hv : getv o h = v := by
      unfold getv
      rw [hg]
      rfl
    rw [hv]
    unfold copyFold
    apply copyFoldAux_mem o initOut h v hg
    · intro e he
      apply canonFix
      rw [← hk]
      exact List.mem_map_of_mem Prod.fst he
    · rw [hk]
      exact canonNodup
    · apply (hasK_iff_mem_keys _ _).2
      rw [show initOut.map Prod.fst = CANONICAL_HEADERS from keys_mapPairs _]
      rw [← hk]
      exact (hasK_iff_mem_keys o h).1 hh

theorem keys_setv_keep (o : Obj) (k v : String)
    (hk : o.map Prod.fst = CANONICAL_HEADERS) (hmem : k ∈ CANONICAL_HEADERS) :
    (setv o k v).map Prod.fst = CANONICAL_HEADERS := by
  rw [keys_setv_of_hasK o k v ((hasK_iff_mem_keys o k).2 (by
    rw [hk]; exact hmem))]
  exact hk

theorem keys_stImages (r o : Obj)
    (hk : o.map Prod.fst = CANONICAL_HEADERS) :
    (stImages r o).map Prod.fst = CANONICAL_HEADERS := by
  unfold stImages
  split
  · split
    · exact hk
    · exact keys_setv_keep _ _ _ (keys_setv_keep _ _ _ hk (by decide)) (by decide)
  · exact hk

theorem keys_stTimestamp (now : String) (o : Obj)
    (hk : o.map Prod.fst = CANONICAL_HEADERS) :
    (stTimestamp now o).map Prod.fst = CANONICAL_HEADERS := by
  unfold stTimestamp
  split
  · exact keys_setv_keep _ _ _ hk (by decide)
  · exact hk

theorem keys_stCurrency (o : Obj)
    (hk : o.map Prod.fst = CANONICAL_HEADERS) :
    (stCurrency o).map Prod.fst = CANONICAL_HEADERS := by
  unfold stCurrency
  split
  · exact keys_setv_keep _ _ _ hk (by decide)
  · exact hk

theorem keys_stCondition (o : Obj)
    (hk : o.map Prod.fst = CANONICAL_HEADERS) :
    (stCondition o).map Prod.fst = CANONICAL_HEADERS := by
  unfold stCondition
  split
  · exact keys_setv_keep _ _ _ hk (by decide)
  · exact hk

theorem keys_normalizeRow (now : String) (i : Nat) (r : Obj) :
    (normalizeRow now i r).map Prod.fst = CANONICAL_HEADERS := by
  unfold normalizeRow stYear stQty stPrice stValue stRookie stAutograph
    stImg1 stImg2 stId
  apply keys_stCondition
  apply keys_stCurrency
  apply keys_stTimestamp
  apply keys_setv_keep _ _ _ _ (by decide)
  apply keys_setv_keep _ _ _ _ (by decide)
  apply keys_setv_keep _ _ _ _ (by decide)
  apply keys_stImages
  apply keys_setv_keep _ _ _ _ (by decide)
  apply keys_setv_keep _ _ _ _ (by decide)
  apply keys_setv_keep _ _ _ _ (by decide)
  apply keys_setv_keep _ _ _ _ (by decide)
  apply keys_setv_keep _ _ _ _ (by decide)
  apply keys_setv_keep _ _ _ _ (by decide)
  exact keys_copyFold r

theorem natToDigits_not_ws (n : Nat) :
    ∀ d ∈ natToDigits n, isWsChar d = false := by
  intro d hd
  have h2 : d ∈ intToChars (n : Int) := by
    unfold intToChars
    rw [if_neg (by omega)]
    exact hd
  exact Dedupe.intToChars_no_ws (n : Int) d h2

theorem hexDigitCh_not_ws (n : Nat) : isWsChar (hexDigitCh n) = false := by
  unfold hexDigitCh
  by_cases h : n < 10
  · rw [if_pos h]
    apply isDigitCh_not_ws
    unfold isDigitCh
    have := digitCh_toNat (show n ≤ 9 by omega)
    simp only [Bool.and_eq_true, decide_eq_true_eq]
    omega
  · rw [if_neg h]
    by_cases h10 : n = 10
    · rw [if_pos h10]; decide
    · rw [if_neg h10]
      by_cases h11 : n = 11
      · rw [if_pos h11]; decide
      · rw [if_neg h11]
        by_cases h12 : n = 12
        · rw [if_pos h12]; decide
        · rw [if_neg h12]
          by_cases h13 : n = 13
          · rw [if_pos h13]; decide
          · rw [if_neg h13]
            by_cases h14 : n = 14
            · rw [if_pos h14]; decide
            · rw [if_neg h14]; decide

theorem natToHexAux_not_ws : ∀ (fuel n : Nat),
    ∀ c ∈ natToHexAux fuel n, isWsChar c = false := by
  intro fuel
  induction fuel with
  | zero => intro n c hc; exact absurd hc (List.not_mem_nil c)
  | succ f ih =>
    intro n c hc
    rw [show natToHexAux (f + 1) n = (if n < 16 then [hexDigitCh n]
      else natToHexAux f (n / 16) ++ [hexDigitCh (n % 16)]) from rfl] at hc
    by_cases h : n < 16
    · rw [if_pos h, List.mem_singleton] at hc
      rw [hc]
      exact hexDigitCh_not_ws n
    · rw [if_neg h] at hc
      rcases List.mem_append.1 hc with h1 | h1
      · exact ih (n / 16) c h1
      · rw [List.mem_singleton] at h1
        rw [h1]
        exact hexDigitCh_not_ws (n % 16)

/-- A synthesized id is fixed by `normalizeText` and never blank. -/
theorem makeId_fix (o : Obj) (i : Nat) :
    normalizeText (makeId o i) = makeId o i ∧ makeId o i ≠ "" := by
  unfold makeId
  by_cases hj : joinBar (((idKeyFields o).map lowTrim).filter
      (fun x => !(decide (x = "")))) = ""
  · rw [if_pos hj]
    have hrepr : ("row_" ++ natToString (i + 1) : String) =
        ⟨'r' :: 'o' :: 'w' :: '_' :: natToDigits (i + 1)⟩ := rfl
    rw [hrepr]
    constructor
    · apply normalizeText_of_no_ws
      intro d hd
      rcases List.mem_cons.1 hd with h | h
      · rw [h]; decide
      rcases List.mem_cons.1 h with h2 | h2
      · rw [h2]; decide
      rcases List.mem_cons.1 h2 with h3 | h3
      · rw [h3]; decide
      rcases List.mem_cons.1 h3 with h4 | h4
      · rw [h4]; decide
      · exact natToDigits_not_ws (i + 1) d h4
    · intro hcon
      exact absurd (congrArg String.data hcon) (by simp)
  · rw [if_neg hj]
    have key : ∀ (m : Nat),
        normalizeText ("c_" ++ (⟨natToHexDigits m⟩ : String)) =
          "c_" ++ (⟨natToHexDigits m⟩ : String) ∧
        ("c_" ++ (⟨natToHexDigits m⟩ : String) : String) ≠ "" := by
      intro m
      have hrepr : ("c_" ++ (⟨natToHexDigits m⟩ : String) : String) =
          ⟨'c' :: '_' :: natToHexDigits m⟩ := rfl
      rw [hrepr]
      constructor
      · apply normalizeText_of_no_ws
        intro d hd
        rcases List.mem_cons.1 hd with h | h
        · rw [h]; decide
        rcases List.mem_cons.1 h with h2 | h2
        · rw [h2]; decide
        · exact natToHexAux_not_ws (m + 1) m d h2
      · intro hcon
        exact absurd (congrArg String.data hcon) (by simp)
    exact key _

theorem hasK_of_mem_keys : ∀ (o : Obj) (k : String),
    k ∈ o.map Prod.fst → hasK o k = true := by
  intro o
  induction o with
  | nil => intro k hk; exact absurd hk (List.not_mem_nil k)
  | cons e t ih =>
    intro k hk
    unfold hasK getEnt
    by_cases he : e.1 = k
    · rw [if_pos he]; rfl
    · rw [if_neg he]
      apply ih
      rcases List.mem_cons.1 hk with h | h
      · exact absurd h.symm he
      · exact h

/-- On an already-normalized row the copy loop reduces to a pointwise
`normalizeText` of every canonical field. -/
theorem cval_normalizeRow (now : String) (i : Nat) (r : Obj) (k : String)
    (hk : k ∈ CANONICAL_HEADERS) :
    cval (normalizeRow now i r) k =
      normalizeText (getv (normalizeRow now i r) k) := by
  unfold cval
  exact copyFold_canonical _ (keys_normalizeRow now i r) k
    (hasK_of_mem_keys _ k (by rw [keys_normalizeRow]; exact hk))

theorem stImages_skip (r o : Obj)
    (h : normalizeText (getv r "images") = "") : stImages r o = o := by
  unfold stImages
  by_cases hi : getv o "image" = ""
  · rw [if_pos hi, if_pos h]
  · rw [if_neg hi]

/-- With a blank `images` column the front image is exactly the
re-encoded copied value. -/
theorem nr_image_eq (now : String) (i : Nat) (r : Obj)
    (him : normalizeText (getv r "images") = "") :
    getv (normalizeRow now i r) "image" =
      normalizeImageUrl (cval r "image") := by
  unfold normalizeRow cval
  rw [getv_stCondition_other _ _ (by decide),
    getv_stCurrency_other _ _ (by decide),
    getv_stTimestamp_other _ _ _ (by decide),
    getv_stId_other _ _ _ (by decide),
    getv_stImg2_other _ _ (by decide),
    stImages_skip _ _ him]
  unfold stImg1
  rw [getv_setv_same]
  rw [getv_stAutograph_other _ _ (by decide),
    getv_stRookie_other _ _ (by decide),
    getv_stValue_other _ _ (by decide),
    getv_stPrice_other _ _ (by decide),
    getv_stQty_other _ _ (by decide),
    getv_stYear_other _ _ (by decide)]

theorem nr_image_back_eq (now : String) (i : Nat) (r : Obj)
    (him : normalizeText (getv r "images") = "") :
    getv (normalizeRow now i r) "image_back" =
      normalizeImageUrl (cval r "image_back") := by
  unfold normalizeRow cval
  rw [getv_stCondition_other _ _ (by decide),
    getv_stCurrency_other _ _ (by decide),
    getv_stTimestamp_other _ _ _ (by decide),
    getv_stId_other _ _ _ (by decide)]
  unfold stImg2
  rw [getv_setv_same]
  rw [getv_stImg1_other _ _ (by decide),
    stImages_skip _ _ him,
    getv_stAutograph_other _ _ (by decide),
    getv_stRookie_other _ _ (by decide),
    getv_stValue_other _ _ (by decide),
    getv_stPrice_other _ _ (by decide),
    getv_stQty_other _ _ (by decide),
    getv_stYear_other _ _ (by decide)]

/-- The id a normalized row carries is `normalizeText`-fixed and never
blank. -/
theorem nr_id_good (now : String) (i : Nat) (r : Obj) :
    normalizeText (getv (normalizeRow now i r) "id") =
      getv (normalizeRow now i r) "id" ∧
    getv (normalizeRow now i r) "id" ≠ "" := by
  obtain ⟨m, hm⟩ := nr_id now i r
  rw [hm]
  unfold jsOr
  by_cases h : normalizeText (cval r "id") = ""
  · rw [if_pos h]
    exact makeId_fix m i
  · rw [if_neg h]
    exact ⟨normalizeText_idem _, h⟩

/-- Re-running the per-row normalizer on its own output is the identity,
provided the run timestamp is itself a trimmed non-blank string. -/
theorem normalizeRow_idem (now now2 : String) (i j : Nat) (r : Obj)
    (hnow : normalizeText now = now) (hne : now ≠ "") :
    normalizeRow now2 j (normalizeRow now i r) = normalizeRow now i r := by
  have hkeysN := keys_normalizeRow now i r
  have hkeysN2 := keys_normalizeRow now2 j (normalizeRow now i r)
  apply obj_ext _ _ (by rw [hkeysN2, hkeysN])
    (by rw [hkeysN2]; exact canonNodup)
  intro k
  by_cases hk : k ∈ CANONICAL_HEADERS
  case neg =>
    rw [getv_eq_empty_of_not_mem _ k (by rw [hkeysN2]; exact hk),
      getv_eq_empty_of_not_mem _ k (by rw [hkeysN]; exact hk)]
  case pos =>
  have him : normalizeText (getv (normalizeRow now i r) "images") = "" := by
    rw [getv_eq_empty_of_not_mem _ "images" (by rw [hkeysN]; decide)]
    rfl
  have hplain : ∀ kk, kk ∈ CANONICAL_HEADERS →
      kk ∉ (["year", "quantity", "purchase_price", "value", "rookie",
        "autograph", "image", "image_back", "id", "timestamp", "currency",
        "condition"] : List String) →
      getv (normalizeRow now2 j (normalizeRow now i r)) kk =
        getv (normalizeRow now i r) kk := by
    intro kk hmem hnotin
    have h1 : kk ≠ "year" := fun he => hnotin (by rw [he]; decide)
    have h2 : kk ≠ "quantity" := fun he => hnotin (by rw [he]; decide)
    have h3 : kk ≠ "purchase_price" := fun he => hnotin (by rw [he]; decide)
    have h4 : kk ≠ "value" := fun he => hnotin (by rw [he]; decide)
    have h5 : kk ≠ "rookie" := fun he => hnotin (by rw [he]; decide)
    have h6 : kk ≠ "autograph" := fun he => hnotin (by rw [he]; decide)
    have h7 : kk ≠ "image" := fun he => hnotin (by rw [he]; decide)
    have h8 : kk ≠ "image_back" := fun he => hnotin (by rw [he]; decide)
    have h9 : kk ≠ "id" := fun he => hnotin (by rw [he]; decide)
    have h10 : kk ≠ "timestamp" := fun he => hnotin (by rw [he]; decide)
    have h11 : kk ≠ "currency" := fun he => hnotin (by rw [he]; decide)
    have h12 : kk ≠ "condition" := fun he => hnotin (by rw [he]; decide)
    rw [nr_plain now2 j _ kk h1 h2 h3 h4 h5 h6 h7 h8 h9 h10 h11 h12,
      cval_normalizeRow now i r kk hmem,
      nr_plain now i r kk h1 h2 h3 h4 h5 h6 h7 h8 h9 h10 h11 h12]
    exact cval_fixed r kk
  have hyear : getv (normalizeRow now2 j (normalizeRow now i r)) "year" =
      getv (normalizeRow now i r) "year" := by
    rw [nr_year now2 j _, cval_normalizeRow now i r "year" (by decide),
      nr_year now i r, normalizeText_normalizeYear]
    exact normalizeYear_idem _
  have hqty : getv (normalizeRow now2 j (normalizeRow now i r)) "quantity" =
      getv (normalizeRow now i r) "quantity" := by
    rw [nr_qty now2 j _, cval_normalizeRow now i r "quantity" (by decide),
      nr_qty now i r, normalizeText_qty]
    exact qty_fix _
  have hprice : getv (normalizeRow now2 j (normalizeRow now i r))
      "purchase_price" = getv (normalizeRow now i r) "purchase_price" := by
    rw [nr_price now2 j _,
      cval_normalizeRow now i r "purchase_price" (by decide),
      nr_price now i r, normalizeText_safeNum]
    exact safeNum_idem _
  have hvalue : getv (normalizeRow now2 j (normalizeRow now i r)) "value" =
      getv (normalizeRow now i r) "value" := by
    rw [nr_value now2 j _, cval_normalizeRow now i r "value" (by decide),
      nr_value now i r, normalizeText_safeNum]
    exact safeNum_idem _
  have hrookie : getv (normalizeRow now2 j (normalizeRow now i r)) "rookie" =
      getv (normalizeRow now i r) "rookie" := by
    rw [nr_rookie now2 j _, cval_normalizeRow now i r "rookie" (by decide),
      nr_rookie now i r, normalizeText_toBool _ (cval_fixed r "rookie")]
    exact toBool_idem _
  have hauto : getv (normalizeRow now2 j (normalizeRow now i r))
      "autograph" = getv (normalizeRow now i r) "autograph" := by
    rw [nr_autograph now2 j _,
      cval_normalizeRow now i r "autograph" (by decide),
      nr_autograph now i r, normalizeText_toBool _ (cval_fixed r "autograph")]
    exact toBool_idem _
  have himage : getv (normalizeRow now2 j (normalizeRow now i r)) "image" =
      getv (normalizeRow now i r) "image" := by
    obtain ⟨z, hz, hzcr⟩ := nr_image_strong now i r
    rw [nr_image_eq now2 j _ him,
      cval_normalizeRow now i r "image" (by decide), hz]
    obtain ⟨hnt, hni⟩ := normalizeImageUrl_fix z hzcr
    rw [hnt]
    exact hni
  have himgback : getv (normalizeRow now2 j (normalizeRow now i r))
      "image_back" = getv (normalizeRow now i r) "image_back" := by
    obtain ⟨z, hz, hzcr⟩ := nr_image_back_strong now i r
    rw [nr_image_back_eq now2 j _ him,
      cval_normalizeRow now i r "image_back" (by decide), hz]
    obtain ⟨hnt, hni⟩ := normalizeImageUrl_fix z hzcr
    rw [hnt]
    exact hni
  have hid : getv (normalizeRow now2 j (normalizeRow now i r)) "id" =
      getv (normalizeRow now i r) "id" := by
    obtain ⟨m2, hm2⟩ := nr_id now2 j (normalizeRow now i r)
    rw [hm2, cval_normalizeRow now i r "id" (by decide)]
    obtain ⟨hfix, hneid⟩ := nr_id_good now i r
    rw [normalizeText_idem, hfix]
    exact jsOr_of_ne _ _ hneid
  have hts : getv (normalizeRow now2 j (normalizeRow now i r)) "timestamp" =
      getv (normalizeRow now i r) "timestamp" := by
    rw [nr_timestamp now2 j _,
      cval_normalizeRow now i r "timestamp" (by decide),
      nr_timestamp now i r]
    have hX : normalizeText (if cval r "timestamp" = "" then now
        else cval r "timestamp") =
        (if cval r "timestamp" = "" then now else cval r "timestamp") ∧
        (if cval r "timestamp" = "" then now else cval r "timestamp") ≠ "" := by
      by_cases hc : cval r "timestamp" = ""
      · rw [if_pos hc]
        exact ⟨hnow, hne⟩
      · rw [if_neg hc]
        exact ⟨cval_fixed r "timestamp", hc⟩
    rw [hX.1, if_neg hX.2]
  have hcur : getv (normalizeRow now2 j (normalizeRow now i r)) "currency" =
      getv (normalizeRow now i r) "currency" := by
    rw [nr_currency now2 j _,
      cval_normalizeRow now i r "currency" (by decide),
      nr_currency now i r]
    have hX : normalizeText (if cval r "currency" = "" then "USD"
        else cval r "currency") =
        (if cval r "currency" = "" then "USD" else cval r "currency") ∧
        (if cval r "currency" = "" then "USD" else cval r "currency") ≠ "" := by
      by_cases hc : cval r "currency" = ""
      · rw [if_pos hc]
        exact ⟨by decide, by decide⟩
      · rw [if_neg hc]
        exact ⟨cval_fixed r "currency", hc⟩
    rw [hX.1, if_neg hX.2]
  have hcond : getv (normalizeRow now2 j (normalizeRow now i r))
      "condition" = getv (normalizeRow now i r) "condition" := by
    rw [nr_condition now2 j _,
      cval_normalizeRow now i r "condition" (by decide),
      nr_condition now i r]
    have hX : normalizeText (if cval r "condition" = "" then
        (if cval r "grade" = "" then "raw" else "graded")
        else cval r "condition") =
        (if cval r "condition" = "" then
          (if cval r "grade" = "" then "raw" else "graded")
        else cval r "condition") ∧
        (if cval r "condition" = "" then
          (if cval r "grade" = "" then "raw" else "graded")
        else cval r "condition") ≠ "" := by
      by_cases hc : cval r "condition" = ""
      · rw [if_pos hc]
        by_cases hg : cval r "grade" = ""
        · rw [if_pos hg]
          exact ⟨by decide, by decide⟩
        · rw [if_neg hg]
          exact ⟨by decide, by decide⟩
      · rw [if_neg hc]
        exact ⟨cval_fixed r "condition", hc⟩
    rw [hX.1, if_neg hX.2]
  simp only [CANONICAL_HEADERS, List.mem_cons, List.mem_singleton] at hk
  rcases hk with rfl | rfl | rfl | rfl | rfl | rfl | rfl | rfl | rfl | rfl |
    rfl | rfl | rfl | rfl | rfl | rfl | rfl | rfl | rfl | rfl | rfl | rfl |
    rfl | rfl | rfl | hnil
  · exact hid
  · exact hplain "sport" (by decide) (by decide)
  · exact hyear
  · exact hplain "set" (by decide) (by decide)
  · exact hplain "subset" (by decide) (by decide)
  · exact hplain "card_number" (by decide) (by decide)
  · exact hplain "player" (by decide) (by decide)
  · exact hplain "team" (by decide) (by decide)
  · exact hplain "league" (by decide) (by decide)
  · exact hplain "parallel" (by decide) (by decide)
  · exact hplain "insert" (by decide) (by decide)
  · exact hrookie
  · exact hauto
  · exact hplain "serial_number" (by decide) (by decide)
  · exact hplain "grade" (by decide) (by decide)
  · exact hcond
  · exact hqty
  · exact hprice
  · exact hvalue
  · exact hcur
  · exact hplain "notes" (by decide) (by decide)
  · exact himage
  · exact himgback
  · exact hplain "source" (by decide) (by decide)
  · exact hts
  · exact absurd hnil (List.not_mem_nil k)

/-- The normalized quantity is always the decimal rendering of some
integer. -/
theorem nr_qty_int (now : String) (i : Nat) (r : Obj) :
    ∃ n : Int, getv (normalizeRow now i r) "quantity" = intToString n := by
  rw [nr_qty]
  unfold safeInt
  by_cases h0 : (jsTrimChars (cval r "quantity").data).isEmpty = true
  · rw [if_pos h0]
    exact ⟨1, by decide⟩
  · rw [if_neg h0]
    cases hp : parseIntChars (jsTrimChars (cval r "quantity").data) with
    | none => exact ⟨1, by decide⟩
    | some n =>
      exact ⟨n, jsOr_of_ne _ _
        (fun hh => intToChars_ne_nil n (congrArg String.data hh))⟩

/-- A quantity whose trimmed text has no integer parse comes out as
`"1"`. -/
theorem nr_qty_default (now : String) (i : Nat) (r : Obj)
    (hp : parseIntChars (jsTrimChars (cval r "quantity").data) = none) :
    getv (normalizeRow now i r) "quantity" = "1" := by
  rw [nr_qty]
  unfold safeInt
  by_cases h0 : (jsTrimChars (cval r "quantity").data).isEmpty = true
  · rw [if_pos h0]
    rfl
  · rw [if_neg h0, hp]
    rfl

end Norm3

/-- The strict-dedupe merge writes the quantity as a non-negative
integer's decimal rendering. -/
theorem mergeRows_quantity_nonneg (o n : Obj) (hs : List String)
    (fill : Bool) (mv : String) :
    ∃ m : Int, 0 ≤ m ∧
      getv (Dedupe.mergeRows o n hs fill mv) "quantity" = intToString m := by
  refine ⟨_, ?_, Dedupe.mergeRows_quantity o n hs fill mv⟩
  have h1 : (0 : Int) ≤ Dedupe.mathMax 0 (Dedupe.toInt (getv o "quantity") 1) := by
    unfold Dedupe.mathMax
    split <;> omega
  have h2 : (0 : Int) ≤ Dedupe.mathMax 0 (Dedupe.toInt (getv n "quantity") 1) := by
    unfold Dedupe.mathMax
    split <;> omega
  omega

/-- C1: for every group of input records sharing the same Strict Duplicate
Key, the single record the dedupe pass keeps for that key has quantity
equal to the sum of the group's quantities, where each quantity is read as
a non-negative integer (integer parse clamped at 0) defaulting to 1 when
blank or unparsable; in particular merging quantities "1" and "2" yields
the literal quantity "3". -/
theorem C1_strict_dedupe_quantity_conservation :
    (∀ (headers : List String) (fill : Bool) (mv : String)
      (objs : List Obj) (k : String),
      match getEnt (Dedupe.dedupePass objs headers fill mv) k,
        objs.filter (fun o => Dedupe.buildDedupeKey o = k) with
      | some mRow, g => Dedupe.readQty mRow = (g.map Dedupe.readQty).sum
      | none, g => g = []) ∧
    getv (Dedupe.mergeRows [("quantity", "1")] [("quantity", "2")]
      ["quantity"] false "keep_old") "quantity" = "3" := by
  constructor
  · intro headers fill mv objs k
    cases hflt : objs.filter (fun o => Dedupe.buildDedupeKey o = k) with
    | nil =>
      have hnone : getEnt (Dedupe.dedupePass objs headers fill mv) k = none := by
        unfold Dedupe.dedupePass
        rw [Dedupe.dedupePass_lookup, hflt]
        rfl
      rw [hnone]
    | cons o rest =>
      have hsome : getEnt (Dedupe.dedupePass objs headers fill mv) k =
          some (Dedupe.groupMerge headers fill mv o rest) := by
        unfold Dedupe.dedupePass
        rw [Dedupe.dedupePass_lookup, hflt]
        rfl
      rw [hsome]
      show Dedupe.readQty (Dedupe.groupMerge headers fill mv o rest) =
        ((o :: rest).map Dedupe.readQty).sum
      rw [Dedupe.readQty_groupMerge]
      simp
  · decide

/-- C3 counterexample: a record lacking an id does not get an id that is a
function of its identity and variant fields — the fallback id is
positional. Two rows with byte-identical contents, hence identical
identity and variant fields (both before and after normalization), are
assigned the distinct ids `row_1` and `row_2` depending only on their
index. -/
theorem C3_counterexample_positional_id :
    getv (Norm3.normalizeRow "t" 0 [("sport", "baseball")]) "id" =
      "row_1" ∧
    getv (Norm3.normalizeRow "t" 1 [("sport", "baseball")]) "id" =
      "row_2" ∧
    Norm3.idKeyFields (Norm3.normalizeRow "t" 0 [("sport", "baseball")]) =
      Norm3.idKeyFields (Norm3.normalizeRow "t" 1 [("sport", "baseball")]) :=
  ⟨rfl, rfl, rfl⟩

/-- C3 (amended): per-row normalization is idempotent — re-normalizing a
normalized row changes nothing, for any run timestamp that is itself a
trimmed non-blank string and regardless of the row index used on the
second pass — and the synthesized id is a function of the identity and
variant fields alone whenever at least one of those fields is non-blank
(only fully blank identity keys fall back to the positional `row_N`
id). -/
theorem C3_amended_idempotent_id_positional_only_when_blank :
    (∀ (now now2 : String) (i j : Nat) (r : Obj),
      Norm3.normalizeText now = now → now ≠ "" →
      Norm3.normalizeRow now2 j (Norm3.normalizeRow now i r) =
        Norm3.normalizeRow now i r) ∧
    (∀ (o o2 : Obj) (i j : Nat),
      (Norm3.idKeyFields o).map Norm3.lowTrim =
        (Norm3.idKeyFields o2).map Norm3.lowTrim →
      Norm3.joinBar (((Norm3.idKeyFields o).map Norm3.lowTrim).filter
        (fun x => !(decide (x = "")))) ≠ "" →
      Norm3.makeId o i = Norm3.makeId o2 j) := by
  constructor
  · intro now now2 i j r hnow hne
    exact Norm3.normalizeRow_idem now now2 i j r hnow hne
  · intro o o2 i j hfields hkey
    unfold Norm3.makeId
    rw [← hfields, if_neg hkey, if_neg hkey]

/-- C3 amended theorem at a concrete input: a one-field row is unchanged
by a second normalization pass, and equal identity fields (up to trim and
case) with a non-blank key give equal hashed ids at different row
indices. -/
theorem C3_amended_idempotent_id_positional_only_when_blank_witness :
    Norm3.normalizeRow "u" 1 (Norm3.normalizeRow "t" 0 [("player", "Foo")]) =
      Norm3.normalizeRow "t" 0 [("player", "Foo")] ∧
    Norm3.makeId [("player", "A")] 0 = Norm3.makeId [("player", "a")] 5 :=
  ⟨(C3_amended_idempotent_id_positional_only_when_blank).1 "t" "u" 0 1
      [("player", "Foo")] (by decide) (by decide),
    (C3_amended_idempotent_id_positional_only_when_blank).2
      [("player", "A")] [("player", "a")] 0 5 (by decide) (by decide)⟩

/-- C8 counterexample: normalization does not clamp quantities to
non-negative values — an input quantity of `-5` survives as the negative
integer rendering `-5`. -/
theorem C8_counterexample_negative_quantity :
    getv (Norm3.normalizeRow "t" 0 [("quantity", "-5")]) "quantity" =
      intToString (-5) := rfl

/-- C8 (amended): the normalized quantity is always the decimal rendering
of some integer (possibly negative), a blank or unparsable quantity
defaults to `"1"`, and the strict-dedupe merge produces a non-negative
integer quantity. -/
theorem C8_amended_quantity_integer_shape :
    (∀ (now : String) (i : Nat) (r : Obj),
      ∃ n : Int, getv (Norm3.normalizeRow now i r) "quantity" =
        intToString n) ∧
    (∀ (now : String) (i : Nat) (r : Obj),
      parseIntChars (jsTrimChars (Norm3.cval r "quantity").data) = none →
      getv (Norm3.normalizeRow now i r) "quantity" = "1") ∧
    (∀ (o n : Obj) (hs : List String) (fill : Bool) (mv : String),
      ∃ m : Int, 0 ≤ m ∧
        getv (Dedupe.mergeRows o n hs fill mv) "quantity" =
          intToString m) :=
  ⟨fun now i r => Norm3.nr_qty_int now i r,
   fun now i r hp => Norm3.nr_qty_default now i r hp,
   fun o n hs fill mv => mergeRows_quantity_nonneg o n hs fill mv⟩

/-- C8 amended theorem at concrete inputs: quantity `"7"` is an integer
rendering, quantity `"abc"` defaults to `"1"`, and merging quantities `1`
and `2` yields a non-negative integer. -/
theorem C8_amended_quantity_integer_shape_witness :
    (∃ n : Int, getv (Norm3.normalizeRow "t" 0 [("quantity", "7")])
      "quantity" = intToString n) ∧
    getv (Norm3.normalizeRow "t" 0 [("quantity", "abc")]) "quantity" =
      "1" ∧
    (∃ m : Int, 0 ≤ m ∧ getv (Dedupe.mergeRows [("quantity", "1")]
      [("quantity", "2")] ["quantity"] false "keep_old") "quantity" =
        intToString m) :=
  ⟨C8_amended_quantity_integer_shape.1 "t" 0 [("quantity", "7")],
   C8_amended_quantity_integer_shape.2.1 "t" 0 [("quantity", "abc")]
     (by decide),
   C8_amended_quantity_integer_shape.2.2 [("quantity", "1")]
     [("quantity", "2")] ["quantity"] false "keep_old"⟩

/-- Observable file-system and process events of a run. -/
inductive Ev : Type
  | readEv (p : String)
  | writeEv (p : String)
  | errEv (m : String)
  | exitEv (code : Nat) : Ev
deriving DecidableEq

/-- `readFileOrThrow` of the hybrid merger: a missing file throws
`File not found: <path>`. -/
def readFileOrThrow (fsys : String → Option String) (p : String) :
    Except String String :=
  match fsys p with
  | none => Except.error ("File not found: " ++ p)
  | some t => Except.ok t

/-- IO skeleton of the hybrid merger's `main`: both inputs are read
before anything is written; an uncaught `readFileOrThrow` error prints
the message and ends the process with exit code 1. The pure
transformation between the reads and the writes is the continuation
`rest`. -/
def runHybridMain (fsys : String → Option String)
    (oldPath newPath : String) (rest : String → String → List Ev) :
    List Ev :=
  match readFileOrThrow fsys oldPath with
  | Except.error m => [Ev.errEv m, Ev.exitEv 1]
  | Except.ok oldText =>
    match readFileOrThrow fsys newPath with
    | Except.error m => [Ev.errEv m, Ev.exitEv 1]
    | Except.ok newText => rest oldText newText

/-- IO skeleton of the deduper's `main`: the `existsSync` guard reports
`❌ Input not found: <path>` and exits with code 1 before any read or
write; the rest of the run is the continuation `rest` on the file's
text. -/
def runDedupeMain (fsys : String → Option String) (inPath : String)
    (rest : String → List Ev) : List Ev :=
  match fsys inPath with
  | none => [Ev.errEv ("❌ Input not found: " ++ inPath), Ev.exitEv 1]
  | some raw => rest raw

/-- Key lookup is invariant under reordering of a record's fields when
the field names are distinct. -/
theorem getEnt_perm {o o2 : Obj} (hp : List.Perm o o2) :
    (o.map Prod.fst).Nodup → ∀ k, getEnt o k = getEnt o2 k := by
  induction hp with
  | nil => intro _ k; rfl
  | cons e _ ih =>
    intro hn k
    rw [List.map_cons] at hn
    show (if e.1 = k then some e.2 else getEnt _ k) =
      (if e.1 = k then some e.2 else getEnt _ k)
    by_cases he : e.1 = k
    · rw [if_pos he, if_pos he]
    · rw [if_neg he, if_neg he]
      exact ih (List.nodup_cons.1 hn).2 k
  | swap x y l =>
    intro hn k
    have hyx : y.1 ≠ x.1 := by
      rw [List.map_cons, List.map_cons] at hn
      have h1 := (List.nodup_cons.1 hn).1
      exact fun he => h1 (by rw [he]; exact List.mem_cons_self _ _)
    show (if y.1 = k then some y.2 else
        if x.1 = k then some x.2 else getEnt l k) =
      (if x.1 = k then some x.2 else
        if y.1 = k then some y.2 else getEnt l k)
    by_cases hy : y.1 = k
    · rw [if_pos hy]
      by_cases hx : x.1 = k
      · exact absurd (hy.trans hx.symm) hyx
      · rw [if_neg hx, if_pos hy]
    · rw [if_neg hy]
      by_cases hx : x.1 = k
      · rw [if_pos hx, if_pos hx]
      · rw [if_neg hx, if_neg hx, if_neg hy]
  | trans h1 h2 ih1 ih2 =>
    intro hn k
    rw [ih1 hn k, ih2 ((h1.map Prod.fst).nodup_iff.1 hn) k]

theorem getv_perm {o o2 : Obj} (hp : List.Perm o o2)
    (hn : (o.map Prod.fst).Nodup) (k : String) : getv o k = getv o2 k := by
  unfold getv
  rw [getEnt_perm hp hn k]

theorem hasK_perm {o o2 : Obj} (hp : List.Perm o o2)
    (hn : (o.map Prod.fst).Nodup) (k : String) : hasK o k = hasK o2 k := by
  unfold hasK
  rw [getEnt_perm hp hn k]

theorem getField_perm {o o2 : Obj} (hp : List.Perm o o2)
    (hn : (o.map Prod.fst).Nodup) :
    ∀ gs, Hybrid.getField o gs = Hybrid.getField o2 gs := by
  intro gs
  induction gs with
  | nil => rfl
  | cons g rest ih =>
    show (if hasK o g = true then getv o g else Hybrid.getField o rest) =
      (if hasK o2 g = true then getv o2 g else Hybrid.getField o2 rest)
    rw [hasK_perm hp hn g, getv_perm hp hn g, ih]

theorem keyFromNew_perm {o o2 : Obj} (hp : List.Perm o o2)
    (hn : (o.map Prod.fst).Nodup) :
    Hybrid.keyFromNew o = Hybrid.keyFromNew o2 := by
  unfold Hybrid.keyFromNew
  rw [getv_perm hp hn "player", getv_perm hp hn "set",
    getv_perm hp hn "card_number", getv_perm hp hn "year"]

theorem keyFromOld_perm {o o2 : Obj} (hp : List.Perm o o2)
    (hn : (o.map Prod.fst).Nodup) :
    Hybrid.keyFromOld o = Hybrid.keyFromOld o2 := by
  unfold Hybrid.keyFromOld
  simp only [getField_perm hp hn]

theorem buildDedupeKey_perm {o o2 : Obj} (hp : List.Perm o o2)
    (hn : (o.map Prod.fst).Nodup) :
    Dedupe.buildDedupeKey o = Dedupe.buildDedupeKey o2 := by
  unfold Dedupe.buildDedupeKey
  simp only [getv_perm hp hn]

/-- C6 counterexample: the strict-duplicate key does not normalize
diacritics — `José Ramírez` and `jose ramirez` receive different strict
keys — while the hybrid reconciliation identity key does deburr them to
the same key. -/
theorem C6_counterexample_strict_key_diacritics :
    Dedupe.buildDedupeKey [("player", "José Ramírez")] ≠
      Dedupe.buildDedupeKey [("player", "jose ramirez")] ∧
    Hybrid.keyFromNew [("player", "José Ramírez")] =
      Hybrid.keyFromNew [("player", "jose ramirez")] :=
  ⟨by decide, by decide⟩

/-- C6 (amended): all key builders are invariant under field reordering
(for records with distinct field names); the hybrid identity key is also
invariant under whitespace, case and diacritic differences (witnessed on
`José Ramírez`), while the strict-duplicate key normalizes whitespace and
case but not diacritics. -/
theorem C6_amended_key_invariances :
    (∀ (o o2 : Obj), List.Perm o o2 → (o.map Prod.fst).Nodup →
      Hybrid.keyFromNew o = Hybrid.keyFromNew o2 ∧
      Hybrid.keyFromOld o = Hybrid.keyFromOld o2 ∧
      Dedupe.buildDedupeKey o = Dedupe.buildDedupeKey o2) ∧
    Hybrid.keyFromNew [("player", "José Ramírez")] =
      Hybrid.keyFromNew [("player", "  jose   RAMIREZ ")] ∧
    Dedupe.buildDedupeKey [("player", " Jose  RAMIREZ ")] =
      Dedupe.buildDedupeKey [("player", "jose ramirez")] :=
  ⟨fun o o2 hp hn => ⟨keyFromNew_perm hp hn, keyFromOld_perm hp hn,
    buildDedupeKey_perm hp hn⟩, by decide, by decide⟩

/-- C6 amended theorem at a concrete input: swapping the two fields of a
two-field record leaves both keys unchanged. -/
theorem C6_amended_key_invariances_witness :
    Hybrid.keyFromNew [("player", "A"), ("set", "B")] =
      Hybrid.keyFromNew [("set", "B"), ("player", "A")] ∧
    Dedupe.buildDedupeKey [("player", "A"), ("set", "B")] =
      Dedupe.buildDedupeKey [("set", "B"), ("player", "A")] := by
  have h := C6_amended_key_invariances.1 [("player", "A"), ("set", "B")]
    [("set", "B"), ("player", "A")]
    (List.Perm.swap ("set", "B") ("player", "A") []) (by decide)
  exact ⟨h.1, h.2.2⟩

/-- Spec-side year predicate (from the specification's words, for
comparison): a 4-character string matching `(19|20)\d\d`. -/
def specYearShape (s : String) : Bool :=
  match s.data with
  | [c1, c2, c3, c4] =>
    (((c1 = '1' && c2 = '9') || (c1 = '2' && c2 = '0')) &&
      isDigitCh c3 && isDigitCh c4)
  | _ => false

/-- Spec-side year invariant: empty, or a plausible 4-digit year. -/
def specYearOk (s : String) : Bool := s = "" || specYearShape s

/-- C9 counterexample: the year field is not always empty-or-playable
4-digit — an input year `"555"` has no `(19|20)\d\d` match, and the
fallback integer parse lets `"555"` through as the normalized year. -/
theorem C9_counterexample_nonyear_integer_leaks :
    getv (Norm3.normalizeRow "t" 0 [("year", "555")]) "year" = "555" ∧
    specYearOk "555" = false :=
  ⟨rfl, rfl⟩

/-- C9 (amended): the normalized year is either empty-or-`(19|20)\d\d`
(the first such match, in particular `"2023"` from the season range
`"2023-24"`), or — through the `safeInt` fallback on inputs with no such
match — the decimal rendering of an arbitrary parsed integer. -/
theorem C9_amended_year_shape_or_integer_fallback :
    (∀ (now : String) (i : Nat) (r : Obj),
      specYearOk (getv (Norm3.normalizeRow now i r) "year") = true ∨
      ∃ n : Int, getv (Norm3.normalizeRow now i r) "year" =
        intToString n) ∧
    getv (Norm3.normalizeRow "t" 0 [("year", "2023-24")]) "year" =
      "2023" := by
  constructor
  · intro now i r
    rw [Norm3.nr_year]
    unfold Norm3.normalizeYear
    by_cases h0 : (jsTrimChars (Norm3.cval r "year").data).isEmpty = true
    · rw [if_pos h0]
      left
      decide
    · rw [if_neg h0]
      cases hf : findYearPlain (jsTrimChars (Norm3.cval r "year").data) with
      | some y =>
        left
        obtain ⟨c1, c2, c3, c4, hy, hcond⟩ := Norm3.findYearPlain_shape _ y hf
        rw [hy]
        unfold specYearOk
        simp only [Bool.or_eq_true]
        right
        show (((c1 = '1' && c2 = '9') || (c1 = '2' && c2 = '0')) &&
          isDigitCh c3 && isDigitCh c4) = true
        exact hcond
      | none =>
        unfold Norm3.safeInt
        rw [show ((⟨jsTrimChars (Norm3.cval r "year").data⟩ : String).data) =
          jsTrimChars (Norm3.cval r "year").data from rfl, jsTrimChars_idem,
          if_neg h0]
        cases hp : parseIntChars (jsTrimChars (Norm3.cval r "year").data) with
        | none =>
          left
          decide
        | some n =>
          right
          exact ⟨n, rfl⟩
  · rfl

/-- C10: a missing required input makes either script abort with exit
code 1 and an error message naming the attempted path, and the aborted
run performs no file write at all. -/
theorem C10_missing_input_aborts_before_writes :
    (∀ (fsys : String → Option String) (inPath : String)
      (rest : String → List Ev), fsys inPath = none →
      runDedupeMain fsys inPath rest =
        [Ev.errEv ("❌ Input not found: " ++ inPath), Ev.exitEv 1] ∧
      ∀ p, Ev.writeEv p ∉ runDedupeMain fsys inPath rest) ∧
    (∀ (fsys : String → Option String) (oldPath newPath : String)
      (rest : String → String → List Ev), fsys oldPath = none →
      runHybridMain fsys oldPath newPath rest =
        [Ev.errEv ("File not found: " ++ oldPath), Ev.exitEv 1] ∧
      ∀ p, Ev.writeEv p ∉ runHybridMain fsys oldPath newPath rest) ∧
    (∀ (fsys : String → Option String) (oldPath newPath : String)
      (rest : String → String → List Ev), fsys newPath = none →
      (∃ t, fsys oldPath = some t) →
      runHybridMain fsys oldPath newPath rest =
        [Ev.errEv ("File not found: " ++ newPath), Ev.exitEv 1] ∧
      ∀ p, Ev.writeEv p ∉ runHybridMain fsys oldPath newPath rest) := by
  refine ⟨?_, ?_, ?_⟩
  · intro fsys inPath rest h
    have he : runDedupeMain fsys inPath rest =
        [Ev.errEv ("❌ Input not found: " ++ inPath), Ev.exitEv 1] := by
      unfold runDedupeMain
      rw [h]
    refine ⟨he, ?_⟩
    intro p hmem
    rw [he] at hmem
    simp at hmem
  · intro fsys oldPath newPath rest h
    have he : runHybridMain fsys oldPath newPath rest =
        [Ev.errEv ("File not found: " ++ oldPath), Ev.exitEv 1] := by
      unfold runHybridMain readFileOrThrow
      rw [h]
    refine ⟨he, ?_⟩
    intro p hmem
    rw [he] at hmem
    simp at hmem
  · intro fsys oldPath newPath rest h hold
    obtain ⟨t, ht⟩ := hold
    have he : runHybridMain fsys oldPath newPath rest =
        [Ev.errEv ("File not found: " ++ newPath), Ev.exitEv 1] := by
      unfold runHybridMain readFileOrThrow
      rw [h, ht]
    refine ⟨he, ?_⟩
    intro p hmem
    rw [he] at hmem
    simp at hmem

/-- C10 theorem at concrete inputs: with an empty file system the
deduper and the merger both abort naming their input path and write
nothing; with only the old input present the merger aborts naming the
new path. -/
theorem C10_missing_input_aborts_before_writes_witness :
    (runDedupeMain (fun _ => none) "data/inventory.hybrid.csv"
        (fun _ => []) =
      [Ev.errEv ("❌ Input not found: " ++ "data/inventory.hybrid.csv"),
        Ev.exitEv 1] ∧
      ∀ p, Ev.writeEv p ∉ runDedupeMain (fun _ => none)
        "data/inventory.hybrid.csv" (fun _ => [])) ∧
    (runHybridMain (fun p => if p = "old.csv" then some "" else none)
        "old.csv" "new.csv" (fun _ _ => []) =
      [Ev.errEv ("File not found: " ++ "new.csv"), Ev.exitEv 1] ∧
      ∀ p, Ev.writeEv p ∉ runHybridMain
        (fun p => if p = "old.csv" then some "" else none)
        "old.csv" "new.csv" (fun _ _ => [])) :=
  ⟨C10_missing_input_aborts_before_writes.1 (fun _ => none)
      "data/inventory.hybrid.csv" (fun _ => []) rfl,
    C10_missing_input_aborts_before_writes.2.2
      (fun p => if p = "old.csv" then some "" else none)
      "old.csv" "new.csv" (fun _ _ => []) (by decide) ⟨"", by decide⟩⟩

end CardPipe
